import Mathlib

/-!
# VocabXR: adaptive question engine and session driver

A shallow embedding of `src/data.js` (word statistics, difficulty, weighted
sampling, `buildQuestion`, `shuffle`) and of the session driver of
`src/main.js` (`handleUIButton`, `resetRoundState`, `startQuestionRound`,
`evaluateAnswer`, the auto-advance timer, `gameOver`,
`updateStatsOnGameOver`), together with the one piece of `src/hud.js` the
driver depends on (which buttons `getUIObjects` offers).

Modelling conventions.

* JavaScript numbers are exact: rationals (`ℚ`) where the source computes with
  fractions, `Nat`/`Int` for counters. `Math.round x` is `⌊x + 1/2⌋`. Two
  places go further. `updateStatsOnGameOver` rounds its quotient and product
  to binary64 (`toDouble`), since its arguments are not bounded by the round
  size. `difficultyOfParsed` repeats `difficultyFor` on records whose fields
  may be `Infinity`, `-Infinity` or `NaN` (`JsNum`), which `JSON.parse` yields
  for stored numerals such as `1e400`.
* `Math.random()` is a stream of draws `u` with `0 ≤ u < 1`; the number of
  calls made so far is threaded through the functions that draw.
* `localStorage` is a pair of key-value maps holding the parsed records; the
  wall-clock fields `lastSeen` / `lastPlayed` are not modelled (no computation
  reads them) and storage exceptions are outside the model.
* A catalog entry object is the pair of its position in `pkg.entries` and its
  record; `!==` on entry objects is inequality of these pairs.
* `String.prototype.toLowerCase` is a parameter of the host.
* `Array.prototype.sort` is stable; it is modelled by insertion sort with the
  comparator's order.
* Rendering, audio, haptics and scene placement are omitted.
-/

namespace VocabXR

/-! ## The JavaScript host -/

/-- A result of `Math.random()`: a number `u` with `0 ≤ u < 1`. -/
structure Draw where
  val : ℚ
  nonneg : 0 ≤ val
  lt_one : val < 1

/-- The host functions the program calls: `toLowerCase` on strings and the
sequence of results of successive `Math.random()` calls. -/
structure Host where
  toLowerCase : String → String
  random : Nat → Draw

/-- `Math.round`: the nearest integer, halves rounded up. -/
def jsRound (x : ℚ) : Int := ⌊x + 1 / 2⌋

/-- Rounding to the nearest integer, a tie going to the even one. -/
def roundHalfEven (y : ℚ) : Int :=
  if y - ⌊y⌋ < 1 / 2 then ⌊y⌋
  else if 1 / 2 < y - ⌊y⌋ then ⌊y⌋ + 1
  else if ⌊y⌋ % 2 = 0 then ⌊y⌋
  else ⌊y⌋ + 1

/-- The power `2^e` for an integer exponent. -/
def pow2 (e : Int) : ℚ :=
  if 0 ≤ e then ((2 ^ e.toNat : Nat) : ℚ) else 1 / ((2 ^ (-e).toNat : Nat) : ℚ)

/-- For `x ≥ 1`: the exponent `e` with `2^e ≤ x < 2^(e+1)`, found by halving
(at most `fuel` times), counted from `e`. -/
def expUp : Nat → ℚ → Int → Int
  | 0, _, e => e
  | fuel + 1, x, e => if x < 2 then e else expUp fuel (x / 2) (e + 1)

/-- For `0 < x < 1`: the exponent `e` with `2^e ≤ x < 2^(e+1)`, found by
doubling (at most `fuel` times), counted from `e`. -/
def expDown : Nat → ℚ → Int → Int
  | 0, _, e => e
  | fuel + 1, x, e => if 1 ≤ x then e else expDown fuel (x * 2) (e - 1)

/-- The binary exponent of a positive number within the range of the normal
binary64 numbers. -/
def binExp (x : ℚ) : Int := if 1 ≤ x then expUp 1100 x 0 else expDown 1100 x 0

/-- The binary64 number nearest to `x` (ties to the even significand), as
every arithmetic operation of JavaScript delivers it; exact for `x` within
the range of the normal binary64 numbers (no overflow to `Infinity`, no
subnormal result). -/
def toDouble (x : ℚ) : ℚ :=
  if x = 0 then 0
  else
    (if x < 0 then -1 else 1) *
      ((roundHalfEven (|x| / pow2 (binExp |x| - 52)) : ℚ) * pow2 (binExp |x| - 52))

/-- `Math.floor(u * n)` as an array index. -/
def floorIndex (u : Draw) (n : Nat) : Nat := (⌊u.val * (n : ℚ)⌋).toNat

/-- The expression `s || d` on strings: the empty string is falsy. -/
def strOr (s d : String) : String := if s = "" then d else s

/-- The expression `t || null` on a string-or-null value. -/
def orNull : Option String → Option String
  | some s => if s = "" then none else some s
  | none => none

/-- `Array.prototype.findIndex`: the first index satisfying `p`, or `-1`. -/
def findIndex {α : Type} (p : α → Bool) (xs : List α) : Int :=
  if xs.findIdx p < xs.length then (xs.findIdx p : Int) else -1

/-! ## data.js -/

/-- A catalog entry after `loadWords` normalisation. -/
structure Entry where
  en : String
  de : String
  topic : String
  hint : String
deriving DecidableEq

/-- The loaded word package `{ topics, entries }`. -/
structure Pkg where
  topics : List String
  entries : List Entry

/-- An entry object: position in `pkg.entries` (its identity) and record. -/
abbrev EntryRef := Nat × Entry

/-- The stored per-word record `{ seen, correct, wrong, streakWord }`. -/
structure WordStats where
  seen : ℚ
  correct : ℚ
  wrong : ℚ
  streakWord : ℚ
deriving DecidableEq

/-- The word-statistics part of `localStorage`, by key. -/
abbrev WordStore := String → Option WordStats

/-- `storage.setItem(key, value)`. -/
def setItem {β : Type} (store : String → Option β) (key : String) (value : β) :
    String → Option β :=
  fun k => if k = key then some value else store k

/-- `wordKey(topic, en)`. -/
def wordKey (host : Host) (topic en : String) : String :=
  "vocabxr:word:" ++ strOr topic "All" ++ ":" ++ host.toLowerCase en

/-- The default record returned when nothing is stored. -/
def zeroStats : WordStats := { seen := 0, correct := 0, wrong := 0, streakWord := 0 }

/-- `getWordStats(topic, en)`. -/
def getWordStats (host : Host) (store : WordStore) (topic en : String) : WordStats :=
  match store (wordKey host topic en) with
  | some raw => raw
  | none => zeroStats

/-- `updateWordStats(topic, en, wasCorrect)`: the new record and the store
after writing it. -/
def updateWordStats (host : Host) (store : WordStore) (topic en : String)
    (wasCorrect : Bool) : WordStats × WordStore :=
  let prev := getWordStats host store topic en
  let next : WordStats :=
    { seen := prev.seen + 1
      correct := prev.correct + (if wasCorrect then 1 else 0)
      wrong := prev.wrong + (if wasCorrect then 0 else 1)
      streakWord := if wasCorrect then prev.streakWord + 1 else 0 }
  (next, setItem store (wordKey host topic en) next)

/-- `difficultyFor(topic, en)`. -/
def difficultyFor (host : Host) (store : WordStore) (topic en : String) : ℚ :=
  let s := getWordStats host store topic en
  let base := 1 + s.wrong - (1 / 2) * s.correct
  let recentPenalty : ℚ := if s.streakWord = 0 ∧ s.seen > 0 then 1 / 2 else 0
  max (1 / 2) (min 4 (base + recentPenalty))

/-- `listByTopic(pkg, topic)`; the entries come with their identity. -/
def listByTopic (pkg : Option Pkg) (topic : Option String) : List EntryRef :=
  match pkg with
  | none => []
  | some p =>
    match topic with
    | none => p.entries.enum
    | some t =>
      if t = "" then p.entries.enum
      else p.entries.enum.filter (fun e => decide (e.2.topic = t))

/-- The loop of `weightedSample`: subtract the weights from `r` and return the
first candidate at which `r ≤ 0`; `none` when the loop runs to its end (a
missing weight makes `r` not-a-number, which is never `≤ 0`). -/
def weightedWalk {α : Type} : List α → List ℚ → ℚ → Option α
  | [], _, _ => none
  | _ :: _, [], _ => none
  | p :: ps, w :: ws, r => if r - w ≤ 0 then some p else weightedWalk ps ws (r - w)

/-- `weightedSample(pool, weights)` with `u` the result of its one
`Math.random()` call; `none` is `undefined` (empty pool). -/
def weightedSample {α : Type} (pool : List α) (weights : List ℚ) (u : Draw) : Option α :=
  let sum := weights.foldl (fun a b => a + b) 0
  if sum ≤ 0 then pool[floorIndex u pool.length]?
  else
    match weightedWalk pool weights (u.val * sum) with
    | some p => some p
    | none => pool.getLast?

/-- The statements `t = a[i]; a[i] = a[j]; a[j] = t` on valid indices. -/
def swap {α : Type} (a : List α) (i j : Nat) : List α :=
  match a[i]?, a[j]? with
  | some x, some y => (a.set i y).set j x
  | _, _ => a

/-- The loop of `shuffle` from index `i` down to `1`; `pos` counts the
`Math.random()` calls. -/
def shuffleLoop {α : Type} (host : Host) : Nat → Nat → List α → List α × Nat
  | 0, pos, a => (a, pos)
  | i + 1, pos, a =>
    let j := floorIndex (host.random pos) (i + 2)
    shuffleLoop host i (pos + 1) (swap a (i + 1) j)

/-- `shuffle(arr)`: the shuffled copy and the new call count. The `| 0` of the
source truncates, which is `Math.floor` on the non-negative product. -/
def shuffle {α : Type} (host : Host) (pos : Nat) (arr : List α) : List α × Nat :=
  shuffleLoop host (arr.length - 1) pos arr

/-- An element of the result of `getHardestWords`. -/
structure HardWord where
  en : String
  de : String
  topic : String
  diff : ℚ
deriving DecidableEq

/-- `getHardestWords(pkg, topic, count)`; `Array.prototype.sort` is stable,
and the comparator `b.diff - a.diff` orders by descending `diff`. -/
def getHardestWords (host : Host) (store : WordStore) (pkg : Option Pkg)
    (topic : Option String) (count : Int) : List HardWord :=
  let pool := listByTopic pkg topic
  let scored : List HardWord := pool.map (fun e =>
    { en := e.2.en, de := e.2.de, topic := e.2.topic
      diff := difficultyFor host store e.2.topic e.2.en })
  let sorted := scored.insertionSort (fun a b => b.diff ≤ a.diff)
  sorted.take (max 0 count).toNat

/-- The options object passed to `buildQuestion`; an absent field is `none`. -/
structure Opts where
  topic : Option String
  maxOptions : Option Int
  onlyPool : Option (List String)
  adaptive : Bool
  weightFactor : Option ℚ

/-- An answer option `{ en }`. -/
structure AnswerOption where
  en : String
deriving DecidableEq

/-- The result of `buildQuestion`. -/
structure Question where
  prompt : Entry
  options : List AnswerOption
  correctIndex : Int
deriving DecidableEq

/-- The prompt selection of `buildQuestion` (the block "Prompt wählen") with
`u` the result of its one `Math.random()` call; `none` is `undefined`. -/
def choosePrompt (host : Host) (store : WordStore) (pool : List EntryRef) (adaptive : Bool)
    (onlyPool : Option (List String)) (weightFactor : ℚ) (u : Draw) : Option EntryRef :=
  if adaptive && onlyPool.isNone then
    let weights := pool.map (fun e =>
      let d := difficultyFor host store e.2.topic e.2.en
      max (1 / 5) (1 + weightFactor * (d - 1)))
    weightedSample pool weights u
  else pool[floorIndex u pool.length]?

/-- The rest of `buildQuestion` once the prompt entry is chosen (the block
"Optionen zusammenstellen" and the returned object), started after `pos`
calls of `Math.random()`. -/
def assembleQuestion (host : Host) (pkg : Option Pkg) (pool : List EntryRef)
    (maxOptions : Int) (promptEntry : EntryRef) (pos : Nat) : Question × Nat :=
  let others := pool.filter (fun e => decide (e ≠ promptEntry))
  let optsPool :=
    if !others.isEmpty then others
    else (listByTopic pkg none).filter (fun e => decide (e ≠ promptEntry))
  let sh := shuffle host pos optsPool
  let shuffled := sh.1.take (max 0 (maxOptions - 1)).toNat
  let final := promptEntry :: shuffled
  let lab := shuffle host sh.2 (final.map (fun e => e.2.en))
  let optionLabels := lab.1
  let correctIndex := findIndex (fun l => decide (l = promptEntry.2.en)) optionLabels
  ({ prompt := promptEntry.2
     options := optionLabels.map AnswerOption.mk
     correctIndex := correctIndex }, lab.2)

/-- `buildQuestion(pkg, opts)`, started after `pos` calls of `Math.random()`:
the question (`none` is `null`) and the new call count. An `undefined` prompt
entry would make the source throw; the pool is non-empty where the prompt is
chosen, and `choosePrompt_isSome` shows that the choice is then defined. -/
def buildQuestion (host : Host) (store : WordStore) (pkg : Option Pkg) (opts : Opts)
    (pos : Nat) : Option Question × Nat :=
  let topic := orNull opts.topic
  let maxOptions : Int :=
    max 2 (match opts.maxOptions with
           | none => 4
           | some m => if m = 0 then 4 else m)
  let onlyPool := opts.onlyPool.map (fun l => l.map host.toLowerCase)
  let adaptive := opts.adaptive
  let weightFactor : ℚ := opts.weightFactor.getD (6 / 5)
  let pool0 := listByTopic pkg topic
  if pool0.isEmpty then (none, pos)
  else
    let forced : Bool := match onlyPool with
      | some (_ :: _) => true
      | _ => false
    let pool :=
      if forced then
        pool0.filter (fun e => (onlyPool.getD []).contains (host.toLowerCase e.2.en))
      else pool0
    if forced && pool.isEmpty then (none, pos)
    else
      match choosePrompt host store pool adaptive onlyPool weightFactor (host.random pos) with
      | none => (none, pos + 1)
      | some promptEntry =>
        let built := assembleQuestion host pkg pool maxOptions promptEntry (pos + 1)
        (some built.1, built.2)

/-- `getTopics(pkg)`: the distinct values of `e.topic || "Misc"` in order of
first occurrence. -/
def getTopics (pkg : Option Pkg) : List String :=
  match pkg with
  | none => []
  | some p =>
    p.entries.foldl (fun set e =>
      if strOr e.topic "Misc" ∈ set then set else set ++ [strOr e.topic "Misc"]) []

/-! ## data.js: records with non-finite numbers -/

/-- A JavaScript number by its class: a finite value (taken exactly),
`Infinity`, `-Infinity` or `NaN`. `JSON.parse` yields the infinities for
numerals beyond the binary64 range, such as `1e400`. -/
inductive JsNum where
  | fin (q : ℚ)
  | posInf
  | negInf
  | nan
deriving DecidableEq

/-- The operator `+` on numbers. -/
def JsNum.add : JsNum → JsNum → JsNum
  | JsNum.fin a, JsNum.fin b => JsNum.fin (a + b)
  | JsNum.nan, _ => JsNum.nan
  | _, JsNum.nan => JsNum.nan
  | JsNum.posInf, JsNum.negInf => JsNum.nan
  | JsNum.negInf, JsNum.posInf => JsNum.nan
  | JsNum.posInf, _ => JsNum.posInf
  | _, JsNum.posInf => JsNum.posInf
  | JsNum.negInf, _ => JsNum.negInf
  | _, JsNum.negInf => JsNum.negInf

/-- The unary operator `-`. -/
def JsNum.neg : JsNum → JsNum
  | JsNum.fin a => JsNum.fin (-a)
  | JsNum.posInf => JsNum.negInf
  | JsNum.negInf => JsNum.posInf
  | JsNum.nan => JsNum.nan

/-- The operator `-` on numbers. -/
def JsNum.sub (a b : JsNum) : JsNum := a.add b.neg

/-- The operator `*` on numbers. -/
def JsNum.mul : JsNum → JsNum → JsNum
  | JsNum.fin a, JsNum.fin b => JsNum.fin (a * b)
  | JsNum.nan, _ => JsNum.nan
  | _, JsNum.nan => JsNum.nan
  | JsNum.fin a, JsNum.posInf =>
    if a = 0 then JsNum.nan else if 0 < a then JsNum.posInf else JsNum.negInf
  | JsNum.fin a, JsNum.negInf =>
    if a = 0 then JsNum.nan else if 0 < a then JsNum.negInf else JsNum.posInf
  | JsNum.posInf, JsNum.fin b =>
    if b = 0 then JsNum.nan else if 0 < b then JsNum.posInf else JsNum.negInf
  | JsNum.negInf, JsNum.fin b =>
    if b = 0 then JsNum.nan else if 0 < b then JsNum.negInf else JsNum.posInf
  | JsNum.posInf, JsNum.posInf => JsNum.posInf
  | JsNum.negInf, JsNum.negInf => JsNum.posInf
  | JsNum.posInf, JsNum.negInf => JsNum.negInf
  | JsNum.negInf, JsNum.posInf => JsNum.negInf

/-- `Math.min` of two numbers: `NaN` if either is. -/
def JsNum.min : JsNum → JsNum → JsNum
  | JsNum.nan, _ => JsNum.nan
  | _, JsNum.nan => JsNum.nan
  | JsNum.negInf, _ => JsNum.negInf
  | _, JsNum.negInf => JsNum.negInf
  | JsNum.posInf, b => b
  | a, JsNum.posInf => a
  | JsNum.fin a, JsNum.fin b => JsNum.fin (Min.min a b)

/-- `Math.max` of two numbers: `NaN` if either is. -/
def JsNum.max : JsNum → JsNum → JsNum
  | JsNum.nan, _ => JsNum.nan
  | _, JsNum.nan => JsNum.nan
  | JsNum.posInf, _ => JsNum.posInf
  | _, JsNum.posInf => JsNum.posInf
  | JsNum.negInf, b => b
  | a, JsNum.negInf => a
  | JsNum.fin a, JsNum.fin b => JsNum.fin (Max.max a b)

/-- The test `x === 0`. -/
def JsNum.isZero : JsNum → Bool
  | JsNum.fin a => decide (a = 0)
  | _ => false

/-- The test `x > 0`. -/
def JsNum.isPositive : JsNum → Bool
  | JsNum.fin a => decide (0 < a)
  | JsNum.posInf => true
  | _ => false

/-- A parsed per-word record whose fields are numbers of any class. -/
structure ParsedStats where
  seen : JsNum
  correct : JsNum
  wrong : JsNum
  streakWord : JsNum

/-- The statements of `difficultyFor` after `getWordStats`, on a parsed record
`s` whose fields may be infinite. -/
def difficultyOfParsed (s : ParsedStats) : JsNum :=
  let base := ((JsNum.fin 1).add s.wrong).sub ((JsNum.fin (1 / 2)).mul s.correct)
  let recentPenalty : JsNum :=
    if s.streakWord.isZero && s.seen.isPositive then JsNum.fin (1 / 2) else JsNum.fin 0
  (JsNum.fin (1 / 2)).max ((JsNum.fin 4).min (base.add recentPenalty))

/-- A record with finite fields as a parsed record. -/
def WordStats.parsed (s : WordStats) : ParsedStats :=
  { seen := JsNum.fin s.seen, correct := JsNum.fin s.correct
    wrong := JsNum.fin s.wrong, streakWord := JsNum.fin s.streakWord }

/-! ## config.js -/

/-- The fields of `CONFIG` read by the session driver. -/
structure Config where
  correctPoints : ℚ
  streakBonus : ℚ
  autoAdvanceMs : ℚ
  adaptiveEnabled : Bool
  retryAfter : Nat
  maxRetries : Nat
  weightFactor : ℚ
  reviewMax : Nat

/-- The values of `src/config.js`. -/
def CONFIG : Config :=
  { correctPoints := 100
    streakBonus := 3 / 20
    autoAdvanceMs := 1200
    adaptiveEnabled := true
    retryAfter := 3
    maxRetries := 2
    weightFactor := 6 / 5
    reviewMax := 5 }

/-! ## main.js: state -/

/-- The values of `gameState.phase`. -/
inductive Phase where
  | idle
  | awaitAnswer
  | showFeedback
  | finished
deriving DecidableEq

/-- The object `gameState`. -/
structure GameState where
  score : Int
  streak : Nat
  bestStreak : Nat
  round : Nat
  selectedTopic : Option String
  roundSize : Int
  questionsAsked : Nat
  correctCount : Nat
  phase : Phase
deriving DecidableEq

/-- An element of `retryQueue`. -/
structure RetryItem where
  en : String
  topic : String
  dueAt : Nat
  attempts : Nat
deriving DecidableEq

/-- The object `reviewMode`. -/
structure ReviewMode where
  active : Bool
  pool : List String
  index : Nat
deriving DecidableEq

/-- The stored per-topic record. -/
structure TopicStats where
  plays : Int
  totalQuestions : Int
  totalCorrect : Int
  bestScore : Int
  bestStreak : Int
  bestAccuracyPct : Int
deriving DecidableEq

/-- The topic-statistics part of `localStorage`, by key. -/
abbrev TopicStore := String → Option TopicStats

/-- The arguments of the last `hud.showSummary` call. -/
structure Summary where
  score : Int
  correct : Nat
  total : Int
  accuracyPct : Int
  bestStreak : Nat
  topicBest : TopicStats
  hardWords : List HardWord
deriving DecidableEq

/-- The module-level state of `main.js` that the session driver reads or
writes, the two stores, the visibility of the HUD summary and the number of
`Math.random()` calls made so far. -/
structure World where
  gameState : GameState
  acceptingAnswers : Bool
  autoTimer : Bool
  adaptiveOn : Bool
  retryQueue : List RetryItem
  reviewMode : ReviewMode
  lastHardWords : List HardWord
  currentQ : Option Question
  wordStore : WordStore
  topicStore : TopicStore
  summaryVisible : Bool
  summary : Option Summary
  randomCalls : Nat

/-- What is fixed during a session: the host, `CONFIG` and the loaded
`wordsPkg` (`none` when loading failed). -/
structure Env where
  host : Host
  config : Config
  wordsPkg : Option Pkg

/-- The `action` tags of the HUD buttons. -/
inductive Action where
  | topicPrev
  | topicNext
  | roundMinus
  | roundPlus
  | adaptiveToggle
  | startOrNext
  | restartRound
  | reviewOnly
  | chooseTopic
deriving DecidableEq

/-- The expression `t || d` for a string-or-null `t`. -/
def optOr (t : Option String) (d : String) : String :=
  match t with
  | some s => strOr s d
  | none => d

/-- The state after `init()`; the stores hold what earlier sessions left. -/
def initWorld (env : Env) (wordStore : WordStore) (topicStore : TopicStore) : World :=
  { gameState :=
      { score := 0, streak := 0, bestStreak := 0, round := 0
        selectedTopic := (getTopics env.wordsPkg).head?
        roundSize := 10, questionsAsked := 0, correctCount := 0, phase := Phase.idle }
    acceptingAnswers := false
    autoTimer := false
    adaptiveOn := env.config.adaptiveEnabled
    retryQueue := []
    reviewMode := { active := false, pool := [], index := 0 }
    lastHardWords := []
    currentQ := none
    wordStore := wordStore
    topicStore := topicStore
    summaryVisible := false
    summary := none
    randomCalls := 0 }

/-! ## main.js: the session driver -/

/-- `statsKey(topic)`. -/
def statsKey (topic : String) : String := "vocabxr:stats:" ++ strOr topic "All"

/-- The record used when no topic record is stored. -/
def zeroTopicStats : TopicStats :=
  { plays := 0, totalQuestions := 0, totalCorrect := 0
    bestScore := 0, bestStreak := 0, bestAccuracyPct := 0 }

/-- `loadStats(topic) || { plays: 0, ... }`. -/
def loadStats (store : TopicStore) (topic : String) : TopicStats :=
  match store (statsKey topic) with
  | some old => old
  | none => zeroTopicStats

/-- `updateStatsOnGameOver(topic, { score, correct, total, bestStreak })`: the
new record and the store after saving it. The quotient `correct / total` and
its product with `100` are binary64 numbers, rounded as the operators round
them. -/
def updateStatsOnGameOver (store : TopicStore) (topic : String)
    (score : Int) (correct : Nat) (total : Int) (bestStreak : Nat) :
    TopicStats × TopicStore :=
  let old := loadStats store topic
  let accPct : Int :=
    if total > 0 then jsRound (toDouble (toDouble ((correct : ℚ) / (total : ℚ)) * 100)) else 0
  let next : TopicStats :=
    { plays := old.plays + 1
      totalQuestions := old.totalQuestions + total
      totalCorrect := old.totalCorrect + correct
      bestScore := max old.bestScore score
      bestStreak := max old.bestStreak bestStreak
      bestAccuracyPct := max old.bestAccuracyPct accPct }
  (next, setItem store (statsKey topic) next)

/-- `resetRoundState()`. -/
def resetRoundState (w : World) : World :=
  { w with
    gameState :=
      { w.gameState with
        score := 0, streak := 0, bestStreak := 0, questionsAsked := 0
        correctCount := 0, round := 0, phase := Phase.idle }
    retryQueue := []
    autoTimer := false }

/-- `gameOver()`. -/
def gameOver (env : Env) (w : World) : World :=
  let g : GameState := { w.gameState with phase := Phase.finished }
  let total := g.roundSize
  let acc : Int :=
    if total > 0 then jsRound (((g.correctCount : ℚ) / (total : ℚ)) * 100) else 0
  let topic := optOr g.selectedTopic "All"
  let best := updateStatsOnGameOver w.topicStore topic g.score g.correctCount total g.bestStreak
  let hard := getHardestWords env.host w.wordStore env.wordsPkg (some topic) 3
  { w with
    gameState := g
    acceptingAnswers := false
    autoTimer := false
    topicStore := best.2
    lastHardWords := hard
    summaryVisible := true
    summary := some
      { score := g.score, correct := g.correctCount, total := total
        accuracyPct := acc, bestStreak := g.bestStreak
        topicBest := best.1, hardWords := hard } }

/-- The value given to `onlyPool` in `startQuestionRound`, where `asked` is
`questionsAsked` after its increment and the review pool is known not to be
exhausted. -/
def forcedPool (w : World) (asked : Nat) : Option (List String) :=
  if w.reviewMode.active then
    w.reviewMode.pool[w.reviewMode.index]?.map (fun en => [en])
  else if w.adaptiveOn && !w.retryQueue.isEmpty then
    (w.retryQueue.find? (fun it => decide (it.dueAt ≤ asked))).map (fun due => [due.en])
  else none

/-- The `options` object built in `startQuestionRound`. -/
def roundOptions (env : Env) (w : World) (onlyPool : Option (List String)) : Opts :=
  { topic := w.gameState.selectedTopic
    maxOptions := some 4
    onlyPool := onlyPool
    adaptive := w.adaptiveOn && onlyPool.isNone
    weightFactor := some env.config.weightFactor }

/-- `startQuestionRound(tbounds)`; `tbounds` tells whether bounds were passed
(`tablePlacer.getBounds()` always returns an object). The statements between
the increment of `questionsAsked` and the call of `buildQuestion` read the
review selection, the retry queue, the topic and the adaptive flag, none of
which the increment changes. -/
def startQuestionRound (env : Env) (w : World) (tbounds : Bool) : World :=
  if env.wordsPkg.isNone then w
  else if !tbounds then w
  else if (w.gameState.questionsAsked : Int) ≥ w.gameState.roundSize then gameOver env w
  else
    let asked := w.gameState.questionsAsked + 1
    let w1 : World :=
      { w with gameState := { w.gameState with questionsAsked := asked, round := asked } }
    if w.reviewMode.active && decide (w.reviewMode.index ≥ w.reviewMode.pool.length) then
      gameOver env w1
    else
      let onlyPool := forcedPool w asked
      let w2 : World :=
        if w.reviewMode.active then
          { w1 with reviewMode := { w.reviewMode with index := w.reviewMode.index + 1 } }
        else w1
      let built :=
        buildQuestion env.host w.wordStore env.wordsPkg (roundOptions env w onlyPool)
          w.randomCalls
      let w3 : World := { w2 with currentQ := built.1, randomCalls := built.2 }
      match built.1 with
      | none => w3
      | some q =>
        if q.options.isEmpty then w3
        else
          { w3 with
            gameState := { w3.gameState with phase := Phase.awaitAnswer }
            acceptingAnswers := true }

/-- The retry-queue update of `evaluateAnswer` (the block run when adaptive
mode is on and review mode is inactive). -/
def updateRetryQueue (cfg : Config) (retryQueue : List RetryItem) (enPrompt topic : String)
    (ok : Bool) (questionsAsked : Nat) : List RetryItem :=
  let idx := retryQueue.findIdx (fun it => decide (it.en = enPrompt))
  if ok then
    if idx < retryQueue.length then retryQueue.eraseIdx idx else retryQueue
  else if idx < retryQueue.length then
    match retryQueue[idx]? with
    | some item =>
      if item.attempts < cfg.maxRetries then
        retryQueue.set idx
          { item with attempts := item.attempts + 1, dueAt := questionsAsked + cfg.retryAfter }
      else retryQueue.eraseIdx idx
    | none => retryQueue
  else
    retryQueue ++
      [{ en := enPrompt, topic := topic, dueAt := questionsAsked + cfg.retryAfter, attempts := 1 }]

/-- `evaluateAnswer(mesh, ...)`; `ok` is `!!mesh.userData.correct`. -/
def evaluateAnswer (env : Env) (w : World) (ok : Bool) : World :=
  if !w.acceptingAnswers then w
  else
    let g := w.gameState
    let g1 : GameState :=
      if ok then
        let mult : ℚ := 1 + (g.streak : ℚ) * env.config.streakBonus
        let gained := jsRound (env.config.correctPoints * mult)
        { g with
          score := g.score + gained
          streak := g.streak + 1
          bestStreak := max g.bestStreak (g.streak + 1)
          correctCount := g.correctCount + 1 }
      else { g with streak := 0 }
    let topic := strOr ((w.currentQ.map (fun q => q.prompt.topic)).getD "") (optOr g1.selectedTopic "All")
    let enPrompt := (w.currentQ.map (fun q => q.prompt.en)).getD ""
    let stored := updateWordStats env.host w.wordStore topic enPrompt ok
    let queue :=
      if w.adaptiveOn && !w.reviewMode.active then
        updateRetryQueue env.config w.retryQueue enPrompt topic ok g1.questionsAsked
      else w.retryQueue
    { w with
      acceptingAnswers := false
      gameState := { g1 with phase := Phase.showFeedback }
      wordStore := stored.2
      retryQueue := queue
      autoTimer := if env.config.autoAdvanceMs > 0 then true else w.autoTimer }

/-- The callback of the auto-advance timer; it runs only while the timer is
pending. -/
def autoAdvance (env : Env) (w : World) : World :=
  if !w.autoTimer then w
  else
    let w1 : World := { w with autoTimer := false }
    if (w1.gameState.questionsAsked : Int) ≥ w1.gameState.roundSize then gameOver env w1
    else startQuestionRound env w1 true

/-- The statements of the `reviewOnly` case that precede its call of
`startQuestionRound`: the review selection is installed, the round reset,
`roundSize` set to the pool length and the summary hidden. -/
def enterReview (w : World) (pool : List String) : World :=
  let w1 : World := { w with reviewMode := { active := true, pool := pool, index := 0 } }
  let w2 := resetRoundState w1
  { w2 with
    gameState := { w2.gameState with roundSize := pool.length }
    summaryVisible := false }

/-- `handleUIButton(action)`. -/
def handleUIButton (env : Env) (w : World) (action : Action) : World :=
  let topics := getTopics env.wordsPkg
  match action with
  | Action.topicPrev =>
    if topics.isEmpty then { w with gameState := { w.gameState with selectedTopic := none } }
    else
      let idx : Int := max 0 (findIndex (fun t => decide (some t = w.gameState.selectedTopic)) topics)
      let prev : Int := (idx - 1 + topics.length) % topics.length
      { w with gameState := { w.gameState with selectedTopic := topics[prev.toNat]? } }
  | Action.topicNext =>
    if topics.isEmpty then { w with gameState := { w.gameState with selectedTopic := none } }
    else
      let idx : Int := max 0 (findIndex (fun t => decide (some t = w.gameState.selectedTopic)) topics)
      let next : Int := (idx + 1) % topics.length
      { w with gameState := { w.gameState with selectedTopic := topics[next.toNat]? } }
  | Action.roundMinus =>
    { w with gameState := { w.gameState with roundSize := max 3 (w.gameState.roundSize - 1) } }
  | Action.roundPlus =>
    { w with gameState := { w.gameState with roundSize := min 20 (w.gameState.roundSize + 1) } }
  | Action.adaptiveToggle => { w with adaptiveOn := !w.adaptiveOn }
  | Action.startOrNext =>
    let w1 : World :=
      { w with summaryVisible := false, reviewMode := { w.reviewMode with active := false } }
    if w1.gameState.phase = Phase.idle ∨ w1.gameState.phase = Phase.finished then
      startQuestionRound env (resetRoundState w1) true
    else if w1.gameState.phase = Phase.awaitAnswer then w1
    else if w1.gameState.phase = Phase.showFeedback then
      startQuestionRound env { w1 with autoTimer := false } true
    else w1
  | Action.restartRound =>
    let w1 : World := { w with reviewMode := { w.reviewMode with active := false } }
    startQuestionRound env { resetRoundState w1 with summaryVisible := false } true
  | Action.reviewOnly =>
    let top := w.lastHardWords.map (fun hw => hw.en)
    let pool := top.take env.config.reviewMax
    if !pool.isEmpty then startQuestionRound env (enterReview w pool) true
    else w
  | Action.chooseTopic =>
    { w with
      summaryVisible := false
      reviewMode := { w.reviewMode with active := false }
      gameState := { w.gameState with phase := Phase.idle } }

/-! ## hud.js: which buttons can be hit -/

/-- Whether `hud.getUIObjects()` contains the button carrying `action`: the
control buttons always, the three summary buttons only while the summary is
visible. -/
def uiOffers (w : World) (action : Action) : Bool :=
  match action with
  | Action.restartRound => w.summaryVisible
  | Action.reviewOnly => w.summaryVisible
  | Action.chooseTopic => w.summaryVisible
  | _ => true

/-! ## Runs of the driver -/

/-- What the driver reacts to: a hit on a HUD button, the selection of an
answer card (`ok` is the card's `userData.correct`), the auto-advance timer. -/
inductive Event where
  | click (action : Action)
  | select (ok : Bool)
  | timer

/-- The reaction of the driver to one event. -/
def step (env : Env) (w : World) : Event → World
  | Event.click action => handleUIButton env w action
  | Event.select ok => evaluateAnswer env w ok
  | Event.timer => autoAdvance env w

/-- Whether the running program can deliver the event: a button must be among
`hud.getUIObjects()` to be hit. -/
def offered (w : World) : Event → Bool
  | Event.click action => uiOffers w action
  | _ => true

/-- The states the running program can be in: those reached from `init()` by
events it can deliver. -/
inductive Reachable (env : Env) : World → Prop where
  | init (wordStore : WordStore) (topicStore : TopicStore) :
      Reachable env (initWorld env wordStore topicStore)
  | step {w : World} (e : Event) :
      Reachable env w → offered w e = true → Reachable env (step env w e)

/-- The state after the events `es`, delivered in order. -/
def run (env : Env) (w : World) (es : List Event) : World := es.foldl (step env) w

/-- The invariant of the running program: answers are accepted only in
`awaitAnswer`, the summary is visible only in `finished`, and the timer is
pending only in `showFeedback`. -/
def DriverInv (w : World) : Prop :=
  (w.acceptingAnswers = true → w.gameState.phase = Phase.awaitAnswer) ∧
  (w.summaryVisible = true → w.gameState.phase = Phase.finished) ∧
  (w.autoTimer = true → w.gameState.phase = Phase.showFeedback)

/-- The phase changes of the session state machine: staying, `idle` or
`finished` to `awaitAnswer`, `awaitAnswer` to `showFeedback`, `showFeedback`
to `awaitAnswer` or `finished`, `finished` to `idle`, and `idle` to `finished`
(a round that is complete when it starts). -/
def phaseEdge : Phase → Phase → Bool
  | Phase.idle, Phase.idle => true
  | Phase.idle, Phase.awaitAnswer => true
  | Phase.idle, Phase.finished => true
  | Phase.awaitAnswer, Phase.awaitAnswer => true
  | Phase.awaitAnswer, Phase.showFeedback => true
  | Phase.showFeedback, Phase.showFeedback => true
  | Phase.showFeedback, Phase.awaitAnswer => true
  | Phase.showFeedback, Phase.finished => true
  | Phase.finished, Phase.finished => true
  | Phase.finished, Phase.awaitAnswer => true
  | Phase.finished, Phase.idle => true
  | _, _ => false

/-- Events that do not run `resetRoundState`: the timer, the buttons other
than restart and review, and start/next outside `idle` and `finished`. -/
def keepsRound (w : World) : Event → Bool
  | Event.click Action.startOrNext =>
      decide (w.gameState.phase = Phase.awaitAnswer ∨ w.gameState.phase = Phase.showFeedback)
  | Event.click Action.restartRound => false
  | Event.click Action.reviewOnly => false
  | Event.click _ => true
  | Event.select _ => true
  | Event.timer => true

/-- `enPrompt` of `evaluateAnswer`: `currentQ?.prompt?.en || ""`. -/
def promptEn (w : World) : String := (w.currentQ.map (fun q => q.prompt.en)).getD ""

/-- The states of a round, counted by accepted answers, in which every answer
accepted since the round was fresh (score 0, streak 0, as `resetRoundState`
leaves it) has been correct. -/
inductive CorrectRun (env : Env) : Nat → World → Prop where
  | fresh (w : World) :
      w.gameState.score = 0 → w.gameState.streak = 0 → CorrectRun env 0 w
  | answer {n : Nat} {w : World} :
      CorrectRun env n w → w.acceptingAnswers = true →
      CorrectRun env (n + 1) (evaluateAnswer env w true)
  | other {n : Nat} {w : World} (e : Event) :
      CorrectRun env n w → keepsRound w e = true →
      (∀ ok, e = Event.select ok → w.acceptingAnswers = false) →
      CorrectRun env n (step env w e)

/-- The entries of the retry queue for the term `en`. -/
def retryEntries (queue : List RetryItem) (en : String) : List RetryItem :=
  queue.filter (fun it => decide (it.en = en))

/-- The states following the creation of the retry entry of the term `en` by
a wrong answer, counted by the further wrong answers given for `en` (adaptive
mode on, review mode inactive); in between the round is not reset and no
other answer for `en` is accepted. -/
inductive WrongRun (env : Env) (en : String) : Nat → World → Prop where
  | created {w : World} :
      w.acceptingAnswers = true → w.adaptiveOn = true → w.reviewMode.active = false →
      promptEn w = en → retryEntries w.retryQueue en = [] →
      WrongRun env en 0 (evaluateAnswer env w false)
  | wrong {j : Nat} {w : World} :
      WrongRun env en j w →
      w.acceptingAnswers = true → w.adaptiveOn = true → w.reviewMode.active = false →
      promptEn w = en →
      WrongRun env en (j + 1) (evaluateAnswer env w false)
  | other {j : Nat} {w : World} (e : Event) :
      WrongRun env en j w → keepsRound w e = true →
      (∀ ok, e = Event.select ok → w.acceptingAnswers = false ∨ promptEn w ≠ en) →
      WrongRun env en j (step env w e)

/-! ## Named parts of `buildQuestion` -/

/-- The value of `maxOptions` in `buildQuestion`:
`Math.max(2, opts.maxOptions || 4)`. -/
def optionLimit (opts : Opts) : Int :=
  max 2 (match opts.maxOptions with
         | none => 4
         | some m => if m = 0 then 4 else m)

/-- The value of `pool` in `buildQuestion` where the prompt is chosen: the
entries of the topic, restricted to the forced subset when a non-empty one is
given. -/
def promptPool (host : Host) (pkg : Option Pkg) (opts : Opts) : List EntryRef :=
  match opts.onlyPool with
  | some (x :: xs) =>
    (listByTopic pkg (orNull opts.topic)).filter
      (fun e => ((x :: xs).map host.toLowerCase).contains (host.toLowerCase e.2.en))
  | _ => listByTopic pkg (orNull opts.topic)

/-- The value of `optsPool` in `buildQuestion`: the distractor candidates. -/
def distractorPool (pkg : Option Pkg) (pool : List EntryRef) (promptEntry : EntryRef) :
    List EntryRef :=
  if !(pool.filter (fun e => decide (e ≠ promptEntry))).isEmpty then
    pool.filter (fun e => decide (e ≠ promptEntry))
  else (listByTopic pkg none).filter (fun e => decide (e ≠ promptEntry))

/-- The element of `scored` that `getHardestWords` makes of an entry. -/
def scoreEntry (host : Host) (store : WordStore) (e : EntryRef) : HardWord :=
  { en := e.2.en, de := e.2.de, topic := e.2.topic
    diff := difficultyFor host store e.2.topic e.2.en }

/-- The weight that `buildQuestion` gives a candidate of difficulty `d` in
adaptive sampling: `Math.max(0.2, 1 + weightFactor * (d - 1))`. -/
def sampleWeight (weightFactor d : ℚ) : ℚ := max (1 / 5) (1 + weightFactor * (d - 1))

/-! ## `shuffle` with its two arrays -/

/-- The two arrays of `shuffle`: its argument `arr` and the local copy `a`. -/
structure ShuffleArrays (α : Type) where
  arr : List α
  a : List α

/-- The loop of `shuffle` on the two arrays; its statements write to `a`. -/
def shuffleArraysLoop {α : Type} (host : Host) :
    Nat → Nat → ShuffleArrays α → ShuffleArrays α × Nat
  | 0, pos, m => (m, pos)
  | i + 1, pos, m =>
    let j := floorIndex (host.random pos) (i + 2)
    shuffleArraysLoop host i (pos + 1) { m with a := swap m.a (i + 1) j }

/-- `shuffle(arr)` with both arrays kept: `a = arr.slice()`, then the loop;
the function returns `a`. -/
def shuffleArrays {α : Type} (host : Host) (pos : Nat) (arr : List α) :
    ShuffleArrays α × Nat :=
  shuffleArraysLoop host (arr.length - 1) pos { arr := arr, a := arr }

/-! ## Sequences of rounds and review rounds -/

/-- The arguments of one `updateStatsOnGameOver` call. -/
structure RoundResult where
  topic : String
  score : Int
  correct : Nat
  total : Int
  bestStreak : Nat

/-- The topic store after the calls of `updateStatsOnGameOver` for `rounds`,
in order. -/
def foldRounds (store : TopicStore) (rounds : List RoundResult) : TopicStore :=
  rounds.foldl
    (fun st r => (updateStatsOnGameOver st r.topic r.score r.correct r.total r.bestStreak).2)
    store

/-- Events between two per-question steps of a review round over `n` terms
that neither end review mode nor reset the round nor bring `roundSize` below
`n`: answers, topic and adaptive buttons, `roundPlus` (capped at 20) and
`roundMinus` (floored at 3). -/
def keepsReview (n : Nat) : Event → Bool
  | Event.select _ => true
  | Event.click Action.topicPrev => true
  | Event.click Action.topicNext => true
  | Event.click Action.adaptiveToggle => true
  | Event.click Action.roundPlus => decide (n ≤ 20)
  | Event.click Action.roundMinus => decide (n ≤ 3)
  | _ => false

/-- The states of a review round over `pool`, counted by the per-question
steps (`startQuestionRound`) taken since review mode was entered. -/
inductive ReviewRun (env : Env) (pool : List String) : Nat → World → Prop where
  | entered (w : World) : ReviewRun env pool 0 (enterReview w pool)
  | asked {k : Nat} {w : World} :
      ReviewRun env pool k w → ReviewRun env pool (k + 1) (startQuestionRound env w true)
  | other {k : Nat} {w : World} (e : Event) :
      ReviewRun env pool k w → keepsReview pool.length e = true →
      ReviewRun env pool k (step env w e)

/-- The events that lead from the feedback of one question to the next
per-question step: the start/next button, and the auto-advance timer, which
is started only when `autoAdvanceMs > 0`. -/
def advances (env : Env) : Event → Bool
  | Event.timer => decide (env.config.autoAdvanceMs > 0)
  | Event.click Action.startOrNext => true
  | _ => false

/-- The relation between the counters of a round that every event keeps:
answers are accepted only with words loaded, the streak is at most the best
streak, the best streak at most the number of correct answers, and the
correct answers, counting the one that may still be given to the question
shown, are at most the questions asked. -/
def CounterInv (env : Env) (w : World) : Prop :=
  (w.acceptingAnswers = true → env.wordsPkg.isSome = true) ∧
  w.gameState.streak ≤ w.gameState.bestStreak ∧
  w.gameState.bestStreak ≤ w.gameState.correctCount ∧
  w.gameState.correctCount + (if w.acceptingAnswers then 1 else 0) ≤
    w.gameState.questionsAsked

/-! ## Concrete inputs -/

/-- Lower-casing of the ASCII letters, for the concrete inputs below. -/
def lowerAscii (s : String) : String := ⟨s.data.map Char.toLower⟩

/-- The draw `0`. -/
def zeroDraw : Draw := { val := 0, nonneg := le_refl 0, lt_one := by norm_num }

/-- A host whose `Math.random()` always returns `0`. -/
def demoHost : Host := { toLowerCase := lowerAscii, random := fun _ => zeroDraw }

/-- An empty word-statistics store. -/
def emptyWordStore : WordStore := fun _ => none

/-- An empty topic-statistics store. -/
def emptyTopicStore : TopicStore := fun _ => none

/-- A catalog whose two entries share the source text `cat`. -/
def twinPkg : Pkg :=
  { topics := ["Animals"]
    entries := [{ en := "cat", de := "Katze", topic := "Animals", hint := "" },
                { en := "cat", de := "Kater", topic := "Animals", hint := "" }] }

/-- A catalog of two entries with different source texts. -/
def pairPkg : Pkg :=
  { topics := ["Animals"]
    entries := [{ en := "cat", de := "Katze", topic := "Animals", hint := "" },
                { en := "dog", de := "Hund", topic := "Animals", hint := "" }] }

/-- A catalog with the single entry `cat`. -/
def catPkg : Pkg :=
  { topics := ["Animals"]
    entries := [{ en := "cat", de := "Katze", topic := "Animals", hint := "" }] }

/-- A catalog whose only entry has an empty topic, listed by `getTopics` as
`Misc`, a topic no entry carries. -/
def blankTopicPkg : Pkg :=
  { topics := []
    entries := [{ en := "cat", de := "Katze", topic := "", hint := "" }] }

/-- Options asking for a question on the topic `Animals`, four options at
most, no forced pool, not adaptive. -/
def plainOpts : Opts :=
  { topic := some "Animals", maxOptions := some 4, onlyPool := none
    adaptive := false, weightFactor := none }

/-- The session on `catPkg` with the values of `config.js`. -/
def catEnv : Env := { host := demoHost, config := CONFIG, wordsPkg := some catPkg }

/-- The session on `blankTopicPkg` with the values of `config.js`. -/
def blankEnv : Env := { host := demoHost, config := CONFIG, wordsPkg := some blankTopicPkg }

/-- The state of `catEnv` after `init()` with empty stores. -/
def catInit : World := initWorld catEnv emptyWordStore emptyTopicStore

/-- The state of `catEnv` once the first question is shown (start pressed). -/
def catAsked : World := handleUIButton catEnv catInit Action.startOrNext

/-- The state of `blankEnv` after `init()` with empty stores. -/
def blankInit : World := initWorld blankEnv emptyWordStore emptyTopicStore

/-- A catalog with one entry in each of two topics. -/
def huePkg : Pkg :=
  { topics := ["Animals", "Colors"]
    entries := [{ en := "cat", de := "Katze", topic := "Animals", hint := "" },
                { en := "red", de := "rot", topic := "Colors", hint := "" }] }

/-- The session on `huePkg` with the values of `config.js`. -/
def hueEnv : Env := { host := demoHost, config := CONFIG, wordsPkg := some huePkg }

/-- A finished round of three questions on the topic `Animals` (the round
size lowered from 10 to 3, every answer correct), after which the topic is
switched to `Colors`. -/
def hueSwitched : World :=
  run hueEnv (initWorld hueEnv emptyWordStore emptyTopicStore)
    [Event.click Action.roundMinus, Event.click Action.roundMinus,
     Event.click Action.roundMinus, Event.click Action.roundMinus,
     Event.click Action.roundMinus, Event.click Action.roundMinus,
     Event.click Action.roundMinus, Event.click Action.startOrNext,
     Event.select true, Event.timer, Event.select true, Event.timer,
     Event.select true, Event.timer, Event.click Action.topicNext]

/-- The state of `catEnv` after a wrong answer to the first question and the
advance to the second question. -/
def catSecond : World :=
  run catEnv catInit [Event.click Action.startOrNext, Event.select false, Event.timer]

/-- A catalog of exactly three terms in one topic. -/
def trioPkg : Pkg :=
  { topics := ["Animals"]
    entries := [{ en := "cat", de := "Katze", topic := "Animals", hint := "" },
                { en := "dog", de := "Hund", topic := "Animals", hint := "" },
                { en := "owl", de := "Eule", topic := "Animals", hint := "" }] }

/-- The options of `plainOpts` with the forced subset `CAT` (upper case). -/
def capsOpts : Opts := { plainOpts with onlyPool := some ["CAT"] }

/-- The options of `plainOpts` with the forced subset `owl`. -/
def owlOpts : Opts := { plainOpts with onlyPool := some ["owl"] }

/-- The options of `plainOpts` with the forced subset `cat`, `dog`. -/
def duoOpts : Opts := { plainOpts with onlyPool := some ["cat", "dog"] }

/-- The state of `catEnv` with the fifth question of the round shown: start
pressed, then four correct answers, each followed by the timer. -/
def catFifth : World :=
  run catEnv catInit
    [Event.click Action.startOrNext, Event.select true, Event.timer, Event.select true,
     Event.timer, Event.select true, Event.timer, Event.select true, Event.timer]

/-- The session on `trioPkg` with the values of `config.js`. -/
def trioEnv : Env := { host := demoHost, config := CONFIG, wordsPkg := some trioPkg }

/-- The state of `trioEnv` after `init()` with empty stores and the round
size lowered from 10 to 3. -/
def trioStart : World :=
  run trioEnv (initWorld trioEnv emptyWordStore emptyTopicStore)
    [Event.click Action.roundMinus, Event.click Action.roundMinus,
     Event.click Action.roundMinus, Event.click Action.roundMinus,
     Event.click Action.roundMinus, Event.click Action.roundMinus,
     Event.click Action.roundMinus]

/-- The session on `pairPkg` with the values of `config.js`. -/
def pairEnv : Env := { host := demoHost, config := CONFIG, wordsPkg := some pairPkg }

/-- A finished round of three questions on `pairPkg` (the round size lowered
from 10 to 3, every answer correct); the summary is shown. -/
def pairDone : World :=
  run pairEnv (initWorld pairEnv emptyWordStore emptyTopicStore)
    [Event.click Action.roundMinus, Event.click Action.roundMinus,
     Event.click Action.roundMinus, Event.click Action.roundMinus,
     Event.click Action.roundMinus, Event.click Action.roundMinus,
     Event.click Action.roundMinus, Event.click Action.startOrNext,
     Event.select true, Event.timer, Event.select true, Event.timer,
     Event.select true, Event.timer]

/-- The state after the review button is hit on the summary of `pairDone`:
the first question of the review round is shown. -/
def pairReview : World := handleUIButton pairEnv pairDone Action.reviewOnly

/-- The state of `catEnv` after `init()` with no topic selected. -/
def catAll : World :=
  { catInit with gameState := { catInit.gameState with selectedTopic := none } }

/-- A store holding for `cat` in `Animals` a record with two sightings, one
correct and one wrong answer, and a running streak of one. -/
def seenStore : WordStore :=
  setItem emptyWordStore (wordKey demoHost "Animals" "cat")
    { seen := 2, correct := 1, wrong := 1, streakWord := 1 }

/-- A state of `trioEnv` with the first question answered and three entries
in the retry queue: `dog` due at question 9, `cat` at 2 and `owl` at 1. -/
def trioQueued : World :=
  { evaluateAnswer trioEnv (handleUIButton trioEnv trioStart Action.startOrNext) true with
    retryQueue :=
      [{ en := "dog", topic := "Animals", dueAt := 9, attempts := 1 },
       { en := "cat", topic := "Animals", dueAt := 2, attempts := 1 },
       { en := "owl", topic := "Animals", dueAt := 1, attempts := 2 }] }

/-- A finished round of three questions on `catPkg` (the round size lowered
from 10 to 3, every answer correct); the summary is shown. -/
def catDone : World :=
  run catEnv catInit
    [Event.click Action.roundMinus, Event.click Action.roundMinus,
     Event.click Action.roundMinus, Event.click Action.roundMinus,
     Event.click Action.roundMinus, Event.click Action.roundMinus,
     Event.click Action.roundMinus, Event.click Action.startOrNext,
     Event.select true, Event.timer, Event.select true, Event.timer,
     Event.select true, Event.timer]

/-- The state after the review button is hit on the summary of `catDone`:
the review round over the one term `cat` has begun. -/
def catReview : World := handleUIButton catEnv catDone Action.reviewOnly

/-- A round on `catPkg` started with round size 10, in which four questions
are answered correctly, then the round size is lowered to 3 while the fifth
question is shown, and the fifth answer, also correct, is followed by the
timer. -/
def catShrunk : World :=
  run catEnv catInit
    [Event.click Action.startOrNext, Event.select true, Event.timer, Event.select true,
     Event.timer, Event.select true, Event.timer, Event.select true, Event.timer,
     Event.click Action.roundMinus, Event.click Action.roundMinus,
     Event.click Action.roundMinus, Event.click Action.roundMinus,
     Event.click Action.roundMinus, Event.click Action.roundMinus,
     Event.click Action.roundMinus, Event.select true, Event.timer]

/-- A catalog with two terms in the topic `Animals` and one in `Colors`. -/
def mixPkg : Pkg :=
  { topics := ["Animals", "Colors"]
    entries := [{ en := "cat", de := "Katze", topic := "Animals", hint := "" },
                { en := "dog", de := "Hund", topic := "Animals", hint := "" },
                { en := "red", de := "rot", topic := "Colors", hint := "" }] }

/-- The options of `plainOpts` (topic `Animals`) with the forced subset `cat`. -/
def catOnlyOpts : Opts := { plainOpts with onlyPool := some ["cat"] }

/-- The session on `mixPkg` with the values of `config.js`. -/
def mixEnv : Env := { host := demoHost, config := CONFIG, wordsPkg := some mixPkg }

/-- A finished round of three questions on the topic `Animals` of `mixPkg`
(the round size lowered from 10 to 3, every answer correct), followed by a hit
on the review button of the summary: the first review question is shown. -/
def mixReview : World :=
  run mixEnv (initWorld mixEnv emptyWordStore emptyTopicStore)
    [Event.click Action.roundMinus, Event.click Action.roundMinus,
     Event.click Action.roundMinus, Event.click Action.roundMinus,
     Event.click Action.roundMinus, Event.click Action.roundMinus,
     Event.click Action.roundMinus, Event.click Action.startOrNext,
     Event.select true, Event.timer, Event.select true, Event.timer,
     Event.select true, Event.timer, Event.click Action.reviewOnly]

/-- The record parsed from
`{"seen":1,"correct":1e400,"wrong":1e400,"streakWord":0}`. -/
def overflowStats : ParsedStats :=
  { seen := JsNum.fin 1, correct := JsNum.posInf, wrong := JsNum.posInf
    streakWord := JsNum.fin 0 }

/-! ## Lemmas -/

theorem swap_perm {α : Type} (a : List α) (i j : Nat) : (swap a i j).Perm a := by
  classical
  unfold swap
  split
  · rename_i x y hx hy
    obtain ⟨hi, hxi⟩ := List.getElem?_eq_some.mp hx
    obtain ⟨hj, hyj⟩ := List.getElem?_eq_some.mp hy
    rw [List.perm_iff_count]
    intro b
    by_cases hij : i = j
    · subst hij
      have hxy : x = y := by rw [← hxi, ← hyj]
      subst hxy
      have hle : (if (x == b) = true then 1 else 0) ≤ a.count b := by
        split
        · rename_i hb
          have hb2 : x = b := by simpa using hb
          have hmem : b ∈ a := by rw [← hb2, ← hxi]; exact List.getElem_mem _
          exact List.count_pos_iff.mpr hmem
        · exact Nat.zero_le _
      rw [List.set_set, List.count_set _ _ _ _ hi, hxi]
      omega
    · have hj2 : j < (a.set i y).length := by simpa using hj
      rw [List.count_set _ _ _ _ hj2, List.count_set _ _ _ _ hi]
      have hget : (a.set i y)[j] = y := by
        rw [List.getElem_set_of_ne hij]; exact hyj
      rw [hget, hxi]
      have hle : (if (x == b) = true then 1 else 0) ≤ a.count b := by
        split
        · rename_i hb
          have hb2 : x = b := by simpa using hb
          have hmem : b ∈ a := by rw [← hb2, ← hxi]; exact List.getElem_mem _
          exact List.count_pos_iff.mpr hmem
        · exact Nat.zero_le _
      omega
  · exact List.Perm.refl _

theorem shuffleLoop_perm {α : Type} (host : Host) (i pos : Nat) (a : List α) :
    (shuffleLoop host i pos a).1.Perm a := by
  induction i generalizing pos a with
  | zero => exact List.Perm.refl _
  | succ n ih =>
    unfold shuffleLoop
    exact (ih _ _).trans (swap_perm _ _ _)

theorem shuffle_perm {α : Type} (host : Host) (pos : Nat) (arr : List α) :
    (shuffle host pos arr).1.Perm arr :=
  shuffleLoop_perm host _ pos arr

theorem findIndex_of_exists {α : Type} (p : α → Bool) (xs : List α)
    (h : ∃ x ∈ xs, p x = true) :
    0 ≤ findIndex p xs ∧ findIndex p xs < xs.length ∧
      ∃ x, xs[(findIndex p xs).toNat]? = some x ∧ p x = true := by
  have hlt : xs.findIdx p < xs.length := List.findIdx_lt_length_of_exists h
  unfold findIndex
  rw [if_pos hlt]
  refine ⟨Int.natCast_nonneg _, by exact_mod_cast hlt, xs[xs.findIdx p], ?_, List.findIdx_getElem⟩
  simp [hlt]

theorem weightedWalk_mem {α : Type} (pool : List α) (ws : List ℚ) (r : ℚ) (p : α)
    (h : weightedWalk pool ws r = some p) : p ∈ pool := by
  induction pool generalizing ws r with
  | nil => simp [weightedWalk] at h
  | cons x xs ih =>
    cases ws with
    | nil => simp [weightedWalk] at h
    | cons w ws =>
      unfold weightedWalk at h
      split at h
      · have hx : x = p := by simp at h; exact h
        subst hx
        exact List.mem_cons_self _ _
      · exact List.mem_cons_of_mem _ (ih _ _ h)

theorem weightedSample_mem {α : Type} (pool : List α) (ws : List ℚ) (u : Draw) (p : α)
    (h : weightedSample pool ws u = some p) : p ∈ pool := by
  unfold weightedSample at h
  simp only at h
  split at h
  · exact List.getElem?_mem h
  · split at h
    · rename_i q hq
      have hqp : q = p := by simpa using h
      subst hqp
      exact weightedWalk_mem _ _ _ _ hq
    · exact List.mem_of_getLast?_eq_some h

theorem listByTopic_subset (pkg : Option Pkg) (topic : Option String) (e : EntryRef)
    (h : e ∈ listByTopic pkg topic) : e ∈ listByTopic pkg none := by
  unfold listByTopic at h ⊢
  cases pkg with
  | none => exact h
  | some p =>
    cases topic with
    | none => exact h
    | some t =>
      simp only at h ⊢
      split at h
      · exact h
      · exact (List.mem_filter.mp h).1

theorem listByTopic_nodup (pkg : Option Pkg) (topic : Option String) :
    (listByTopic pkg topic).Nodup := by
  have henum : ∀ l : List Entry, l.enum.Nodup := fun l =>
    List.Nodup.of_map Prod.fst (List.nodup_enum_map_fst l)
  unfold listByTopic
  cases pkg with
  | none => exact List.nodup_nil
  | some p =>
    cases topic with
    | none => exact henum _
    | some t =>
      simp only
      split
      · exact henum _
      · exact (henum _).filter _

theorem choosePrompt_mem (host : Host) (store : WordStore) (pool : List EntryRef)
    (adaptive : Bool) (onlyPool : Option (List String)) (weightFactor : ℚ) (u : Draw)
    (p : EntryRef) (h : choosePrompt host store pool adaptive onlyPool weightFactor u = some p) :
    p ∈ pool := by
  unfold choosePrompt at h
  split at h
  · exact weightedSample_mem _ _ _ _ h
  · exact List.getElem?_mem h

theorem floorIndex_lt (u : Draw) (n : Nat) (hn : 0 < n) : floorIndex u n < n := by
  unfold floorIndex
  have hpos : (0 : ℚ) < (n : ℚ) := by exact_mod_cast hn
  have hlt : u.val * (n : ℚ) < (n : ℚ) := by
    have := mul_lt_mul_of_pos_right u.lt_one hpos
    simpa using this
  have hfl : ⌊u.val * (n : ℚ)⌋ < (n : Int) := by
    rw [Int.floor_lt]
    exact_mod_cast hlt
  have h0 : 0 ≤ ⌊u.val * (n : ℚ)⌋ := Int.floor_nonneg.mpr (mul_nonneg u.nonneg hpos.le)
  omega

theorem weightedSample_isSome {α : Type} (pool : List α) (ws : List ℚ) (u : Draw)
    (hpool : pool ≠ []) : (weightedSample pool ws u).isSome = true := by
  unfold weightedSample
  simp only
  split
  · have hlt := floorIndex_lt u pool.length (List.length_pos.mpr hpool)
    simp [hlt]
  · split
    · rfl
    · cases pool with
      | nil => exact absurd rfl hpool
      | cons a l => simp [List.getLast?_cons_cons, List.getLast?]

/-- The prompt choice of `buildQuestion` is defined on every non-empty pool. -/
theorem choosePrompt_isSome (host : Host) (store : WordStore) (pool : List EntryRef)
    (adaptive : Bool) (onlyPool : Option (List String)) (weightFactor : ℚ) (u : Draw)
    (hpool : pool ≠ []) :
    (choosePrompt host store pool adaptive onlyPool weightFactor u).isSome = true := by
  unfold choosePrompt
  split
  · exact weightedSample_isSome _ _ _ hpool
  · have hlt := floorIndex_lt u pool.length (List.length_pos.mpr hpool)
    simp [hlt]

/-- A successful `buildQuestion` is `assembleQuestion` run on a prompt entry
taken from a duplicate-free pool of entries of the requested topic. -/
theorem buildQuestion_eq_some (host : Host) (store : WordStore) (pkg : Option Pkg)
    (opts : Opts) (pos : Nat) (q : Question)
    (h : (buildQuestion host store pkg opts pos).1 = some q) :
    ∃ (pool : List EntryRef) (prompt : EntryRef) (maxOptions : Int),
      (∀ e ∈ pool, e ∈ listByTopic pkg (orNull opts.topic)) ∧ pool.Nodup ∧ prompt ∈ pool ∧
      q = (assembleQuestion host pkg pool maxOptions prompt (pos + 1)).1 := by
  unfold buildQuestion at h
  by_cases h0 : (listByTopic pkg (orNull opts.topic)).isEmpty = true
  · simp [h0] at h
  · have key : ∀ (forced : Bool) (pool : List EntryRef),
        (∀ e ∈ pool, e ∈ listByTopic pkg (orNull opts.topic)) → pool.Nodup →
        ∀ (M : Int) (op : Option (List String)) (wf : ℚ),
        (if (forced && pool.isEmpty) = true then ((none : Option Question), pos)
          else
            match choosePrompt host store pool opts.adaptive op wf (host.random pos) with
            | none => (none, pos + 1)
            | some promptEntry =>
              (some (assembleQuestion host pkg pool M promptEntry (pos + 1)).1,
                (assembleQuestion host pkg pool M promptEntry (pos + 1)).2)).1 = some q →
        ∃ (pool : List EntryRef) (prompt : EntryRef) (maxOptions : Int),
          (∀ e ∈ pool, e ∈ listByTopic pkg (orNull opts.topic)) ∧ pool.Nodup ∧ prompt ∈ pool ∧
          q = (assembleQuestion host pkg pool maxOptions prompt (pos + 1)).1 := by
      intro forced pool hsub hnd M op wf hq
      split at hq
      · simp at hq
      · split at hq
        · simp at hq
        · rename_i prompt hprompt
          refine ⟨pool, prompt, M, hsub, hnd, choosePrompt_mem _ _ _ _ _ _ _ _ hprompt, ?_⟩
          simp only [Option.some.injEq] at hq
          exact hq.symm
    rw [if_neg h0] at h
    refine key _ _ ?_ ?_ _ _ _ h
    · intro e he
      split at he
      · exact (List.mem_filter.mp he).1
      · exact he
    · split
      · exact (listByTopic_nodup _ _).filter _
      · exact listByTopic_nodup _ _

/-- What `assembleQuestion` returns: the prompt record, labels that are a
permutation of the source texts of the prompt entry and of duplicate-free
distractor entries different from the prompt, and `correctIndex` as found
by `findIndex`. -/
theorem assembleQuestion_parts (host : Host) (pkg : Option Pkg) (pool : List EntryRef)
    (maxOptions : Int) (prompt : EntryRef) (pos : Nat) (hpool : pool.Nodup) :
    ∃ shuffled : List EntryRef,
      (∀ e ∈ shuffled, (e ∈ pool ∨ e ∈ listByTopic pkg none) ∧ e ≠ prompt) ∧
      shuffled.Nodup ∧
      (assembleQuestion host pkg pool maxOptions prompt pos).1.prompt = prompt.2 ∧
      ((assembleQuestion host pkg pool maxOptions prompt pos).1.options.map
          AnswerOption.en).Perm ((prompt :: shuffled).map (fun e => e.2.en)) ∧
      (assembleQuestion host pkg pool maxOptions prompt pos).1.correctIndex =
        findIndex (fun l => decide (l = prompt.2.en))
          ((assembleQuestion host pkg pool maxOptions prompt pos).1.options.map
            AnswerOption.en) := by
  have hmap : ∀ l : List String, (l.map AnswerOption.mk).map AnswerOption.en = l := by
    intro l
    simp [List.map_map, Function.comp_def]
  unfold assembleQuestion
  simp only [hmap]
  refine ⟨_, ?_, ?_, trivial, shuffle_perm _ _ _, trivial⟩
  · intro e he
    have he1 := (shuffle_perm host pos _).mem_iff.mp (List.mem_of_mem_take he)
    split at he1
    · have := List.mem_filter.mp he1
      exact ⟨Or.inl this.1, by simpa using this.2⟩
    · have := List.mem_filter.mp he1
      exact ⟨Or.inr this.1, by simpa using this.2⟩
  · apply List.Nodup.sublist (List.take_sublist _ _)
    apply (shuffle_perm host pos _).nodup_iff.mpr
    split
    · exact hpool.filter _
    · exact (listByTopic_nodup _ _).filter _

theorem enum_en_injective (p : Pkg) (hd : (p.entries.map Entry.en).Nodup)
    (a b : EntryRef) (ha : a ∈ listByTopic (some p) none) (hb : b ∈ listByTopic (some p) none)
    (hab : a.2.en = b.2.en) : a = b := by
  simp only [listByTopic] at ha hb
  have ha1 := List.mem_enum_iff_getElem?.mp ha
  have hb1 := List.mem_enum_iff_getElem?.mp hb
  obtain ⟨hia, hea⟩ := List.getElem?_eq_some.mp ha1
  obtain ⟨hib, heb⟩ := List.getElem?_eq_some.mp hb1
  have hia2 : a.1 < (p.entries.map Entry.en).length := by simpa using hia
  have hib2 : b.1 < (p.entries.map Entry.en).length := by simpa using hib
  have hidx : a.1 = b.1 := by
    apply (@List.Nodup.getElem_inj_iff _ _ hd a.1 hia2 b.1 hib2).mp
    simp only [List.getElem_map, hea, heb, hab]
  apply Prod.ext hidx
  rw [← hea, ← heb]
  simp only [hidx]


/-- What `gameOver` sets and what it leaves alone. -/
theorem gameOver_effect (env : Env) (w : World) :
    (gameOver env w).gameState = { w.gameState with phase := Phase.finished } ∧
    (gameOver env w).acceptingAnswers = false ∧
    (gameOver env w).autoTimer = false ∧
    (gameOver env w).summaryVisible = true ∧
    (gameOver env w).retryQueue = w.retryQueue ∧
    (gameOver env w).reviewMode = w.reviewMode ∧
    (gameOver env w).wordStore = w.wordStore ∧
    (gameOver env w).adaptiveOn = w.adaptiveOn ∧
    (gameOver env w).currentQ = w.currentQ := by
  simp [gameOver]

/-- The three ways `startQuestionRound` can end, seen on the phase and the
flags: the round is over, a question is shown, or nothing of these changed. -/
theorem startQuestionRound_cases (env : Env) (w : World) (tbounds : Bool) :
    ((startQuestionRound env w tbounds).gameState.phase = Phase.finished ∧
      (startQuestionRound env w tbounds).acceptingAnswers = false ∧
      (startQuestionRound env w tbounds).autoTimer = false ∧
      (startQuestionRound env w tbounds).summaryVisible = true) ∨
    ((startQuestionRound env w tbounds).gameState.phase = Phase.awaitAnswer ∧
      (startQuestionRound env w tbounds).acceptingAnswers = true ∧
      (startQuestionRound env w tbounds).autoTimer = w.autoTimer ∧
      (startQuestionRound env w tbounds).summaryVisible = w.summaryVisible) ∨
    ((startQuestionRound env w tbounds).gameState.phase = w.gameState.phase ∧
      (startQuestionRound env w tbounds).acceptingAnswers = w.acceptingAnswers ∧
      (startQuestionRound env w tbounds).autoTimer = w.autoTimer ∧
      (startQuestionRound env w tbounds).summaryVisible = w.summaryVisible) := by
  unfold startQuestionRound
  split
  · simp
  · split
    · simp
    · split
      · left; simp [gameOver]
      · simp only
        split
        · left; simp [gameOver]
        · split
          · right; right
            split <;> simp
          · split
            · right; right
              split <;> simp
            · right; left
              split <;> simp

/-- What `startQuestionRound` never changes, and that `questionsAsked` does
not decrease. -/
theorem startQuestionRound_frame (env : Env) (w : World) (tbounds : Bool) :
    (startQuestionRound env w tbounds).gameState.score = w.gameState.score ∧
    (startQuestionRound env w tbounds).gameState.streak = w.gameState.streak ∧
    (startQuestionRound env w tbounds).gameState.bestStreak = w.gameState.bestStreak ∧
    (startQuestionRound env w tbounds).gameState.correctCount = w.gameState.correctCount ∧
    (startQuestionRound env w tbounds).gameState.roundSize = w.gameState.roundSize ∧
    (startQuestionRound env w tbounds).gameState.selectedTopic = w.gameState.selectedTopic ∧
    w.gameState.questionsAsked ≤ (startQuestionRound env w tbounds).gameState.questionsAsked ∧
    (startQuestionRound env w tbounds).retryQueue = w.retryQueue ∧
    (startQuestionRound env w tbounds).wordStore = w.wordStore ∧
    (startQuestionRound env w tbounds).adaptiveOn = w.adaptiveOn ∧
    (startQuestionRound env w tbounds).reviewMode.active = w.reviewMode.active ∧
    (startQuestionRound env w tbounds).reviewMode.pool = w.reviewMode.pool := by
  unfold startQuestionRound
  split
  · simp
  · split
    · simp
    · split
      · simp [gameOver]
      · simp only
        split
        · simp [gameOver]
        · split
          · split <;> simp
          · split
            · split <;> simp
            · split <;> simp

theorem startQuestionRound_quiet (env : Env) (w : World) (tbounds : Bool)
    (hacc : w.acceptingAnswers = false) (ht : w.autoTimer = false)
    (hs : w.summaryVisible = false) :
    DriverInv (startQuestionRound env w tbounds) ∧
      ((startQuestionRound env w tbounds).gameState.phase = Phase.finished ∨
       (startQuestionRound env w tbounds).gameState.phase = Phase.awaitAnswer ∨
       (startQuestionRound env w tbounds).gameState.phase = w.gameState.phase) := by
  rcases startQuestionRound_cases env w tbounds with ⟨h1, h2, h3, h4⟩ | ⟨h1, h2, h3, h4⟩ |
    ⟨h1, h2, h3, h4⟩
  · refine ⟨⟨?_, ?_, ?_⟩, Or.inl h1⟩
    · intro h; rw [h2] at h; cases h
    · intro _; exact h1
    · intro h; rw [h3] at h; cases h
  · refine ⟨⟨?_, ?_, ?_⟩, Or.inr (Or.inl h1)⟩
    · intro _; exact h1
    · intro h; rw [h4, hs] at h; cases h
    · intro h; rw [h3, ht] at h; cases h
  · refine ⟨⟨?_, ?_, ?_⟩, Or.inr (Or.inr h1)⟩
    · intro h; rw [h2, hacc] at h; cases h
    · intro h; rw [h4, hs] at h; cases h
    · intro h; rw [h3, ht] at h; cases h

theorem DriverInv.acc_false {w : World} (h : DriverInv w)
    (hp : w.gameState.phase ≠ Phase.awaitAnswer) : w.acceptingAnswers = false := by
  cases hacc : w.acceptingAnswers with
  | false => rfl
  | true => exact absurd (h.1 hacc) hp

theorem DriverInv.timer_false {w : World} (h : DriverInv w)
    (hp : w.gameState.phase ≠ Phase.showFeedback) : w.autoTimer = false := by
  cases ht : w.autoTimer with
  | false => rfl
  | true => exact absurd (h.2.2 ht) hp

theorem DriverInv.summary_false {w : World} (h : DriverInv w)
    (hp : w.gameState.phase ≠ Phase.finished) : w.summaryVisible = false := by
  cases hs : w.summaryVisible with
  | false => rfl
  | true => exact absurd (h.2.1 hs) hp

theorem startQuestionRound_edge (env : Env) (w : World) (tbounds : Bool) (p : Phase)
    (hacc : w.acceptingAnswers = false) (ht : w.autoTimer = false)
    (hs : w.summaryVisible = false)
    (hp : phaseEdge p Phase.finished = true ∧ phaseEdge p Phase.awaitAnswer = true ∧
      phaseEdge p w.gameState.phase = true) :
    DriverInv (startQuestionRound env w tbounds) ∧
      phaseEdge p (startQuestionRound env w tbounds).gameState.phase = true := by
  obtain ⟨hI, hP⟩ := startQuestionRound_quiet env w tbounds hacc ht hs
  refine ⟨hI, ?_⟩
  rcases hP with h | h | h <;> rw [h]
  · exact hp.1
  · exact hp.2.1
  · exact hp.2.2

/-- One delivered event keeps the invariant and moves the phase along an edge
of the state machine. -/
theorem step_inv_edge (env : Env) (w : World) (e : Event) (hinv : DriverInv w)
    (hoff : offered w e = true) :
    DriverInv (step env w e) ∧
      phaseEdge w.gameState.phase (step env w e).gameState.phase = true := by
  have hself : ∀ p : Phase, phaseEdge p p = true := by intro p; cases p <;> rfl
  cases e with
  | click a =>
    cases a with
    | topicPrev =>
      simp only [step, handleUIButton]
      split <;> exact ⟨hinv, hself _⟩
    | topicNext =>
      simp only [step, handleUIButton]
      split <;> exact ⟨hinv, hself _⟩
    | roundMinus => exact ⟨hinv, hself _⟩
    | roundPlus => exact ⟨hinv, hself _⟩
    | adaptiveToggle => exact ⟨hinv, hself _⟩
    | startOrNext =>
      simp only [step, handleUIButton]
      split
      · rename_i hph
        have hacc : w.acceptingAnswers = false :=
          hinv.acc_false (by rcases hph with h | h <;> simp [h])
        refine startQuestionRound_edge env _ true _ hacc rfl rfl ?_
        rcases hph with h | h <;> rw [show w.gameState.phase = _ from h] <;> exact ⟨rfl, rfl, rfl⟩
      · split
        · rename_i hph
          refine ⟨⟨fun _ => hph, ?_, fun h => hinv.2.2 h⟩, hself _⟩
          intro h
          cases h
        · split
          · rename_i hph
            have hph2 : w.gameState.phase = Phase.showFeedback := hph
            have hacc : w.acceptingAnswers = false := hinv.acc_false (by simp [hph2])
            refine startQuestionRound_edge env _ true _ hacc rfl rfl ?_
            rw [hph2]
            exact ⟨rfl, rfl, rfl⟩
          · rename_i h1 h2 h3
            exfalso
            have g1 : ¬(w.gameState.phase = Phase.idle ∨ w.gameState.phase = Phase.finished) := h1
            have g2 : ¬w.gameState.phase = Phase.awaitAnswer := h2
            have g3 : ¬w.gameState.phase = Phase.showFeedback := h3
            cases hp : w.gameState.phase <;> simp [hp] at g1 g2 g3
    | restartRound =>
      have hs : w.summaryVisible = true := hoff
      have hph := hinv.2.1 hs
      have hacc : w.acceptingAnswers = false := hinv.acc_false (by simp [hph])
      simp only [step, handleUIButton]
      refine startQuestionRound_edge env _ true _ hacc rfl rfl ?_
      rw [hph]
      exact ⟨rfl, rfl, rfl⟩
    | reviewOnly =>
      have hs : w.summaryVisible = true := hoff
      have hph := hinv.2.1 hs
      have hacc : w.acceptingAnswers = false := hinv.acc_false (by simp [hph])
      simp only [step, handleUIButton]
      split
      · refine startQuestionRound_edge env _ true _ hacc rfl rfl ?_
        rw [hph]
        exact ⟨rfl, rfl, rfl⟩
      · exact ⟨hinv, hself _⟩
    | chooseTopic =>
      have hs : w.summaryVisible = true := hoff
      have hph := hinv.2.1 hs
      have hacc : w.acceptingAnswers = false := hinv.acc_false (by simp [hph])
      have ht : w.autoTimer = false := hinv.timer_false (by simp [hph])
      simp only [step, handleUIButton]
      refine ⟨⟨?_, ?_, ?_⟩, ?_⟩
      · intro h
        have h2 : w.acceptingAnswers = true := h
        rw [hacc] at h2
        cases h2
      · intro h
        cases h
      · intro h
        have h2 : w.autoTimer = true := h
        rw [ht] at h2
        cases h2
      · show phaseEdge w.gameState.phase Phase.idle = true
        rw [hph]
        rfl
  | select ok =>
    simp only [step, evaluateAnswer]
    split
    · exact ⟨hinv, hself _⟩
    · rename_i hacc
      have hacc2 : w.acceptingAnswers = true := by simpa using hacc
      have hph := hinv.1 hacc2
      have hs : w.summaryVisible = false := hinv.summary_false (by simp [hph])
      refine ⟨⟨?_, ?_, ?_⟩, ?_⟩
      · intro h
        cases h
      · intro h
        have h2 : w.summaryVisible = true := h
        rw [hs] at h2
        cases h2
      · intro _
        rfl
      · show phaseEdge w.gameState.phase Phase.showFeedback = true
        rw [hph]
        rfl
  | timer =>
    simp only [step, autoAdvance]
    split
    · exact ⟨hinv, hself _⟩
    · rename_i ht
      have ht2 : w.autoTimer = true := by simpa using ht
      have hph := hinv.2.2 ht2
      have hacc : w.acceptingAnswers = false := hinv.acc_false (by simp [hph])
      have hs : w.summaryVisible = false := hinv.summary_false (by simp [hph])
      split
      · obtain ⟨h1, h2, h3, h4, -⟩ := gameOver_effect env { w with autoTimer := false }
        refine ⟨⟨?_, ?_, ?_⟩, ?_⟩
        · intro h; rw [h2] at h; cases h
        · intro _; rw [h1]
        · intro h; rw [h3] at h; cases h
        · rw [h1]
          show phaseEdge w.gameState.phase Phase.finished = true
          rw [hph]
          rfl
      · refine startQuestionRound_edge env _ true _ hacc rfl hs ?_
        rw [hph]
        exact ⟨rfl, rfl, rfl⟩

theorem initWorld_inv (env : Env) (ws : WordStore) (ts : TopicStore) :
    DriverInv (initWorld env ws ts) := by
  refine ⟨?_, ?_, ?_⟩ <;> intro h <;> cases h

theorem reachable_inv (env : Env) (w : World) (h : Reachable env w) : DriverInv w := by
  induction h with
  | init ws ts => exact initWorld_inv env ws ts
  | step e _ hoff ih => exact (step_inv_edge env _ e ih hoff).1

theorem jsRound_streak (n : Nat) : jsRound (100 * (1 + (n : ℚ) * (3 / 20))) = 100 + 15 * (n : Int) := by
  unfold jsRound
  rw [Int.floor_eq_iff]
  push_cast
  constructor <;> linarith

/-- An event that neither resets the round nor is an accepted answer leaves
the score counters of the round alone. -/
theorem step_keeps_counters (env : Env) (w : World) (e : Event)
    (hk : keepsRound w e = true) (hsel : ∀ ok, e = Event.select ok → w.acceptingAnswers = false) :
    (step env w e).gameState.score = w.gameState.score ∧
    (step env w e).gameState.streak = w.gameState.streak ∧
    (step env w e).gameState.bestStreak = w.gameState.bestStreak ∧
    (step env w e).gameState.correctCount = w.gameState.correctCount ∧
    w.gameState.questionsAsked ≤ (step env w e).gameState.questionsAsked ∧
    (step env w e).retryQueue = w.retryQueue := by
  cases e with
  | click a =>
    cases a with
    | topicPrev =>
      simp only [step, handleUIButton]
      split <;> simp
    | topicNext =>
      simp only [step, handleUIButton]
      split <;> simp
    | roundMinus => simp [step, handleUIButton]
    | roundPlus => simp [step, handleUIButton]
    | adaptiveToggle => simp [step, handleUIButton]
    | startOrNext =>
      have hk2 : w.gameState.phase = Phase.awaitAnswer ∨ w.gameState.phase = Phase.showFeedback := by
        simpa [keepsRound] using hk
      simp only [step, handleUIButton]
      split
      · rename_i hph
        exfalso
        have g : w.gameState.phase = Phase.idle ∨ w.gameState.phase = Phase.finished := hph
        rcases hk2 with h | h <;> rw [h] at g <;> simp at g
      · split
        · simp
        · split
          · obtain ⟨f1, f2, f3, f4, -, -, f7, f8, -⟩ := startQuestionRound_frame env
              { w with summaryVisible := false,
                       reviewMode := { w.reviewMode with active := false },
                       autoTimer := false } true
            exact ⟨f1, f2, f3, f4, f7, f8⟩
          · simp
    | restartRound => simp [keepsRound] at hk
    | reviewOnly => simp [keepsRound] at hk
    | chooseTopic => simp [step, handleUIButton]
  | select ok =>
    have hacc := hsel ok rfl
    simp [step, evaluateAnswer, hacc]
  | timer =>
    simp only [step, autoAdvance]
    split
    · simp
    · split
      · obtain ⟨h1, -, -, -, h5, -⟩ := gameOver_effect env { w with autoTimer := false }
        rw [h1, h5]
        simp
      · obtain ⟨f1, f2, f3, f4, -, -, f7, f8, -⟩ := startQuestionRound_frame env
          { w with autoTimer := false } true
        exact ⟨f1, f2, f3, f4, f7, f8⟩

/-- The scoring of an accepted correct answer. -/
theorem evaluateAnswer_correct (env : Env) (w : World) (hacc : w.acceptingAnswers = true) :
    (evaluateAnswer env w true).gameState.score =
      w.gameState.score +
        jsRound (env.config.correctPoints * (1 + (w.gameState.streak : ℚ) * env.config.streakBonus)) ∧
    (evaluateAnswer env w true).gameState.streak = w.gameState.streak + 1 := by
  simp [evaluateAnswer, hacc]


/-! ### The first match of a predicate in a list -/

theorem filter_eq_nil_findIdx {α : Type} (p : α → Bool) (q : List α)
    (h : q.filter p = []) : ¬ q.findIdx p < q.length := by
  intro hlt
  have hp : p q[q.findIdx p] = true := List.findIdx_getElem
  have hmem : q[q.findIdx p] ∈ q.filter p := List.mem_filter.mpr ⟨List.getElem_mem _, hp⟩
  rw [h] at hmem
  cases hmem

theorem filter_cons_findIdx {α : Type} (p : α → Bool) (q : List α) (x : α) (rest : List α)
    (h : q.filter p = x :: rest) :
    q.findIdx p < q.length ∧ q[q.findIdx p]? = some x ∧
      (q.eraseIdx (q.findIdx p)).filter p = rest ∧
      ∀ y, p y = true → (q.set (q.findIdx p) y).filter p = y :: rest := by
  induction q with
  | nil => simp at h
  | cons a l ih =>
    rw [List.findIdx_cons]
    cases hpa : p a with
    | true =>
      rw [List.filter_cons_of_pos hpa] at h
      obtain ⟨rfl, rfl⟩ := List.cons.inj h
      refine ⟨by simp, by simp, by simp, ?_⟩
      intro y hy
      simp [List.filter_cons, hy]
    | false =>
      rw [List.filter_cons_of_neg (by simp [hpa])] at h
      obtain ⟨h1, h2, h3, h4⟩ := ih h
      refine ⟨by simpa using h1, by simpa using h2, ?_, ?_⟩
      · simp only [cond_false, List.eraseIdx_cons_succ]
        rw [List.filter_cons_of_neg (by simp [hpa])]
        exact h3
      · intro y hy
        simp only [cond_false, List.set_cons_succ]
        rw [List.filter_cons_of_neg (by simp [hpa])]
        exact h4 y hy

theorem filter_other_findIdx {α : Type} (p r : α → Bool) (q : List α)
    (hdisj : ∀ x, p x = true → r x = false) :
    (q.eraseIdx (q.findIdx p)).filter r = q.filter r ∧
      ∀ y, r y = false → (q.set (q.findIdx p) y).filter r = q.filter r := by
  induction q with
  | nil => simp
  | cons a l ih =>
    rw [List.findIdx_cons]
    cases hpa : p a with
    | true =>
      have hra := hdisj a hpa
      refine ⟨by simp [List.filter_cons, hra], ?_⟩
      intro y hy
      simp [List.filter_cons, hra, hy]
    | false =>
      obtain ⟨h1, h2⟩ := ih
      refine ⟨?_, ?_⟩
      · simp only [cond_false, List.eraseIdx_cons_succ, List.filter_cons, h1]
      · intro y hy
        simp only [cond_false, List.set_cons_succ, List.filter_cons, h2 y hy]

/-! ### The retry queue -/

/-- A wrong answer for a term without entry appends the entry. -/
theorem updateRetryQueue_wrong_new (cfg : Config) (queue : List RetryItem)
    (en topic : String) (asked : Nat) (h : retryEntries queue en = []) :
    retryEntries (updateRetryQueue cfg queue en topic false asked) en =
      [{ en := en, topic := topic, dueAt := asked + cfg.retryAfter, attempts := 1 }] := by
  have hno := filter_eq_nil_findIdx _ queue h
  unfold retryEntries at h
  simp only [updateRetryQueue, retryEntries, if_neg hno, List.filter_append, h]
  simp [List.filter_cons]
  intro a ha hae
  have hmem : a ∈ List.filter (fun it => decide (it.en = en)) queue :=
    List.mem_filter.mpr ⟨ha, by simpa using hae⟩
  rw [h] at hmem
  cases hmem

/-- A wrong answer for a term whose first entry is `item`: the entry is
advanced while `item.attempts < maxRetries` and removed otherwise. -/
theorem updateRetryQueue_wrong_old (cfg : Config) (queue : List RetryItem)
    (en topic : String) (asked : Nat) (item : RetryItem) (rest : List RetryItem)
    (h : retryEntries queue en = item :: rest) :
    retryEntries (updateRetryQueue cfg queue en topic false asked) en =
      if item.attempts < cfg.maxRetries then
        { item with attempts := item.attempts + 1, dueAt := asked + cfg.retryAfter } :: rest
      else rest := by
  obtain ⟨h1, h2, h3, h4⟩ := filter_cons_findIdx _ queue item rest h
  have hen : item.en = en := by
    have : item ∈ retryEntries queue en := by rw [h]; exact List.mem_cons_self _ _
    simpa using (List.mem_filter.mp this).2
  simp only [updateRetryQueue, retryEntries, if_pos h1, h2]
  by_cases hlt : item.attempts < cfg.maxRetries
  · simp only [if_pos hlt, Bool.false_eq_true, if_false]
    exact h4 _ (by simpa using hen)
  · simp only [if_neg hlt, Bool.false_eq_true, if_false]
    exact h3

/-- An answer for one term leaves the entries of every other term alone. -/
theorem updateRetryQueue_other (cfg : Config) (queue : List RetryItem)
    (en topic : String) (ok : Bool) (asked : Nat) (other : String) (hne : en ≠ other) :
    retryEntries (updateRetryQueue cfg queue en topic ok asked) other =
      retryEntries queue other := by
  have hdisj : ∀ x : RetryItem, (fun it : RetryItem => decide (it.en = en)) x = true →
      (fun it : RetryItem => decide (it.en = other)) x = false := by
    intro x hx
    have hx2 : x.en = en := by simpa using hx
    simp [hx2, hne]
  obtain ⟨h1, h2⟩ := filter_other_findIdx _ _ queue hdisj
  unfold updateRetryQueue retryEntries
  simp only
  split
  · split
    · exact h1
    · rfl
  · split
    · rename_i hlt
      have hsome : queue[queue.findIdx (fun it => decide (it.en = en))]? =
          some queue[queue.findIdx (fun it => decide (it.en = en))] :=
        List.getElem?_eq_getElem hlt
      rw [hsome]
      simp only
      have hitem : (queue[queue.findIdx (fun it => decide (it.en = en))]).en = en := by
        have := @List.findIdx_getElem _ (fun it : RetryItem => decide (it.en = en)) queue hlt
        simpa using this
      split
      · apply h2
        simp [hitem, hne]
      · exact h1
    · rw [List.filter_append]
      simp [hne]

/-- The retry queue after an accepted answer. -/
theorem evaluateAnswer_retryQueue (env : Env) (w : World) (ok : Bool)
    (hacc : w.acceptingAnswers = true) :
    (evaluateAnswer env w ok).retryQueue =
      if (w.adaptiveOn && !w.reviewMode.active) = true then
        updateRetryQueue env.config w.retryQueue (promptEn w)
          (strOr ((w.currentQ.map (fun q => q.prompt.topic)).getD "")
            (optOr w.gameState.selectedTopic "All"))
          ok w.gameState.questionsAsked
      else w.retryQueue := by
  unfold evaluateAnswer promptEn
  simp only [hacc]
  cases ok <;> simp

/-- Events that neither reset the round nor are an accepted answer for `en`
leave the retry entries of `en` alone. -/
theorem step_keeps_retryEntries (env : Env) (w : World) (e : Event) (en : String)
    (hk : keepsRound w e = true)
    (hsel : ∀ ok, e = Event.select ok → w.acceptingAnswers = false ∨ promptEn w ≠ en) :
    retryEntries (step env w e).retryQueue en = retryEntries w.retryQueue en := by
  cases e with
  | click a =>
    rw [(step_keeps_counters env w _ hk (fun _ h => by cases h)).2.2.2.2.2]
  | select ok =>
    cases hacc : w.acceptingAnswers with
    | false => simp [step, evaluateAnswer, hacc]
    | true =>
      have hne : promptEn w ≠ en := by
        rcases hsel ok rfl with h | h
        · rw [hacc] at h; cases h
        · exact h
      simp only [step]
      rw [evaluateAnswer_retryQueue env w ok hacc]
      split
      · exact updateRetryQueue_other _ _ _ _ _ _ _ hne
      · rfl
  | timer =>
    rw [(step_keeps_counters env w _ hk (fun _ h => by cases h)).2.2.2.2.2]


/-- With pairwise distinct source texts in the catalog, the labels of a
successful `buildQuestion` are pairwise distinct and hold the prompt's source
text exactly once. -/
theorem labels_nodup_of_distinct (host : Host) (store : WordStore) (p : Pkg)
    (opts : Opts) (pos : Nat) (q : Question)
    (hdistinct : (p.entries.map Entry.en).Nodup)
    (h : (buildQuestion host store (some p) opts pos).1 = some q) :
    (q.options.map AnswerOption.en).Nodup ∧
      (q.options.map AnswerOption.en).count q.prompt.en = 1 := by
  obtain ⟨pool, prompt, M, hsub, hnd, hpm, rfl⟩ :=
    buildQuestion_eq_some host store (some p) opts pos q h
  obtain ⟨shuffled, hsh, hshnd, hp, hperm, -⟩ :=
    assembleQuestion_parts host (some p) pool M prompt (pos + 1) hnd
  have hall : ∀ e ∈ prompt :: shuffled, e ∈ listByTopic (some p) none := by
    intro e he
    rcases List.mem_cons.mp he with rfl | he
    · exact listByTopic_subset _ _ _ (hsub _ hpm)
    · rcases (hsh e he).1 with h1 | h1
      · exact listByTopic_subset _ _ _ (hsub _ h1)
      · exact h1
  have hnd2 : (prompt :: shuffled).Nodup :=
    List.nodup_cons.mpr ⟨fun hin => (hsh _ hin).2 rfl, hshnd⟩
  have hlab : ((prompt :: shuffled).map (fun e => e.2.en)).Nodup :=
    List.Nodup.map_on (fun a ha b hb hab =>
      enum_en_injective p hdistinct a b (hall a ha) (hall b hb) hab) hnd2
  have hnd3 := hperm.nodup_iff.mpr hlab
  refine ⟨hnd3, ?_⟩
  rw [hp]
  apply List.count_eq_one_of_mem hnd3
  exact hperm.mem_iff.mpr (by simp)

/-- The retry entries of the prompt's term after an accepted wrong answer
(adaptive mode on, review mode inactive) when the term had the one entry
`item`. -/
theorem evaluateAnswer_wrong_entries (env : Env) (w : World) (item : RetryItem)
    (hacc : w.acceptingAnswers = true) (hadaptive : w.adaptiveOn = true)
    (hreview : w.reviewMode.active = false)
    (hentry : retryEntries w.retryQueue (promptEn w) = [item]) :
    retryEntries (evaluateAnswer env w false).retryQueue (promptEn w) =
      if item.attempts < env.config.maxRetries then
        [{ item with
           attempts := item.attempts + 1
           dueAt := w.gameState.questionsAsked + env.config.retryAfter }]
      else [] := by
  rw [evaluateAnswer_retryQueue env w false hacc]
  simp only [hadaptive, hreview, Bool.not_false, Bool.and_self, if_true]
  exact updateRetryQueue_wrong_old _ _ _ _ _ item [] hentry

/-! ### The prompt pool and the options of `buildQuestion` -/

theorem buildQuestion_eq (host : Host) (store : WordStore) (pkg : Option Pkg) (opts : Opts)
    (pos : Nat) :
    buildQuestion host store pkg opts pos =
      if (promptPool host pkg opts).isEmpty then (none, pos)
      else
        match choosePrompt host store (promptPool host pkg opts) opts.adaptive
            (opts.onlyPool.map (fun l => l.map host.toLowerCase))
            (opts.weightFactor.getD (6 / 5)) (host.random pos) with
        | none => (none, pos + 1)
        | some promptEntry =>
          (some (assembleQuestion host pkg (promptPool host pkg opts) (optionLimit opts)
              promptEntry (pos + 1)).1,
            (assembleQuestion host pkg (promptPool host pkg opts) (optionLimit opts)
              promptEntry (pos + 1)).2) := by
  by_cases h0 : (listByTopic pkg (orNull opts.topic)).isEmpty = true
  · have hnil : listByTopic pkg (orNull opts.topic) = [] := List.isEmpty_iff.mp h0
    have hp : promptPool host pkg opts = [] := by
      unfold promptPool
      split <;> simp [hnil]
    rw [hp]
    simp [buildQuestion, hnil]
  · cases hop : opts.onlyPool with
    | none =>
      have hp : promptPool host pkg opts = listByTopic pkg (orNull opts.topic) := by
        simp [promptPool, hop]
      rw [hp]
      simp only [buildQuestion, hop, optionLimit, h0, if_false, Option.map_none',
        Bool.false_and, Bool.false_eq_true]
    | some l =>
      cases l with
      | nil =>
        have hp : promptPool host pkg opts = listByTopic pkg (orNull opts.topic) := by
          simp [promptPool, hop]
        rw [hp]
        simp only [buildQuestion, hop, optionLimit, h0, if_false, Option.map_some',
          List.map_nil, Bool.false_and, Bool.false_eq_true]
      | cons x xs =>
        have hp : promptPool host pkg opts =
            (listByTopic pkg (orNull opts.topic)).filter
              (fun e => ((x :: xs).map host.toLowerCase).contains (host.toLowerCase e.2.en)) := by
          simp [promptPool, hop]
        rw [hp]
        simp only [buildQuestion, hop, optionLimit, h0, if_false, Option.map_some',
          List.map_cons, Bool.true_and, if_true, Option.getD_some, Bool.false_eq_true]

theorem buildQuestion_isSome_iff (host : Host) (store : WordStore) (pkg : Option Pkg)
    (opts : Opts) (pos : Nat) :
    (buildQuestion host store pkg opts pos).1.isSome = true ↔ promptPool host pkg opts ≠ [] := by
  rw [buildQuestion_eq]
  by_cases hp : promptPool host pkg opts = []
  · simp [hp]
  · have hc := choosePrompt_isSome host store (promptPool host pkg opts) opts.adaptive
      (opts.onlyPool.map (fun l => l.map host.toLowerCase)) (opts.weightFactor.getD (6 / 5))
      (host.random pos) hp
    obtain ⟨p, hp2⟩ := Option.isSome_iff_exists.mp hc
    have he : (promptPool host pkg opts).isEmpty = false := by
      cases hl : promptPool host pkg opts with
      | nil => exact absurd hl hp
      | cons a b => rfl
    rw [he, hp2]
    simp [hp]

theorem buildQuestion_some (host : Host) (store : WordStore) (pkg : Option Pkg)
    (opts : Opts) (pos : Nat) (q : Question)
    (h : (buildQuestion host store pkg opts pos).1 = some q) :
    ∃ prompt ∈ promptPool host pkg opts,
      q = (assembleQuestion host pkg (promptPool host pkg opts) (optionLimit opts) prompt
        (pos + 1)).1 := by
  rw [buildQuestion_eq] at h
  by_cases he : (promptPool host pkg opts).isEmpty = true
  · rw [if_pos he] at h
    cases h
  · rw [if_neg he] at h
    cases hc : choosePrompt host store (promptPool host pkg opts) opts.adaptive
        (opts.onlyPool.map (fun l => l.map host.toLowerCase)) (opts.weightFactor.getD (6 / 5))
        (host.random pos) with
    | none =>
      rw [hc] at h
      cases h
    | some p =>
      rw [hc] at h
      refine ⟨p, choosePrompt_mem _ _ _ _ _ _ _ _ hc, ?_⟩
      exact (Option.some.inj h).symm

theorem shuffle_length {α : Type} (host : Host) (pos : Nat) (arr : List α) :
    (shuffle host pos arr).1.length = arr.length :=
  (shuffle_perm host pos arr).length_eq

theorem assembleQuestion_options (host : Host) (pkg : Option Pkg) (pool : List EntryRef)
    (maxOptions : Int) (prompt : EntryRef) (pos : Nat) :
    (assembleQuestion host pkg pool maxOptions prompt pos).1.prompt = prompt.2 ∧
    (assembleQuestion host pkg pool maxOptions prompt pos).1.options.length =
      1 + min (max 0 (maxOptions - 1)).toNat (distractorPool pkg pool prompt).length ∧
    ((assembleQuestion host pkg pool maxOptions prompt pos).1.options.map AnswerOption.en).Perm
      ((prompt :: (shuffle host pos (distractorPool pkg pool prompt)).1.take
        (max 0 (maxOptions - 1)).toNat).map (fun e => e.2.en)) := by
  refine ⟨rfl, ?_, ?_⟩
  · simp only [assembleQuestion, List.length_map, shuffle_length, List.length_cons,
      List.length_take, distractorPool]
    omega
  · simp only [assembleQuestion, List.map_map, distractorPool]
    have hid : (AnswerOption.en ∘ AnswerOption.mk) = id := rfl
    rw [hid, List.map_id]
    exact shuffle_perm _ _ _

theorem listByTopic_topic (pkg : Option Pkg) (t : String) (e : EntryRef)
    (ht : t ≠ "") (h : e ∈ listByTopic pkg (some t)) : e.2.topic = t := by
  cases pkg with
  | none => simp [listByTopic] at h
  | some p =>
    simp only [listByTopic, ht, if_false, List.mem_filter, decide_eq_true_eq] at h
    exact h.2

theorem orNull_some (o : Option String) (t : String) (h : orNull o = some t) : t ≠ "" := by
  cases o with
  | none => simp [orNull] at h
  | some s =>
    by_cases hs : s = ""
    · simp [orNull, hs] at h
    · simp only [orNull, hs, if_false, Option.some.injEq] at h
      rw [← h]
      exact hs

theorem mem_promptPool_forced (host : Host) (pkg : Option Pkg) (opts : Opts) (x : String)
    (xs : List String) (hforced : opts.onlyPool = some (x :: xs)) (e : EntryRef) :
    e ∈ promptPool host pkg opts ↔
      e ∈ listByTopic pkg (orNull opts.topic) ∧
        ∃ s ∈ x :: xs, host.toLowerCase e.2.en = host.toLowerCase s := by
  have hp : promptPool host pkg opts =
      (listByTopic pkg (orNull opts.topic)).filter
        (fun e => ((x :: xs).map host.toLowerCase).contains (host.toLowerCase e.2.en)) := by
    simp [promptPool, hforced]
  rw [hp, List.mem_filter, List.elem_iff, List.mem_map]
  constructor
  · rintro ⟨h1, s, hs, heq⟩
    exact ⟨h1, s, hs, heq.symm⟩
  · rintro ⟨h1, s, hs, heq⟩
    exact ⟨h1, s, hs, heq.symm⟩

theorem listByTopic_sublist (pkg : Option Pkg) (topic : Option String) :
    (listByTopic pkg topic).Sublist (listByTopic pkg none) := by
  cases pkg with
  | none => exact List.Sublist.refl _
  | some p =>
    cases topic with
    | none => exact List.Sublist.refl _
    | some t =>
      by_cases ht : t = ""
      · simp [listByTopic, ht]
      · simp only [listByTopic, ht, if_false]
        exact List.filter_sublist _

theorem promptPool_sublist (host : Host) (pkg : Option Pkg) (opts : Opts) :
    (promptPool host pkg opts).Sublist (listByTopic pkg none) := by
  unfold promptPool
  split
  · exact (List.filter_sublist _).trans (listByTopic_sublist pkg _)
  · exact listByTopic_sublist pkg _

theorem cons_filter_ne_perm {α : Type} [DecidableEq α] (l : List α) (x : α)
    (hd : l.Nodup) (hx : x ∈ l) : (x :: l.filter (fun e => decide (e ≠ x))).Perm l := by
  have he : l.erase x = l.filter (fun e => decide (e ≠ x)) := by
    rw [hd.erase_eq_filter]
    congr 1
    funext e
    by_cases hex : e = x <;> simp [hex]
  rw [← he]
  exact (List.perm_cons_erase hx).symm

theorem filter_ne_length {α : Type} [DecidableEq α] (l : List α) (x : α)
    (hd : l.Nodup) (hx : x ∈ l) : (l.filter (fun e => decide (e ≠ x))).length + 1 = l.length := by
  have h := (cons_filter_ne_perm l x hd hx).length_eq
  simpa using h

theorem optionLimit_four (opts : Opts) (h : opts.maxOptions = some 4) : optionLimit opts = 4 := by
  simp [optionLimit, h]

theorem optionLimit_ge (opts : Opts) : 2 ≤ optionLimit opts := le_max_left _ _

theorem distractorPool_others (pkg : Option Pkg) (pool : List EntryRef) (prompt : EntryRef)
    (h : pool.filter (fun e => decide (e ≠ prompt)) ≠ []) :
    distractorPool pkg pool prompt = pool.filter (fun e => decide (e ≠ prompt)) := by
  unfold distractorPool
  cases hf : pool.filter (fun e => decide (e ≠ prompt)) with
  | nil => exact absurd hf h
  | cons x rest => rfl

theorem distractorPool_fallback (pkg : Option Pkg) (pool : List EntryRef) (prompt : EntryRef)
    (h : pool.filter (fun e => decide (e ≠ prompt)) = []) :
    distractorPool pkg pool prompt =
      (listByTopic pkg none).filter (fun e => decide (e ≠ prompt)) := by
  unfold distractorPool
  rw [h]
  rfl

theorem trio_distractors (host : Host) (p : Pkg) (opts : Opts) (a b c : Entry)
    (prompt : EntryRef) (hentries : p.entries = [a, b, c])
    (hmem : prompt ∈ promptPool host (some p) opts) :
    prompt ∈ listByTopic (some p) none ∧
    ((promptPool host (some p) opts).length = 1 ∨ (promptPool host (some p) opts).length = 2 ∨
      (promptPool host (some p) opts).length = 3) ∧
    ((promptPool host (some p) opts).length ≠ 2 →
      distractorPool (some p) (promptPool host (some p) opts) prompt =
        (listByTopic (some p) none).filter (fun e => decide (e ≠ prompt))) ∧
    ((promptPool host (some p) opts).length = 2 →
      (distractorPool (some p) (promptPool host (some p) opts) prompt).length = 1) := by
  have hsub := promptPool_sublist host (some p) opts
  have hnd : (listByTopic (some p) none).Nodup := listByTopic_nodup (some p) none
  have hlen : (listByTopic (some p) none).length = 3 := by
    simp [listByTopic, hentries]
  have hpnd : (promptPool host (some p) opts).Nodup := hnd.sublist hsub
  have hle : (promptPool host (some p) opts).length ≤ 3 := hlen ▸ hsub.length_le
  have hpos : 0 < (promptPool host (some p) opts).length := List.length_pos_of_mem hmem
  have hfl := filter_ne_length (promptPool host (some p) opts) prompt hpnd hmem
  refine ⟨hsub.subset hmem, by omega, ?_, ?_⟩
  · intro hne
    have h13 : (promptPool host (some p) opts).length = 1 ∨
        (promptPool host (some p) opts).length = 3 := by omega
    rcases h13 with h1 | h3
    · have hnil : (promptPool host (some p) opts).filter (fun e => decide (e ≠ prompt)) = [] := by
        apply List.eq_nil_of_length_eq_zero
        omega
      exact distractorPool_fallback _ _ _ hnil
    · have heq : promptPool host (some p) opts = listByTopic (some p) none :=
        hsub.eq_of_length (by rw [h3, hlen])
      have hne2 : (listByTopic (some p) none).filter (fun e => decide (e ≠ prompt)) ≠ [] := by
        intro hnil
        rw [heq, hnil] at hfl
        simp [hlen] at hfl
      rw [heq]
      exact distractorPool_others _ _ _ hne2
  · intro h2
    have hl1 : ((promptPool host (some p) opts).filter (fun e => decide (e ≠ prompt))).length = 1 := by
      omega
    have hne2 : (promptPool host (some p) opts).filter (fun e => decide (e ≠ prompt)) ≠ [] := by
      intro hnil
      rw [hnil] at hl1
      simp at hl1
    rw [distractorPool_others _ _ _ hne2, hl1]

/-! ### Topic statistics and the ranking of hard words -/

theorem loadStats_update (store : TopicStore) (topic : String) (score : Int) (correct : Nat)
    (total : Int) (bestStreak : Nat) (t : String) :
    (statsKey t = statsKey topic →
      loadStats (updateStatsOnGameOver store topic score correct total bestStreak).2 t =
        (updateStatsOnGameOver store topic score correct total bestStreak).1) ∧
    (statsKey t ≠ statsKey topic →
      loadStats (updateStatsOnGameOver store topic score correct total bestStreak).2 t =
        loadStats store t) := by
  constructor
  · intro h
    simp [loadStats, updateStatsOnGameOver, setItem, h]
  · intro h
    simp [loadStats, updateStatsOnGameOver, setItem, h]

theorem updateStatsOnGameOver_best (store : TopicStore) (topic : String) (score : Int)
    (correct : Nat) (total : Int) (bestStreak : Nat) (t : String) :
    (loadStats store t).bestScore ≤
      (loadStats (updateStatsOnGameOver store topic score correct total bestStreak).2 t).bestScore ∧
    (loadStats store t).bestStreak ≤
      (loadStats (updateStatsOnGameOver store topic score correct total bestStreak).2 t).bestStreak ∧
    (loadStats store t).bestAccuracyPct ≤
      (loadStats (updateStatsOnGameOver store topic score correct total bestStreak).2
        t).bestAccuracyPct := by
  by_cases h : statsKey t = statsKey topic
  · rw [(loadStats_update store topic score correct total bestStreak t).1 h]
    have hl : loadStats store t = loadStats store topic := by
      simp [loadStats, h]
    rw [hl]
    simp [updateStatsOnGameOver]
  · rw [(loadStats_update store topic score correct total bestStreak t).2 h]
    exact ⟨le_refl _, le_refl _, le_refl _⟩

theorem foldRounds_best (rounds : List RoundResult) (store : TopicStore) (t : String) :
    (loadStats store t).bestScore ≤ (loadStats (foldRounds store rounds) t).bestScore ∧
    (loadStats store t).bestStreak ≤ (loadStats (foldRounds store rounds) t).bestStreak ∧
    (loadStats store t).bestAccuracyPct ≤
      (loadStats (foldRounds store rounds) t).bestAccuracyPct := by
  induction rounds generalizing store with
  | nil => exact ⟨le_refl _, le_refl _, le_refl _⟩
  | cons r rest ih =>
    have h1 := updateStatsOnGameOver_best store r.topic r.score r.correct r.total r.bestStreak t
    have h2 := ih (updateStatsOnGameOver store r.topic r.score r.correct r.total r.bestStreak).2
    have hf : foldRounds store (r :: rest) =
        foldRounds (updateStatsOnGameOver store r.topic r.score r.correct r.total r.bestStreak).2
          rest := rfl
    rw [hf]
    exact ⟨le_trans h1.1 h2.1, le_trans h1.2.1 h2.2.1, le_trans h1.2.2 h2.2.2⟩

theorem orderedInsert_filter_diff (d : ℚ) (a : HardWord) (l : List HardWord) :
    (l.orderedInsert (fun a b : HardWord => b.diff ≤ a.diff) a).filter
        (fun h => decide (h.diff = d)) =
      (a :: l).filter (fun h => decide (h.diff = d)) := by
  induction l with
  | nil => simp
  | cons b rest ih =>
    by_cases hab : b.diff ≤ a.diff
    · simp [List.orderedInsert, hab]
    · have hlt : a.diff < b.diff := not_le.mp hab
      simp only [List.orderedInsert, hab, if_false]
      by_cases ha : a.diff = d
      · have hb : ¬ b.diff = d := by
          intro hb
          rw [ha, hb] at hlt
          exact lt_irrefl _ hlt
        simp only [List.filter_cons, hb, decide_False, Bool.false_eq_true, if_false]
        rw [ih]
        simp [List.filter_cons, ha]
      · by_cases hb : b.diff = d
        · simp only [List.filter_cons, hb, ha, decide_True, decide_False, if_true,
            Bool.false_eq_true, if_false]
          rw [ih]
          simp [List.filter_cons, ha]
        · simp only [List.filter_cons, hb, ha, decide_False, Bool.false_eq_true, if_false]
          rw [ih]
          simp [List.filter_cons, ha]

theorem insertionSort_filter_diff (d : ℚ) (l : List HardWord) :
    (l.insertionSort (fun a b : HardWord => b.diff ≤ a.diff)).filter
        (fun h => decide (h.diff = d)) =
      l.filter (fun h => decide (h.diff = d)) := by
  induction l with
  | nil => rfl
  | cons a rest ih =>
    rw [List.insertionSort, orderedInsert_filter_diff, List.filter_cons, List.filter_cons, ih]

theorem insertionSort_diff_sorted (l : List HardWord) :
    (l.insertionSort (fun a b : HardWord => b.diff ≤ a.diff)).Pairwise
      (fun a b => b.diff ≤ a.diff) := by
  haveI : IsTotal HardWord (fun a b : HardWord => b.diff ≤ a.diff) :=
    ⟨fun a b => le_total b.diff a.diff⟩
  haveI : IsTrans HardWord (fun a b : HardWord => b.diff ≤ a.diff) :=
    ⟨fun _ _ _ hab hbc => le_trans hbc hab⟩
  exact List.sorted_insertionSort (fun a b : HardWord => b.diff ≤ a.diff) l

/-! ### Steps of a round -/

theorem buildQuestion_options_ne (host : Host) (store : WordStore) (pkg : Option Pkg)
    (opts : Opts) (pos : Nat) (q : Question)
    (h : (buildQuestion host store pkg opts pos).1 = some q) : q.options.isEmpty = false := by
  obtain ⟨prompt, _, hq⟩ := buildQuestion_some host store pkg opts pos q h
  have hlen := (assembleQuestion_options host pkg (promptPool host pkg opts) (optionLimit opts)
    prompt (pos + 1)).2.1
  rw [← hq] at hlen
  cases ho : q.options with
  | nil =>
    rw [ho] at hlen
    simp at hlen
    omega
  | cons a rest => rfl

theorem startQuestionRound_ask (env : Env) (w : World) (hpkg : env.wordsPkg.isSome = true)
    (hlt : (w.gameState.questionsAsked : Int) < w.gameState.roundSize)
    (hrev : (w.reviewMode.active &&
      decide (w.reviewMode.index ≥ w.reviewMode.pool.length)) = false) :
    (startQuestionRound env w true).currentQ =
      (buildQuestion env.host w.wordStore env.wordsPkg
        (roundOptions env w (forcedPool w (w.gameState.questionsAsked + 1))) w.randomCalls).1 ∧
    (startQuestionRound env w true).randomCalls =
      (buildQuestion env.host w.wordStore env.wordsPkg
        (roundOptions env w (forcedPool w (w.gameState.questionsAsked + 1))) w.randomCalls).2 ∧
    (startQuestionRound env w true).gameState.questionsAsked = w.gameState.questionsAsked + 1 ∧
    (startQuestionRound env w true).gameState.round = w.gameState.questionsAsked + 1 ∧
    (startQuestionRound env w true).reviewMode.index =
      (if w.reviewMode.active then w.reviewMode.index + 1 else w.reviewMode.index) ∧
    ((buildQuestion env.host w.wordStore env.wordsPkg
        (roundOptions env w (forcedPool w (w.gameState.questionsAsked + 1)))
        w.randomCalls).1.isSome = true →
      (startQuestionRound env w true).gameState.phase = Phase.awaitAnswer ∧
      (startQuestionRound env w true).acceptingAnswers = true) ∧
    ((buildQuestion env.host w.wordStore env.wordsPkg
        (roundOptions env w (forcedPool w (w.gameState.questionsAsked + 1)))
        w.randomCalls).1 = none →
      (startQuestionRound env w true).gameState.phase = w.gameState.phase ∧
      (startQuestionRound env w true).acceptingAnswers = w.acceptingAnswers) := by
  have hnone : env.wordsPkg.isNone = false := by
    cases hp : env.wordsPkg with
    | none => rw [hp] at hpkg; cases hpkg
    | some p => rfl
  have hge : ¬ (w.gameState.questionsAsked : Int) ≥ w.gameState.roundSize := not_le.mpr hlt
  unfold startQuestionRound
  rw [if_neg (by rw [hnone]; exact Bool.false_ne_true), if_neg (by decide), if_neg hge]
  simp only
  rw [if_neg (by rw [hrev]; exact Bool.false_ne_true)]
  cases hact : w.reviewMode.active <;>
  cases hb : (buildQuestion env.host w.wordStore env.wordsPkg
      (roundOptions env w (forcedPool w (w.gameState.questionsAsked + 1))) w.randomCalls).1 with
  | none => simp
  | some q =>
    have hq := buildQuestion_options_ne _ _ _ _ _ q hb
    simp [hq]

theorem forcedPool_retry (v : World) (asked : Nat) (hadaptive : v.adaptiveOn = true)
    (hreview : v.reviewMode.active = false) :
    forcedPool v asked =
      (v.retryQueue.find? (fun it => decide (it.dueAt ≤ asked))).map (fun due => [due.en]) := by
  unfold forcedPool
  rw [hreview, hadaptive]
  cases hq : v.retryQueue with
  | nil => rfl
  | cons a rest => rfl

theorem listByTopic_isSome (pkg : Option Pkg) (topic : Option String)
    (h : listByTopic pkg topic ≠ []) : pkg.isSome = true := by
  cases pkg with
  | none => exact absurd rfl h
  | some p => rfl

theorem startQuestionRound_over (env : Env) (w : World) (hpkg : env.wordsPkg.isSome = true)
    (hge : (w.gameState.questionsAsked : Int) ≥ w.gameState.roundSize) :
    startQuestionRound env w true = gameOver env w := by
  have hnone : env.wordsPkg.isNone = false := by
    cases hp : env.wordsPkg with
    | none => rw [hp] at hpkg; cases hpkg
    | some p => rfl
  unfold startQuestionRound
  rw [if_neg (by rw [hnone]; exact Bool.false_ne_true), if_neg (by decide), if_pos hge]

theorem startQuestionRound_unforced (env : Env) (w : World)
    (hpool : listByTopic env.wordsPkg (orNull w.gameState.selectedTopic) ≠ [])
    (hlt : (w.gameState.questionsAsked : Int) < w.gameState.roundSize)
    (hreview : w.reviewMode.active = false) (hqueue : w.retryQueue = []) :
    (startQuestionRound env w true).gameState.phase = Phase.awaitAnswer ∧
    (startQuestionRound env w true).acceptingAnswers = true ∧
    (startQuestionRound env w true).gameState.questionsAsked = w.gameState.questionsAsked + 1 ∧
    (startQuestionRound env w true).gameState.round = w.gameState.questionsAsked + 1 := by
  have hpkg := listByTopic_isSome _ _ hpool
  have hrev : (w.reviewMode.active &&
      decide (w.reviewMode.index ≥ w.reviewMode.pool.length)) = false := by
    rw [hreview]
    rfl
  obtain ⟨_, _, h3, h4, _, h6, _⟩ := startQuestionRound_ask env w hpkg hlt hrev
  have hf : forcedPool w (w.gameState.questionsAsked + 1) = none := by
    simp [forcedPool, hreview, hqueue]
  rw [hf] at h6
  have hsome : (buildQuestion env.host w.wordStore env.wordsPkg (roundOptions env w none)
      w.randomCalls).1.isSome = true := by
    rw [buildQuestion_isSome_iff]
    exact hpool
  exact ⟨(h6 hsome).1, (h6 hsome).2, h3, h4⟩

theorem evaluateAnswer_true_state (env : Env) (w : World) (hacc : w.acceptingAnswers = true) :
    (evaluateAnswer env w true).gameState =
      { w.gameState with
        score := w.gameState.score +
          jsRound (env.config.correctPoints *
            (1 + (w.gameState.streak : ℚ) * env.config.streakBonus))
        streak := w.gameState.streak + 1
        bestStreak := max w.gameState.bestStreak (w.gameState.streak + 1)
        correctCount := w.gameState.correctCount + 1
        phase := Phase.showFeedback } ∧
    (evaluateAnswer env w true).reviewMode = w.reviewMode ∧
    (evaluateAnswer env w true).adaptiveOn = w.adaptiveOn ∧
    (w.retryQueue = [] → (evaluateAnswer env w true).retryQueue = []) ∧
    (env.config.autoAdvanceMs > 0 → (evaluateAnswer env w true).autoTimer = true) := by
  refine ⟨?_, ?_, ?_, ?_, ?_⟩
  · simp [evaluateAnswer, hacc]
  · simp [evaluateAnswer, hacc]
  · simp [evaluateAnswer, hacc]
  · intro hq
    rw [evaluateAnswer_retryQueue env w true hacc, hq]
    split
    · rfl
    · rfl
  · intro hms
    simp [evaluateAnswer, hacc, hms]

theorem advances_step (env : Env) (w : World) (e : Event) (hpkg : env.wordsPkg.isSome = true)
    (hadv : advances env e = true) (hphase : w.gameState.phase = Phase.showFeedback)
    (htimer : env.config.autoAdvanceMs > 0 → w.autoTimer = true)
    (hreview : w.reviewMode.active = false) :
    ∃ v : World, step env w e = startQuestionRound env v true ∧
      v.gameState = w.gameState ∧ v.retryQueue = w.retryQueue ∧
      v.reviewMode.active = false := by
  cases e with
  | select ok => cases hadv
  | timer =>
    have hms : env.config.autoAdvanceMs > 0 := by simpa [advances] using hadv
    refine ⟨{ w with autoTimer := false }, ?_, rfl, rfl, hreview⟩
    simp only [step, autoAdvance, htimer hms, Bool.not_true, Bool.false_eq_true, if_false]
    split
    · rename_i hge
      exact (startQuestionRound_over env { w with autoTimer := false } hpkg hge).symm
    · rfl
  | click action =>
    cases action with
    | startOrNext =>
      refine ⟨{ w with summaryVisible := false
                       reviewMode := { w.reviewMode with active := false }
                       autoTimer := false }, ?_, rfl, rfl, rfl⟩
      simp [step, handleUIButton, hphase]
    | _ => cases hadv

theorem ask_then_correct (env : Env) (w : World) (k : Nat)
    (hpool : listByTopic env.wordsPkg (orNull w.gameState.selectedTopic) ≠ [])
    (hlt : (k : Int) < w.gameState.roundSize)
    (hq : w.gameState.questionsAsked = k) (hs : w.gameState.streak = k)
    (hb : w.gameState.bestStreak = k) (hc : w.gameState.correctCount = k)
    (hqueue : w.retryQueue = []) (hreview : w.reviewMode.active = false) :
    (evaluateAnswer env (startQuestionRound env w true) true).gameState.phase =
      Phase.showFeedback ∧
    (evaluateAnswer env (startQuestionRound env w true) true).gameState.roundSize =
      w.gameState.roundSize ∧
    (evaluateAnswer env (startQuestionRound env w true) true).gameState.selectedTopic =
      w.gameState.selectedTopic ∧
    (evaluateAnswer env (startQuestionRound env w true) true).gameState.questionsAsked = k + 1 ∧
    (evaluateAnswer env (startQuestionRound env w true) true).gameState.streak = k + 1 ∧
    (evaluateAnswer env (startQuestionRound env w true) true).gameState.bestStreak = k + 1 ∧
    (evaluateAnswer env (startQuestionRound env w true) true).gameState.correctCount = k + 1 ∧
    (evaluateAnswer env (startQuestionRound env w true) true).retryQueue = [] ∧
    (evaluateAnswer env (startQuestionRound env w true) true).reviewMode.active = false ∧
    (env.config.autoAdvanceMs > 0 →
      (evaluateAnswer env (startQuestionRound env w true) true).autoTimer = true) := by
  rw [← hq] at hlt
  obtain ⟨_, hacc, hqa, _⟩ := startQuestionRound_unforced env w hpool hlt hreview hqueue
  obtain ⟨_, f2, f3, f4, f5, f6, _, f8, _, _, f11, _⟩ := startQuestionRound_frame env w true
  obtain ⟨e1, e2, _, e4, e5⟩ := evaluateAnswer_true_state env (startQuestionRound env w true) hacc
  refine ⟨?_, ?_, ?_, ?_, ?_, ?_, ?_, e4 (by rw [f8, hqueue]), ?_, e5⟩
  · rw [e1]
  · rw [e1]
    exact f5
  · rw [e1]
    exact f6
  · rw [e1]
    exact hqa.trans (by rw [hq])
  · rw [e1]
    show (startQuestionRound env w true).gameState.streak + 1 = k + 1
    rw [f2, hs]
  · rw [e1]
    show max (startQuestionRound env w true).gameState.bestStreak
      ((startQuestionRound env w true).gameState.streak + 1) = k + 1
    rw [f2, f3, hs, hb]
    exact max_eq_right (Nat.le_succ k)
  · rw [e1]
    show (startQuestionRound env w true).gameState.correctCount + 1 = k + 1
    rw [f4, hc]
  · rw [e2, f11]
    exact hreview

theorem gameOver_summary (env : Env) (v : World) :
    (gameOver env v).gameState.phase = Phase.finished ∧
    ∃ s, (gameOver env v).summary = some s ∧
      s.accuracyPct =
        (if v.gameState.roundSize ≤ 0 then 0
         else jsRound (100 * (v.gameState.correctCount : ℚ) / (v.gameState.roundSize : ℚ))) ∧
      s.bestStreak = v.gameState.bestStreak ∧ s.correct = v.gameState.correctCount ∧
      s.total = v.gameState.roundSize ∧ s.score = v.gameState.score := by
  refine ⟨rfl, _, rfl, ?_, rfl, rfl, rfl, rfl⟩
  simp only
  by_cases ht : v.gameState.roundSize > 0
  · rw [if_pos ht, if_neg (not_le.mpr ht)]
    congr 1
    ring
  · rw [if_neg ht, if_pos (not_lt.mp ht)]

theorem startOrNext_fresh (env : Env) (w : World)
    (hphase : w.gameState.phase = Phase.idle ∨ w.gameState.phase = Phase.finished) :
    handleUIButton env w Action.startOrNext =
      startQuestionRound env
        (resetRoundState { w with summaryVisible := false
                                  reviewMode := { w.reviewMode with active := false } })
        true := by
  simp only [handleUIButton]
  rw [if_pos hphase]

/-! ### Review rounds -/

theorem evaluateAnswer_frame (env : Env) (w : World) (ok : Bool) :
    (evaluateAnswer env w ok).reviewMode = w.reviewMode ∧
    (evaluateAnswer env w ok).gameState.questionsAsked = w.gameState.questionsAsked ∧
    (evaluateAnswer env w ok).gameState.roundSize = w.gameState.roundSize ∧
    (evaluateAnswer env w ok).gameState.selectedTopic = w.gameState.selectedTopic := by
  unfold evaluateAnswer
  cases w.acceptingAnswers <;> cases ok <;> simp

theorem keepsReview_frame (env : Env) (w : World) (e : Event) (n : Nat)
    (hk : keepsReview n e = true) (hsize : (n : Int) ≤ w.gameState.roundSize) :
    (step env w e).reviewMode = w.reviewMode ∧
    (step env w e).gameState.questionsAsked = w.gameState.questionsAsked ∧
    (n : Int) ≤ (step env w e).gameState.roundSize := by
  cases e with
  | timer => cases hk
  | select ok =>
    obtain ⟨h1, h2, h3, _⟩ := evaluateAnswer_frame env w ok
    exact ⟨h1, h2, by rw [show (step env w (Event.select ok)) = evaluateAnswer env w ok from rfl, h3]; exact hsize⟩
  | click action =>
    cases action with
    | topicPrev =>
      simp only [step, handleUIButton]
      split <;> exact ⟨rfl, rfl, hsize⟩
    | topicNext =>
      simp only [step, handleUIButton]
      split <;> exact ⟨rfl, rfl, hsize⟩
    | adaptiveToggle => exact ⟨rfl, rfl, hsize⟩
    | roundPlus =>
      have hn : n ≤ 20 := by simpa [keepsReview] using hk
      refine ⟨rfl, rfl, ?_⟩
      show (n : Int) ≤ min 20 (w.gameState.roundSize + 1)
      omega
    | roundMinus =>
      have hn : n ≤ 3 := by simpa [keepsReview] using hk
      refine ⟨rfl, rfl, ?_⟩
      show (n : Int) ≤ max 3 (w.gameState.roundSize - 1)
      omega
    | startOrNext => cases hk
    | restartRound => cases hk
    | reviewOnly => cases hk
    | chooseTopic => cases hk

theorem reviewRun_inv (env : Env) (pool : List String) (k : Nat) (w : World)
    (hpkg : env.wordsPkg.isSome = true) (hrun : ReviewRun env pool k w)
    (hk : k ≤ pool.length) :
    w.reviewMode = { active := true, pool := pool, index := k } ∧
    w.gameState.questionsAsked = k ∧ (pool.length : Int) ≤ w.gameState.roundSize := by
  induction hrun with
  | entered w0 => exact ⟨rfl, rfl, le_refl _⟩
  | @asked j v _ ih =>
    obtain ⟨hr, hq, hs⟩ := ih (by omega)
    have hlt : (v.gameState.questionsAsked : Int) < v.gameState.roundSize := by
      rw [hq]
      omega
    have hrev : (v.reviewMode.active &&
        decide (v.reviewMode.index ≥ v.reviewMode.pool.length)) = false := by
      rw [hr]
      simp
      omega
    obtain ⟨_, _, a3, _, a5, _, _⟩ := startQuestionRound_ask env v hpkg hlt hrev
    obtain ⟨_, _, _, _, f5, _, _, _, _, _, f11, f12⟩ := startQuestionRound_frame env v true
    refine ⟨?_, by rw [a3, hq], by rw [f5]; exact hs⟩
    have hact : v.reviewMode.active = true := by rw [hr]
    rw [hact] at f11
    rw [hact, if_pos rfl] at a5
    have hpool : v.reviewMode.pool = pool := by rw [hr]
    have hidx : v.reviewMode.index = j := by rw [hr]
    rw [hpool] at f12
    rw [hidx] at a5
    cases hm : (startQuestionRound env v true).reviewMode with
    | mk act pl ix =>
      rw [hm] at f11 f12 a5
      simp only at f11 f12 a5
      rw [f11, f12, a5]
  | @other j v e _ hkeep ih =>
    obtain ⟨hr, hq, hs⟩ := ih hk
    obtain ⟨g1, g2, g3⟩ := keepsReview_frame env v e pool.length hkeep hs
    exact ⟨by rw [g1, hr], by rw [g2, hq], g3⟩

theorem startQuestionRound_exhausted (env : Env) (w : World)
    (hpkg : env.wordsPkg.isSome = true)
    (hlt : (w.gameState.questionsAsked : Int) < w.gameState.roundSize)
    (hact : w.reviewMode.active = true)
    (hidx : w.reviewMode.index ≥ w.reviewMode.pool.length) :
    startQuestionRound env w true =
      gameOver env
        { w with gameState := { w.gameState with
                                questionsAsked := w.gameState.questionsAsked + 1
                                round := w.gameState.questionsAsked + 1 } } := by
  have hnone : env.wordsPkg.isNone = false := by
    cases hp : env.wordsPkg with
    | none => rw [hp] at hpkg; cases hpkg
    | some p => rfl
  unfold startQuestionRound
  rw [if_neg (by rw [hnone]; exact Bool.false_ne_true), if_neg (by decide),
    if_neg (not_le.mpr hlt)]
  simp only
  rw [if_pos (by rw [hact]; simpa using hidx)]

/-! ### Sampling weights, the weighted walk and `shuffle` -/

theorem choosePrompt_adaptive (host : Host) (store : WordStore) (pool : List EntryRef)
    (weightFactor : ℚ) (u : Draw) :
    choosePrompt host store pool true none weightFactor u =
      weightedSample pool
        (pool.map (fun e => sampleWeight weightFactor (difficultyFor host store e.2.topic e.2.en)))
        u := rfl

theorem foldl_add_eq_sum (ws : List ℚ) : ws.foldl (fun a b => a + b) 0 = ws.sum := by
  rw [List.sum_eq_foldl]

theorem weightedWalk_least {α : Type} (pool : List α) (ws : List ℚ) (r : ℚ)
    (hlen : ws.length = pool.length) (hne : pool ≠ []) (hr : r ≤ ws.sum) :
    ∃ i, i < pool.length ∧ weightedWalk pool ws r = pool[i]? ∧
      r ≤ (ws.take (i + 1)).sum ∧ ∀ j, j < i → (ws.take (j + 1)).sum < r := by
  induction pool generalizing ws r with
  | nil => exact absurd rfl hne
  | cons p ps ih =>
    cases ws with
    | nil => simp at hlen
    | cons w wt =>
      by_cases hw : r - w ≤ 0
      · refine ⟨0, Nat.succ_pos _, ?_, ?_, ?_⟩
        · simp [weightedWalk, hw]
        · simp only [List.take_succ_cons, List.take_zero, List.sum_cons, List.sum_nil]
          linarith
        · intro j hj
          exact absurd hj (Nat.not_lt_zero j)
      · have hlen2 : wt.length = ps.length := by simpa using hlen
        have hne2 : ps ≠ [] := by
          intro hnil
          rw [hnil] at hlen2
          have : wt = [] := List.eq_nil_of_length_eq_zero hlen2
          rw [this] at hr
          simp at hr
          linarith
        have hr2 : r - w ≤ wt.sum := by
          simp only [List.sum_cons] at hr
          linarith
        obtain ⟨i, hi, hwalk, hle, hlt⟩ := ih wt (r - w) hlen2 hne2 hr2
        refine ⟨i + 1, Nat.succ_lt_succ hi, ?_, ?_, ?_⟩
        · simp [weightedWalk, hw, hwalk]
        · simp only [List.take_succ_cons, List.sum_cons]
          linarith
        · intro j hj
          cases j with
          | zero =>
            simp only [List.take_succ_cons, List.take_zero, List.sum_cons, List.sum_nil]
            linarith
          | succ j2 =>
            have := hlt j2 (Nat.lt_of_succ_lt_succ hj)
            simp only [List.take_succ_cons, List.sum_cons]
            linarith

theorem sum_take_mono (ws : List ℚ) (hpos : ∀ w ∈ ws, 0 < w) (a b : Nat) (hab : a ≤ b) :
    (ws.take a).sum ≤ (ws.take b).sum := by
  induction ws generalizing a b with
  | nil => simp
  | cons w wt ih =>
    cases a with
    | zero =>
      simp only [List.take_zero, List.sum_nil]
      apply List.sum_nonneg
      intro x hx
      exact le_of_lt (hpos x (List.mem_of_mem_take hx))
    | succ a2 =>
      cases b with
      | zero => exact absurd hab (Nat.not_succ_le_zero a2)
      | succ b2 =>
        simp only [List.take_succ_cons, List.sum_cons]
        have := ih (fun x hx => hpos x (List.mem_cons_of_mem w hx)) a2 b2 (Nat.le_of_succ_le_succ hab)
        linarith

theorem sum_pos_of_pos (ws : List ℚ) (hne : ws ≠ []) (hpos : ∀ w ∈ ws, 0 < w) : 0 < ws.sum := by
  cases ws with
  | nil => exact absurd rfl hne
  | cons w wt =>
    simp only [List.sum_cons]
    have h1 := hpos w (List.mem_cons_self w wt)
    have h2 : 0 ≤ wt.sum := List.sum_nonneg (fun x hx => le_of_lt (hpos x (List.mem_cons_of_mem w hx)))
    linarith

theorem shuffleArraysLoop_eq {α : Type} (host : Host) (i pos : Nat) (m : ShuffleArrays α) :
    (shuffleArraysLoop host i pos m).1.arr = m.arr ∧
    (shuffleArraysLoop host i pos m).1.a = (shuffleLoop host i pos m.a).1 ∧
    (shuffleArraysLoop host i pos m).2 = (shuffleLoop host i pos m.a).2 := by
  induction i generalizing pos m with
  | zero => exact ⟨rfl, rfl, rfl⟩
  | succ n ih =>
    simp only [shuffleArraysLoop, shuffleLoop]
    exact ih (pos + 1) _

theorem getWordStats_update (host : Host) (store : WordStore) (topic en : String) (ok : Bool) :
    getWordStats host (updateWordStats host store topic en ok).2 topic en =
      (updateWordStats host store topic en ok).1 := by
  simp [getWordStats, updateWordStats, setItem]

theorem clamp_mono (x y : ℚ) (h : x ≤ y) :
    max (1 / 2 : ℚ) (min 4 x) ≤ max (1 / 2) (min 4 y) :=
  max_le_max (le_refl _) (min_le_min (le_refl _) h)

/-! ### The due entry of the retry queue -/

theorem find?_first {α : Type} (p : α → Bool) (l : List α) (x : α)
    (h : l.find? p = some x) :
    ∃ pre post, l = pre ++ x :: post ∧ (∀ y ∈ pre, p y = false) ∧ p x = true := by
  induction l with
  | nil => simp at h
  | cons a rest ih =>
    by_cases ha : p a = true
    · have hx : a = x := by simpa [List.find?, ha] using h
      subst hx
      exact ⟨[], rest, rfl, by simp, ha⟩
    · have hrest : rest.find? p = some x := by simpa [List.find?, ha] using h
      obtain ⟨pre, post, heq, hpre, hx⟩ := ih hrest
      refine ⟨a :: pre, post, by rw [heq]; rfl, ?_, hx⟩
      intro y hy
      rcases List.mem_cons.mp hy with h1 | h1
      · rw [h1]
        simpa using ha
      · exact hpre y h1

/-! ### The counters of a round -/

theorem gameOver_counter (env : Env) (w : World)
    (hs : w.gameState.streak ≤ w.gameState.bestStreak)
    (hb : w.gameState.bestStreak ≤ w.gameState.correctCount)
    (hc : w.gameState.correctCount ≤ w.gameState.questionsAsked) :
    CounterInv env (gameOver env w) := by
  refine ⟨?_, hs, hb, ?_⟩
  · intro h
    cases h
  · show w.gameState.correctCount + 0 ≤ w.gameState.questionsAsked
    omega

theorem startQuestionRound_counter (env : Env) (w : World)
    (hacc : w.acceptingAnswers = true → env.wordsPkg.isSome = true)
    (hs : w.gameState.streak ≤ w.gameState.bestStreak)
    (hb : w.gameState.bestStreak ≤ w.gameState.correctCount)
    (hc : w.gameState.correctCount ≤ w.gameState.questionsAsked) :
    CounterInv env (startQuestionRound env w true) := by
  cases hp : env.wordsPkg.isSome with
  | false =>
    have hnone : env.wordsPkg.isNone = true := by
      cases hq : env.wordsPkg with
      | none => rfl
      | some p => rw [hq] at hp; cases hp
    have hsame : startQuestionRound env w true = w := by
      unfold startQuestionRound
      rw [if_pos hnone]
    rw [hsame]
    have hfalse : w.acceptingAnswers = false := by
      cases ha : w.acceptingAnswers with
      | false => rfl
      | true =>
        have := hacc ha
        rw [hp] at this
        cases this
    refine ⟨hacc, hs, hb, ?_⟩
    rw [hfalse]
    exact hc
  | true =>
    by_cases hge : (w.gameState.questionsAsked : Int) ≥ w.gameState.roundSize
    · rw [startQuestionRound_over env w hp hge]
      exact gameOver_counter env w hs hb hc
    · by_cases hex : w.reviewMode.active = true ∧
          w.reviewMode.index ≥ w.reviewMode.pool.length
      · rw [startQuestionRound_exhausted env w hp (not_le.mp hge) hex.1 hex.2]
        exact gameOver_counter env _ hs hb (Nat.le_succ_of_le hc)
      · have hrev : (w.reviewMode.active &&
            decide (w.reviewMode.index ≥ w.reviewMode.pool.length)) = false := by
          cases ha : w.reviewMode.active with
          | false => rfl
          | true =>
            have : ¬ w.reviewMode.index ≥ w.reviewMode.pool.length := fun h => hex ⟨ha, h⟩
            simp [this]
        obtain ⟨_, _, a3, _⟩ := startQuestionRound_ask env w hp (not_le.mp hge) hrev
        obtain ⟨_, f2, f3, f4, _⟩ := startQuestionRound_frame env w true
        refine ⟨fun _ => hp, by rw [f2, f3]; exact hs, by rw [f3, f4]; exact hb, ?_⟩
        rw [f4, a3]
        split <;> omega

theorem evaluateAnswer_counter (env : Env) (w : World) (ok : Bool) (h : CounterInv env w) :
    CounterInv env (evaluateAnswer env w ok) := by
  obtain ⟨h1, h2, h3, h4⟩ := h
  cases hacc : w.acceptingAnswers with
  | false =>
    have hsame : evaluateAnswer env w ok = w := by
      simp [evaluateAnswer, hacc]
    rw [hsame]
    exact ⟨h1, h2, h3, h4⟩
  | true =>
    rw [hacc] at h4
    simp only [if_true] at h4
    cases ok with
    | true =>
      obtain ⟨e1, _⟩ := evaluateAnswer_true_state env w hacc
      refine ⟨?_, ?_, ?_, ?_⟩
      · intro h
        simp [evaluateAnswer, hacc] at h
      · rw [e1]
        exact le_max_right _ _
      · rw [e1]
        show max w.gameState.bestStreak (w.gameState.streak + 1) ≤ w.gameState.correctCount + 1
        exact max_le (by omega) (by omega)
      · have hf : (evaluateAnswer env w true).acceptingAnswers = false := by
          simp [evaluateAnswer, hacc]
        rw [hf, e1]
        show w.gameState.correctCount + 1 + 0 ≤ w.gameState.questionsAsked
        omega
    | false =>
      have hg : (evaluateAnswer env w false).gameState =
          { w.gameState with streak := 0, phase := Phase.showFeedback } := by
        simp [evaluateAnswer, hacc]
      have hf : (evaluateAnswer env w false).acceptingAnswers = false := by
        simp [evaluateAnswer, hacc]
      refine ⟨?_, ?_, ?_, ?_⟩
      · intro h
        rw [hf] at h
        cases h
      · rw [hg]
        exact Nat.zero_le _
      · rw [hg]
        exact h3
      · rw [hf, hg]
        show w.gameState.correctCount + 0 ≤ w.gameState.questionsAsked
        omega

theorem counterInv_le {env : Env} {w : World} (h : CounterInv env w) :
    w.gameState.correctCount ≤ w.gameState.questionsAsked := by
  have h4 := h.2.2.2
  split at h4 <;> omega

theorem step_counter (env : Env) (w : World) (e : Event) (h : CounterInv env w) :
    CounterInv env (step env w e) := by
  have hle := counterInv_le h
  obtain ⟨h1, h2, h3, h4⟩ := h
  cases e with
  | select ok => exact evaluateAnswer_counter env w ok ⟨h1, h2, h3, h4⟩
  | timer =>
    simp only [step, autoAdvance]
    split
    · exact ⟨h1, h2, h3, h4⟩
    · split
      · exact gameOver_counter env _ h2 h3 hle
      · exact startQuestionRound_counter env _ h1 h2 h3 hle
  | click action =>
    cases action with
    | topicPrev =>
      simp only [step, handleUIButton]
      split <;> exact ⟨h1, h2, h3, h4⟩
    | topicNext =>
      simp only [step, handleUIButton]
      split <;> exact ⟨h1, h2, h3, h4⟩
    | roundMinus => exact ⟨h1, h2, h3, h4⟩
    | roundPlus => exact ⟨h1, h2, h3, h4⟩
    | adaptiveToggle => exact ⟨h1, h2, h3, h4⟩
    | chooseTopic => exact ⟨h1, h2, h3, h4⟩
    | startOrNext =>
      simp only [step, handleUIButton]
      split
      · exact startQuestionRound_counter env _ h1 (le_refl 0) (le_refl 0) (le_refl 0)
      · split
        · exact ⟨h1, h2, h3, h4⟩
        · split
          · exact startQuestionRound_counter env _ h1 h2 h3 hle
          · exact ⟨h1, h2, h3, h4⟩
    | restartRound =>
      exact startQuestionRound_counter env _ h1 (le_refl 0) (le_refl 0) (le_refl 0)
    | reviewOnly =>
      simp only [step, handleUIButton]
      split
      · exact startQuestionRound_counter env _ h1 (le_refl 0) (le_refl 0) (le_refl 0)
      · exact ⟨h1, h2, h3, h4⟩

theorem initWorld_counter (env : Env) (ws : WordStore) (ts : TopicStore) :
    CounterInv env (initWorld env ws ts) := by
  refine ⟨?_, le_refl _, le_refl _, le_refl _⟩
  intro h
  cases h

theorem run_counter (env : Env) (es : List Event) (w : World) (h : CounterInv env w) :
    CounterInv env (run env w es) := by
  induction es generalizing w with
  | nil => exact h
  | cons e rest ih => exact ih (step env w e) (step_counter env w e h)

/-! ### Rounding to binary64 and non-finite numbers -/

theorem double_accuracy_small :
    ∀ c : Nat, c < 21 → ∀ t : Nat, t < 21 → 0 < t →
      jsRound (toDouble (toDouble ((c : ℚ) / (t : ℚ)) * 100)) =
        jsRound (100 * (c : ℚ) / (t : ℚ)) := by
  decide!

theorem difficultyFor_clamped (host : Host) (store : WordStore) (topic en : String) :
    1 / 2 ≤ difficultyFor host store topic en ∧ difficultyFor host store topic en ≤ 4 := by
  unfold difficultyFor
  constructor
  · exact le_max_left _ _
  · apply max_le
    · norm_num
    · exact min_le_left _ _

theorem difficultyOfParsed_finite (host : Host) (store : WordStore) (topic en : String) :
    difficultyOfParsed (getWordStats host store topic en).parsed =
      JsNum.fin (difficultyFor host store topic en) := by
  unfold difficultyOfParsed difficultyFor WordStats.parsed
  simp only [JsNum.add, JsNum.sub, JsNum.neg, JsNum.mul, JsNum.isZero, JsNum.isPositive]
  by_cases h : (getWordStats host store topic en).streakWord = 0 ∧
      (getWordStats host store topic en).seen > 0
  · simp [h, JsNum.add, JsNum.min, JsNum.max, sub_eq_add_neg]
  · have hb : (decide ((getWordStats host store topic en).streakWord = 0) &&
        decide (0 < (getWordStats host store topic en).seen)) = false := by
      simpa using h
    simp only [hb, h, if_false, Bool.false_eq_true, JsNum.add, JsNum.min, JsNum.max,
      sub_eq_add_neg]

theorem difficultyOfParsed_cases (s : ParsedStats) :
    (difficultyOfParsed s = JsNum.nan ↔
      (s.wrong = JsNum.nan ∨ s.correct = JsNum.nan ∨
        (s.wrong = JsNum.posInf ∧ s.correct = JsNum.posInf) ∨
        (s.wrong = JsNum.negInf ∧ s.correct = JsNum.negInf))) ∧
    (difficultyOfParsed s ≠ JsNum.nan →
      ∃ d, difficultyOfParsed s = JsNum.fin d ∧ 1 / 2 ≤ d ∧ d ≤ 4) := by
  obtain ⟨seen, correct, wrong, streakWord⟩ := s
  have hp : ∀ b : Bool, ∃ p : ℚ, (if b then JsNum.fin (1 / 2) else JsNum.fin 0) = JsNum.fin p := by
    intro b
    cases b
    · exact ⟨0, rfl⟩
    · exact ⟨1 / 2, rfl⟩
  obtain ⟨p, hpen⟩ := hp (streakWord.isZero && seen.isPositive)
  unfold difficultyOfParsed
  simp only [hpen]
  cases wrong <;> cases correct <;>
    simp [JsNum.add, JsNum.sub, JsNum.neg, JsNum.mul, JsNum.min, JsNum.max]
  all_goals norm_num

/-! ## The claims -/

/-- C1: whenever `buildQuestion` returns a question (for every catalog, every
option set, every stored statistics and every sequence of random draws),
`correctIndex` is a valid index, `0 ≤ correctIndex < options.length`, and
`options[correctIndex].en` equals `prompt.en`. -/
theorem buildQuestion_correctIndex_valid (host : Host) (store : WordStore) (pkg : Option Pkg)
    (opts : Opts) (pos : Nat) (q : Question)
    (h : (buildQuestion host store pkg opts pos).1 = some q) :
    0 ≤ q.correctIndex ∧ q.correctIndex < q.options.length ∧
      (q.options[q.correctIndex.toNat]?).map AnswerOption.en = some q.prompt.en := by
  obtain ⟨pool, prompt, M, -, hnd, -, rfl⟩ := buildQuestion_eq_some host store pkg opts pos q h
  obtain ⟨shuffled, -, -, hp, hperm, hidx⟩ :=
    assembleQuestion_parts host pkg pool M prompt (pos + 1) hnd
  have hmem : ∃ l ∈ (assembleQuestion host pkg pool M prompt (pos + 1)).1.options.map
      AnswerOption.en, (fun l => decide (l = prompt.2.en)) l = true := by
    refine ⟨prompt.2.en, hperm.mem_iff.mpr ?_, by simp⟩
    simp
  obtain ⟨h0, hlt, x, hx, hpx⟩ := findIndex_of_exists _ _ hmem
  rw [← hidx] at h0 hlt hx
  refine ⟨h0, by simpa using hlt, ?_⟩
  rw [hp]
  have hxe : x = prompt.2.en := by simpa using hpx
  rw [List.getElem?_map] at hx
  rw [hx, hxe]

/-- C1 at a concrete input: the question built from `twinPkg` with all draws
`0` has prompt `cat`, options `cat`, `cat` and `correctIndex = 0`. -/
theorem buildQuestion_correctIndex_valid_witness :
    (0 : Int) ≤ 0 ∧ (0 : Int) < [AnswerOption.mk "cat", AnswerOption.mk "cat"].length ∧
      ([AnswerOption.mk "cat", AnswerOption.mk "cat"][(0 : Int).toNat]?).map AnswerOption.en
        = some "cat" :=
  buildQuestion_correctIndex_valid demoHost emptyWordStore (some twinPkg) plainOpts 0
    { prompt := { en := "cat", de := "Katze", topic := "Animals", hint := "" }
      options := [{ en := "cat" }, { en := "cat" }]
      correctIndex := 0 }
    (by decide!)

/-- C2 as stated fails: on the catalog `twinPkg`, whose two entries of the
topic `Animals` share the source text `cat`, `buildQuestion` succeeds with the
option labels `cat`, `cat`: the labels are not pairwise distinct and the
prompt's source text occurs twice. -/
theorem buildQuestion_labels_repeat :
    (buildQuestion demoHost emptyWordStore (some twinPkg) plainOpts 0).1.map
      (fun q => (q.prompt.en, q.options.map AnswerOption.en)) = some ("cat", ["cat", "cat"]) := by
  decide!

/-- C2 (amended): if the source texts of the catalog entries are pairwise
distinct, then for any successful result of `buildQuestion` (any topic, forced
subset, statistics and random draws) all option labels are pairwise distinct
and `prompt.en` occurs among them exactly once. -/
theorem buildQuestion_labels_distinct (host : Host) (store : WordStore) (p : Pkg)
    (opts : Opts) (pos : Nat) (q : Question)
    (hdistinct : (p.entries.map Entry.en).Nodup)
    (h : (buildQuestion host store (some p) opts pos).1 = some q) :
    (q.options.map AnswerOption.en).Nodup ∧
      (q.options.map AnswerOption.en).count q.prompt.en = 1 :=
  labels_nodup_of_distinct host store p opts pos q hdistinct h

/-- C2 (amended) at a concrete input: the question built from `pairPkg` with
all draws `0` has the labels `dog`, `cat`. -/
theorem buildQuestion_labels_distinct_witness :
    (["dog", "cat"].map AnswerOption.mk |>.map AnswerOption.en).Nodup ∧
      (["dog", "cat"].map AnswerOption.mk |>.map AnswerOption.en).count "cat" = 1 :=
  buildQuestion_labels_distinct demoHost emptyWordStore pairPkg plainOpts 0
    { prompt := { en := "cat", de := "Katze", topic := "Animals", hint := "" }
      options := ["dog", "cat"].map AnswerOption.mk
      correctIndex := 1 }
    (by decide) (by decide!)

/-- C3: with `correctPoints = 100` and `streakBonus = 0.15`, in a round that
was fresh (score 0, streak 0) and in which the `n` answers accepted since
were all correct, the score is `100 n + 15 n (n - 1) / 2` and the streak is
`n`; the next accepted correct answer, the `(n + 1)`-th, gains
`round (100 (1 + n · 0.15)) = 100 + 15 n` points and leaves the streak at
`n + 1` (so the first three gains are 100, 115, 130 with streaks 1, 2, 3). -/
theorem correct_streak_scoring (env : Env) (n : Nat) (w : World)
    (hpoints : env.config.correctPoints = 100) (hbonus : env.config.streakBonus = 3 / 20)
    (hrun : CorrectRun env n w) :
    w.gameState.score = 100 * (n : Int) + 15 * ((n * (n - 1) / 2 : Nat) : Int) ∧
    w.gameState.streak = n ∧
    jsRound (100 * (1 + (n : ℚ) * (3 / 20))) = 100 + 15 * (n : Int) ∧
    (w.acceptingAnswers = true →
      (evaluateAnswer env w true).gameState.score = w.gameState.score + (100 + 15 * (n : Int)) ∧
      (evaluateAnswer env w true).gameState.streak = n + 1) := by
  have main : w.gameState.score = 100 * (n : Int) + 15 * ((n * (n - 1) / 2 : Nat) : Int) ∧
      w.gameState.streak = n := by
    induction hrun with
    | fresh w0 h0 h1 => simp [h0, h1]
    | answer hprev hacc ih =>
      rename_i m w1
      obtain ⟨hs, hk⟩ := ih
      obtain ⟨e1, e2⟩ := evaluateAnswer_correct env w1 hacc
      rw [e1, e2, hs, hk, hpoints, hbonus, jsRound_streak]
      refine ⟨?_, rfl⟩
      have htri : (m + 1) * (m + 1 - 1) / 2 = m * (m - 1) / 2 + m := Nat.triangle_succ m
      rw [htri]
      push_cast
      ring
    | other e hprev hk hsel ih =>
      obtain ⟨c1, c2, -⟩ := step_keeps_counters env _ e hk hsel
      rw [c1, c2]
      exact ih
  refine ⟨main.1, main.2, jsRound_streak n, ?_⟩
  intro hacc
  obtain ⟨e1, e2⟩ := evaluateAnswer_correct env w hacc
  rw [e1, e2, main.2, hpoints, hbonus, jsRound_streak]
  exact ⟨rfl, rfl⟩

/-- C3 at a concrete input: three correct answers on `catPkg`, the timer
advancing in between, give the score 100 + 115 + 130. -/
theorem correct_streak_scoring_witness :
    (evaluateAnswer catEnv (step catEnv (evaluateAnswer catEnv (step catEnv
        (evaluateAnswer catEnv catAsked true) Event.timer) true) Event.timer)
        true).gameState.score
      = 100 * ((3 : Nat) : Int) + 15 * ((3 * (3 - 1) / 2 : Nat) : Int) :=
  (correct_streak_scoring catEnv 3 _ rfl rfl
    (CorrectRun.answer
      (CorrectRun.other Event.timer
        (CorrectRun.answer
          (CorrectRun.other Event.timer
            (CorrectRun.answer (CorrectRun.fresh catAsked (by decide!) (by decide!))
              (by decide!))
            rfl (fun _ h => by cases h))
          (by decide!))
        rfl (fun _ h => by cases h))
      (by decide!))).1

/-- C4: `getWordStats` returns the stored record, or the all-zero record when
none is stored, and `difficultyFor` returns
`min 4 (max 0.5 (1 + wrong - 0.5 correct + p))` of the stored record, with
`p = 0.5` if `streakWord = 0` and `seen > 0` and `p = 0` otherwise; for a term
without stored record the difficulty is exactly `1`. -/
theorem difficultyFor_formula (host : Host) (store : WordStore) (topic en : String) :
    getWordStats host store topic en = (store (wordKey host topic en)).getD zeroStats ∧
    difficultyFor host store topic en =
      (match store (wordKey host topic en) with
       | some s =>
         min 4 (max (1 / 2)
           (1 + s.wrong - (1 / 2) * s.correct +
             (if s.streakWord = 0 ∧ s.seen > 0 then 1 / 2 else 0)))
       | none => 1) := by
  unfold difficultyFor getWordStats
  cases h : store (wordKey host topic en) with
  | none =>
    refine ⟨rfl, ?_⟩
    simp only [zeroStats]
    norm_num
  | some s =>
    refine ⟨rfl, ?_⟩
    simp only
    rw [max_min_distrib_left]
    have h4 : max (1 / 2 : ℚ) 4 = 4 := by norm_num
    rw [h4, min_comm]

/-- C5 at the failing input: the stored record
`{"seen":1,"correct":1e400,"wrong":1e400,"streakWord":0}` parses to `correct`
and `wrong` both `Infinity`; `1 + wrong - 0.5 * correct` is then `NaN`, and so
is the result of `Math.max(0.5, Math.min(4.0, ...))`: it does not lie between
`0.5` and `4`. The result is `NaN` exactly when `wrong` or `correct` is `NaN`
or both are the same infinity; for every other record, and so for every
record with finite fields of whatever size, it is a number between `0.5` and
`4`, the one `difficultyFor` computes. -/
theorem difficultyFor_not_a_number :
    difficultyOfParsed overflowStats = JsNum.nan ∧
    (∀ s : ParsedStats,
      (difficultyOfParsed s = JsNum.nan ↔
        (s.wrong = JsNum.nan ∨ s.correct = JsNum.nan ∨
          (s.wrong = JsNum.posInf ∧ s.correct = JsNum.posInf) ∨
          (s.wrong = JsNum.negInf ∧ s.correct = JsNum.negInf))) ∧
      (difficultyOfParsed s ≠ JsNum.nan →
        ∃ d, difficultyOfParsed s = JsNum.fin d ∧ 1 / 2 ≤ d ∧ d ≤ 4)) ∧
    ∀ (host : Host) (store : WordStore) (topic en : String),
      difficultyOfParsed (getWordStats host store topic en).parsed =
        JsNum.fin (difficultyFor host store topic en) ∧
      1 / 2 ≤ difficultyFor host store topic en ∧ difficultyFor host store topic en ≤ 4 :=
  ⟨by decide!, difficultyOfParsed_cases,
   fun host store topic en =>
    ⟨difficultyOfParsed_finite host store topic en,
     difficultyFor_clamped host store topic en⟩⟩

/-- C6: in every state the running program can reach, every event it can
deliver (a hit on a button that `hud.getUIObjects()` offers, which holds
the summary buttons restart, review and choose-topic only while the summary
is visible; an answer selection; the auto-advance timer) leaves the phase
unchanged or moves it along one of the edges `idle → awaitAnswer`,
`finished → awaitAnswer`, `awaitAnswer → showFeedback`,
`showFeedback → awaitAnswer`, `showFeedback → finished`, `finished → idle`,
`idle → finished`; and while the phase is `awaitAnswer` or `showFeedback` no
button resets the round: score, streak, best streak, correct count and retry
queue stay as they are and `questionsAsked` does not decrease. -/
theorem reachable_step_phase (env : Env) (w : World) (e : Event)
    (hreach : Reachable env w) (hoff : offered w e = true) :
    phaseEdge w.gameState.phase (step env w e).gameState.phase = true ∧
    (w.gameState.phase = Phase.awaitAnswer ∨ w.gameState.phase = Phase.showFeedback →
      ∀ action, e = Event.click action →
        (step env w e).gameState.score = w.gameState.score ∧
        (step env w e).gameState.streak = w.gameState.streak ∧
        (step env w e).gameState.bestStreak = w.gameState.bestStreak ∧
        (step env w e).gameState.correctCount = w.gameState.correctCount ∧
        w.gameState.questionsAsked ≤ (step env w e).gameState.questionsAsked ∧
        (step env w e).retryQueue = w.retryQueue) := by
  have hinv := reachable_inv env w hreach
  refine ⟨(step_inv_edge env w e hinv hoff).2, ?_⟩
  intro hph action he
  subst he
  have hs : w.summaryVisible = false :=
    hinv.summary_false (by rcases hph with h | h <;> simp [h])
  apply step_keeps_counters env w _ ?_ (fun _ h => by cases h)
  cases action with
  | startOrNext => simpa [keepsRound] using hph
  | restartRound =>
    have : w.summaryVisible = true := hoff
    rw [hs] at this
    cases this
  | reviewOnly =>
    have : w.summaryVisible = true := hoff
    rw [hs] at this
    cases this
  | _ => rfl

/-- C6 at a concrete input: from `catAsked`, reached by pressing
start, an answer selection moves the phase along an edge. -/
theorem reachable_step_phase_witness :
    phaseEdge catAsked.gameState.phase
      (step catEnv catAsked (Event.select true)).gameState.phase = true :=
  (reachable_step_phase catEnv catAsked (Event.select true)
    (Reachable.step (Event.click Action.startOrNext)
      (Reachable.init emptyWordStore emptyTopicStore) rfl) rfl).1

/-- C7: in every state the running program can reach through the
events it can deliver (the summary buttons only while the summary is visible,
as `hud.getUIObjects()` arranges), an answer selection made while the phase
is not `awaitAnswer` is ignored: the whole state, with score, streak, best
streak, counters, phase, retry queue and stored word statistics, is unchanged.
In any state whatever, a second selection right after a first one is
ignored. -/
theorem reachable_select_ignored (env : Env) (w : World) (ok : Bool)
    (hreach : Reachable env w) (hphase : w.gameState.phase ≠ Phase.awaitAnswer) :
    evaluateAnswer env w ok = w ∧
    ∀ (v : World) (first second : Bool),
      evaluateAnswer env (evaluateAnswer env v first) second = evaluateAnswer env v first := by
  have hacc := (reachable_inv env w hreach).acc_false hphase
  refine ⟨by simp [evaluateAnswer, hacc], ?_⟩
  intro v first second
  cases hv : v.acceptingAnswers with
  | false =>
    have h1 : ∀ b, evaluateAnswer env v b = v := by
      intro b
      simp [evaluateAnswer, hv]
    rw [h1 first, h1 second]
  | true =>
    have h2 : (evaluateAnswer env v first).acceptingAnswers = false := by
      simp [evaluateAnswer, hv]
    generalize evaluateAnswer env v first = u at h2
    simp [evaluateAnswer, h2]

/-- C7 at a concrete input: an answer selection in the initial
state (phase `idle`) changes nothing. -/
theorem reachable_select_ignored_witness :
    evaluateAnswer catEnv catInit true = catInit :=
  (reachable_select_ignored catEnv catInit true
    (Reachable.init emptyWordStore emptyTopicStore) (by decide!)).1

/-- C8 as stated fails: `startQuestionRound` increments before it calls
`buildQuestion` and does not undo it. On `blankTopicPkg` (selected topic
`Misc`, carried by no entry) the call returns `null` and the step leaves
`questionsAsked` and `round` at 1 instead of 0. In review mode the cursor
moves too: after a finished round on `Animals` and a switch to `Colors`, the
review pool is `cat`; the step started by `reviewOnly` cannot build a question
for `cat` in `Colors` and leaves the cursor at 1 instead of 0. -/
theorem startQuestionRound_failure_increments :
    (buildQuestion blankEnv.host blankInit.wordStore blankEnv.wordsPkg
      (roundOptions blankEnv blankInit (forcedPool blankInit 1)) blankInit.randomCalls).1
      = none ∧
    blankInit.gameState.questionsAsked = 0 ∧
    blankInit.gameState.round = 0 ∧
    (startQuestionRound blankEnv blankInit true).gameState.questionsAsked = 1 ∧
    (startQuestionRound blankEnv blankInit true).gameState.round = 1 ∧
    (hueSwitched.lastHardWords.map (fun hw => hw.en)).take hueEnv.config.reviewMax = ["cat"] ∧
    (buildQuestion hueEnv.host (enterReview hueSwitched ["cat"]).wordStore hueEnv.wordsPkg
      (roundOptions hueEnv (enterReview hueSwitched ["cat"])
        (forcedPool (enterReview hueSwitched ["cat"]) 1))
      (enterReview hueSwitched ["cat"]).randomCalls).1 = none ∧
    (enterReview hueSwitched ["cat"]).reviewMode.index = 0 ∧
    (startQuestionRound hueEnv (enterReview hueSwitched ["cat"]) true).reviewMode.index = 1 ∧
    (startQuestionRound hueEnv (enterReview hueSwitched ["cat"]) true).gameState.questionsAsked
      = 1 := by
  decide!

/-- C8 (amended): when the per-question step `startQuestionRound` reaches its
call of `buildQuestion` (words loaded, round not complete, review pool not
exhausted) and the call returns `null`, the phase and `acceptingAnswers` keep
their values and `currentQ` becomes `null`, while `questionsAsked` has been
incremented by one, `round` set to the new `questionsAsked`, and in review
mode the review cursor advanced by one. -/
theorem startQuestionRound_build_fails (env : Env) (w : World)
    (hpkg : env.wordsPkg.isSome = true)
    (hmore : ¬ ((w.gameState.questionsAsked : Int) ≥ w.gameState.roundSize))
    (hpool : ¬ (w.reviewMode.active = true ∧
      w.reviewMode.index ≥ w.reviewMode.pool.length))
    (hnull : (buildQuestion env.host w.wordStore env.wordsPkg
      (roundOptions env w (forcedPool w (w.gameState.questionsAsked + 1)))
      w.randomCalls).1 = none) :
    (startQuestionRound env w true).gameState.phase = w.gameState.phase ∧
    (startQuestionRound env w true).gameState.questionsAsked = w.gameState.questionsAsked + 1 ∧
    (startQuestionRound env w true).gameState.round = w.gameState.questionsAsked + 1 ∧
    (startQuestionRound env w true).reviewMode.index =
      (if w.reviewMode.active = true then w.reviewMode.index + 1 else w.reviewMode.index) ∧
    (startQuestionRound env w true).currentQ = none ∧
    (startQuestionRound env w true).acceptingAnswers = w.acceptingAnswers := by
  have hpkg2 : env.wordsPkg.isNone = false := by
    cases h : env.wordsPkg with
    | none => rw [h] at hpkg; cases hpkg
    | some _ => rfl
  have hpool2 : (w.reviewMode.active && decide (w.reviewMode.index ≥ w.reviewMode.pool.length))
      = false := by
    cases hact : w.reviewMode.active with
    | false => rfl
    | true =>
      have : ¬ w.reviewMode.index ≥ w.reviewMode.pool.length := fun h => hpool ⟨hact, h⟩
      simp [this]
  unfold startQuestionRound
  rw [hpkg2]
  simp only [Bool.false_eq_true, if_false, Bool.not_true, if_neg hmore, hpool2, hnull]
  cases hact : w.reviewMode.active <;> simp

/-- C8 (amended) at a concrete input: the failing step on `blankTopicPkg`
leaves `questionsAsked` incremented. -/
theorem startQuestionRound_build_fails_witness :
    (startQuestionRound blankEnv blankInit true).gameState.questionsAsked =
      blankInit.gameState.questionsAsked + 1 :=
  (startQuestionRound_build_fails blankEnv blankInit rfl (by decide!) (by decide!)
    (by decide!)).2.1

/-- C9 as stated fails: with `maxRetries = 2`, the term `cat` has a retry
entry with `attempts = 1` in `catSecond` (adaptive mode on, review mode
inactive); the wrong answer to the second question makes `attempts` 2, which
is `≥ maxRetries`, and yet the entry stays in the queue, with
`dueAt = 2 + 3`. -/
theorem retry_second_wrong_stays :
    catEnv.config.maxRetries = 2 ∧
    catSecond.adaptiveOn = true ∧ catSecond.reviewMode.active = false ∧
    catSecond.acceptingAnswers = true ∧ promptEn catSecond = "cat" ∧
    catSecond.retryQueue = [{ en := "cat", topic := "Animals", dueAt := 4, attempts := 1 }] ∧
    (evaluateAnswer catEnv catSecond false).retryQueue =
      [{ en := "cat", topic := "Animals", dueAt := 5, attempts := 2 }] := by
  decide!

/-- C9 (amended): with adaptive mode on and review mode inactive, an accepted
wrong answer for a term whose retry entry has `attempts = a` increments
`attempts` to `a + 1` and sets `dueAt` to the current question number plus
`retryAfter` if `a < maxRetries`, and removes the entry otherwise
(`a ≥ maxRetries`); the entries of all other terms are untouched. -/
theorem retry_wrong_existing (env : Env) (w : World) (item : RetryItem)
    (hacc : w.acceptingAnswers = true) (hadaptive : w.adaptiveOn = true)
    (hreview : w.reviewMode.active = false)
    (hentry : retryEntries w.retryQueue (promptEn w) = [item]) :
    retryEntries (evaluateAnswer env w false).retryQueue (promptEn w) =
      (if item.attempts < env.config.maxRetries then
        [{ item with
           attempts := item.attempts + 1
           dueAt := w.gameState.questionsAsked + env.config.retryAfter }]
      else []) ∧
    ∀ other, other ≠ promptEn w →
      retryEntries (evaluateAnswer env w false).retryQueue other =
        retryEntries w.retryQueue other := by
  refine ⟨evaluateAnswer_wrong_entries env w item hacc hadaptive hreview hentry, ?_⟩
  intro other hne
  rw [evaluateAnswer_retryQueue env w false hacc]
  simp only [hadaptive, hreview, Bool.not_false, Bool.and_self, if_true]
  exact updateRetryQueue_other _ _ _ _ _ _ _ (Ne.symm hne)

/-- C9 (amended) at a concrete input: the second wrong answer for `cat` in
`catSecond`. -/
theorem retry_wrong_existing_witness :
    retryEntries (evaluateAnswer catEnv catSecond false).retryQueue (promptEn catSecond) =
      (if (1 : Nat) < catEnv.config.maxRetries then
        [{ en := "cat", topic := "Animals"
           dueAt := catSecond.gameState.questionsAsked + catEnv.config.retryAfter
           attempts := 1 + 1 }]
      else []) :=
  (retry_wrong_existing catEnv catSecond
    { en := "cat", topic := "Animals", dueAt := 4, attempts := 1 }
    (by decide!) (by decide!) (by decide!) (by decide!)).1

/-- C10: with adaptive mode on and review mode inactive, after the wrong
answer that created the retry entry of a term, and as long as the round is
not reset and no other answer for the term is accepted, the entry is in the
queue with `attempts = j + 1` after `j < maxRetries` further wrong answers
for the term, and after the `maxRetries`-th further wrong answer the queue
holds no entry for the term, so the term is not found as due at any question
number (`maxRetries ≥ 1`; for `maxRetries = 2`: still queued after one further
wrong answer, removed by the second). -/
theorem retry_entry_lifetime (env : Env) (en : String) (j : Nat) (w : World)
    (hmax : 1 ≤ env.config.maxRetries) (hrun : WrongRun env en j w) :
    (j < env.config.maxRetries →
      ∃ item, retryEntries w.retryQueue en = [item] ∧ item.attempts = j + 1) ∧
    (j = env.config.maxRetries →
      retryEntries w.retryQueue en = [] ∧
      ∀ asked, (w.retryQueue.find? (fun it => decide (it.dueAt ≤ asked))).map RetryItem.en
        ≠ some en) := by
  have inv : (j < env.config.maxRetries →
      ∃ item, retryEntries w.retryQueue en = [item] ∧ item.attempts = j + 1) ∧
      (j = env.config.maxRetries → retryEntries w.retryQueue en = []) := by
    induction hrun with
    | created hacc had hrev hen hnone =>
      rename_i w0
      constructor
      · intro _
        rw [evaluateAnswer_retryQueue env w0 false hacc]
        simp only [had, hrev, Bool.not_false, Bool.and_self, if_true]
        rw [hen]
        exact ⟨_, updateRetryQueue_wrong_new _ _ _ _ _ hnone, rfl⟩
      · intro h0
        omega
    | wrong hprev hacc had hrev hen ih =>
      rename_i k w0
      have hstep : ∀ item, retryEntries w0.retryQueue en = [item] →
          retryEntries (evaluateAnswer env w0 false).retryQueue en =
            if item.attempts < env.config.maxRetries then
              [{ item with
                 attempts := item.attempts + 1
                 dueAt := w0.gameState.questionsAsked + env.config.retryAfter }]
            else [] := by
        intro item hitem
        have := evaluateAnswer_wrong_entries env w0 item hacc had hrev (by rw [hen]; exact hitem)
        rw [hen] at this
        exact this
      constructor
      · intro hlt
        obtain ⟨item, hitem, hatt⟩ := ih.1 (by omega)
        rw [hstep item hitem, if_pos (by omega)]
        exact ⟨_, rfl, by simp [hatt]⟩
      · intro heq
        obtain ⟨item, hitem, hatt⟩ := ih.1 (by omega)
        rw [hstep item hitem, if_neg (by omega)]
    | other e hprev hk hsel ih =>
      rw [step_keeps_retryEntries env _ e en hk hsel]
      exact ih
  refine ⟨inv.1, fun heq => ⟨inv.2 heq, ?_⟩⟩
  intro asked hfound
  have hnil := inv.2 heq
  cases hf : w.retryQueue.find? (fun it => decide (it.dueAt ≤ asked)) with
  | none => rw [hf] at hfound; cases hfound
  | some it =>
    rw [hf] at hfound
    have hen : it.en = en := by simpa using hfound
    have hmem : it ∈ retryEntries w.retryQueue en :=
      List.mem_filter.mpr ⟨List.mem_of_find?_eq_some hf, by simpa using hen⟩
    rw [hnil] at hmem
    cases hmem

/-- C10 at a concrete input (`maxRetries = 2`): on `catPkg` the first wrong
answer creates the entry of `cat`; after one further wrong answer the entry
is in the queue with `attempts = 2`, after the second further wrong answer
the queue holds no entry for `cat`. -/
theorem retry_entry_lifetime_witness :
    (∃ item,
      retryEntries (evaluateAnswer catEnv (step catEnv (evaluateAnswer catEnv catAsked false)
        Event.timer) false).retryQueue "cat" = [item] ∧ item.attempts = 1 + 1) ∧
    retryEntries (evaluateAnswer catEnv (step catEnv (evaluateAnswer catEnv (step catEnv
      (evaluateAnswer catEnv catAsked false) Event.timer) false) Event.timer)
      false).retryQueue "cat" = [] :=
  ⟨(retry_entry_lifetime catEnv "cat" 1 _ (by decide)
      (WrongRun.wrong
        (WrongRun.other Event.timer
          (WrongRun.created (by decide!) (by decide!) (by decide!) (by decide!) (by decide!))
          rfl (fun _ h => by cases h))
        (by decide!) (by decide!) (by decide!) (by decide!))).1 (by decide),
   ((retry_entry_lifetime catEnv "cat" 2 _ (by decide)
      (WrongRun.wrong
        (WrongRun.other Event.timer
          (WrongRun.wrong
            (WrongRun.other Event.timer
              (WrongRun.created (by decide!) (by decide!) (by decide!) (by decide!)
                (by decide!))
              rfl (fun _ h => by cases h))
            (by decide!) (by decide!) (by decide!) (by decide!))
          rfl (fun _ h => by cases h))
        (by decide!) (by decide!) (by decide!) (by decide!))).2 rfl).1⟩

/-- C11: with adaptive mode on and review mode inactive, a wrong answer at
question number `q` for a term without retry entry leaves exactly one entry
for the term, with `attempts = 1` and `dueAt = q + retryAfter`. In every state
whose queue holds that entry unchanged, the entry fails the due test
`dueAt <= questionsAsked` at every question number below `q + retryAfter`
(the term is not forced) and passes it at every question number from
`q + retryAfter` on (the first due entry is forced; it is this term when no
other entry is due). -/
theorem retry_entry_created (env : Env) (w : World)
    (hacc : w.acceptingAnswers = true) (hadaptive : w.adaptiveOn = true)
    (hreview : w.reviewMode.active = false)
    (hnone : retryEntries w.retryQueue (promptEn w) = []) :
    ∃ item : RetryItem,
      retryEntries (evaluateAnswer env w false).retryQueue (promptEn w) = [item] ∧
      item.en = promptEn w ∧ item.attempts = 1 ∧
      item.dueAt = w.gameState.questionsAsked + env.config.retryAfter ∧
      ∀ v : World, v.adaptiveOn = true → v.reviewMode.active = false →
        retryEntries v.retryQueue (promptEn w) = [item] → ∀ asked : Nat,
        (asked < w.gameState.questionsAsked + env.config.retryAfter →
          (∀ it ∈ v.retryQueue, it.en = promptEn w → ¬ it.dueAt ≤ asked) ∧
          forcedPool v asked ≠ some [promptEn w]) ∧
        (w.gameState.questionsAsked + env.config.retryAfter ≤ asked →
          item ∈ v.retryQueue ∧ item.dueAt ≤ asked ∧
          (∃ due ∈ v.retryQueue, due.dueAt ≤ asked ∧ forcedPool v asked = some [due.en]) ∧
          ((∀ it ∈ v.retryQueue, it.dueAt ≤ asked → it.en = promptEn w) →
            forcedPool v asked = some [promptEn w])) := by
  have hq := evaluateAnswer_retryQueue env w false hacc
  rw [hadaptive, hreview] at hq
  simp only [Bool.not_false, Bool.and_self, if_true] at hq
  have hnew := updateRetryQueue_wrong_new env.config w.retryQueue (promptEn w)
    (strOr ((w.currentQ.map (fun q => q.prompt.topic)).getD "")
      (optOr w.gameState.selectedTopic "All")) w.gameState.questionsAsked hnone
  rw [← hq] at hnew
  refine ⟨_, hnew, rfl, rfl, rfl, ?_⟩
  intro v hva hvr hv asked
  have hmem : ∀ it, it ∈ v.retryQueue → it.en = promptEn w →
      it.dueAt = w.gameState.questionsAsked + env.config.retryAfter := by
    intro it hit hen
    have hin : it ∈ retryEntries v.retryQueue (promptEn w) := by
      unfold retryEntries
      exact List.mem_filter.mpr ⟨hit, by simpa using hen⟩
    rw [hv] at hin
    rw [List.mem_singleton.mp hin]
  have hitem : ({ en := promptEn w
                  topic := strOr ((w.currentQ.map (fun q => q.prompt.topic)).getD "")
                    (optOr w.gameState.selectedTopic "All")
                  dueAt := w.gameState.questionsAsked + env.config.retryAfter
                  attempts := 1 } : RetryItem) ∈ v.retryQueue := by
    have hin : ({ en := promptEn w
                  topic := strOr ((w.currentQ.map (fun q => q.prompt.topic)).getD "")
                    (optOr w.gameState.selectedTopic "All")
                  dueAt := w.gameState.questionsAsked + env.config.retryAfter
                  attempts := 1 } : RetryItem) ∈ retryEntries v.retryQueue (promptEn w) := by
      rw [hv]
      exact List.mem_singleton.mpr rfl
    unfold retryEntries at hin
    exact (List.mem_filter.mp hin).1
  rw [forcedPool_retry v asked hva hvr]
  constructor
  · intro hlt
    constructor
    · intro it hit hen hle
      have := hmem it hit hen
      omega
    · intro hf
      cases hfind : v.retryQueue.find? (fun it => decide (it.dueAt ≤ asked)) with
      | none =>
        rw [hfind] at hf
        cases hf
      | some due =>
        rw [hfind] at hf
        have hen : due.en = promptEn w := by
          have h1 := Option.some.inj hf
          exact List.head_eq_of_cons_eq h1
        have hdue : due.dueAt ≤ asked := by
          simpa using List.find?_some hfind
        have := hmem due (List.mem_of_find?_eq_some hfind) hen
        omega
  · intro hle
    refine ⟨hitem, hle, ?_, ?_⟩
    · cases hfind : v.retryQueue.find? (fun it => decide (it.dueAt ≤ asked)) with
      | none =>
        have hall := List.find?_eq_none.mp hfind _ hitem
        simp at hall
        omega
      | some due =>
        refine ⟨due, List.mem_of_find?_eq_some hfind, ?_, rfl⟩
        simpa using List.find?_some hfind
    · intro honly
      cases hfind : v.retryQueue.find? (fun it => decide (it.dueAt ≤ asked)) with
      | none =>
        have hall := List.find?_eq_none.mp hfind _ hitem
        simp at hall
        omega
      | some due =>
        have hdue : due.dueAt ≤ asked := by
          simpa using List.find?_some hfind
        have hen := honly due (List.mem_of_find?_eq_some hfind) hdue
        simp [hen]

/-- C11 at a concrete input: on `catEnv` a wrong answer to question 5 with
`retryAfter = 3` creates an entry with `attempts = 1` and `dueAt = 8`; `cat`
is not forced at questions 6 and 7 and is forced at question 8. -/
theorem retry_entry_created_witness :
    catFifth.acceptingAnswers = true ∧ catFifth.adaptiveOn = true ∧
    catFifth.reviewMode.active = false ∧
    retryEntries catFifth.retryQueue (promptEn catFifth) = [] ∧
    catFifth.gameState.questionsAsked = 5 ∧ catEnv.config.retryAfter = 3 ∧
    promptEn catFifth = "cat" ∧
    (∃ item : RetryItem,
      retryEntries (evaluateAnswer catEnv catFifth false).retryQueue (promptEn catFifth) =
        [item] ∧
      item.attempts = 1 ∧
      item.dueAt = catFifth.gameState.questionsAsked + catEnv.config.retryAfter) ∧
    forcedPool (evaluateAnswer catEnv catFifth false) 6 = none ∧
    forcedPool (evaluateAnswer catEnv catFifth false) 7 = none ∧
    forcedPool (evaluateAnswer catEnv catFifth false) 8 = some ["cat"] := by
  have h1 : catFifth.acceptingAnswers = true := by decide!
  have h2 : catFifth.adaptiveOn = true := by decide!
  have h3 : catFifth.reviewMode.active = false := by decide!
  have h4 : retryEntries catFifth.retryQueue (promptEn catFifth) = [] := by decide!
  obtain ⟨item, hitem, _, hatt, hdue, _⟩ := retry_entry_created catEnv catFifth h1 h2 h3 h4
  exact ⟨h1, h2, h3, h4, by decide!, rfl, by decide!, ⟨item, hitem, hatt, hdue⟩,
    by decide!, by decide!, by decide!⟩

/-- C12: the summary shown by `gameOver` reports
`accuracyPct = round(100 * correctCount / roundSize)`, and `0` when
`roundSize ≤ 0`. A round of size 3 started from `idle` or `finished` over a
non-empty pool (in particular one of exactly 3 terms), in which the three
questions are answered correctly and each answer is followed by an advance
(timer or start/next), ends in phase `finished` with `accuracyPct = 100` and
`bestStreak = 3`. -/
theorem round_accuracy (env : Env) :
    (∀ v : World, (gameOver env v).gameState.phase = Phase.finished ∧
      ∃ s, (gameOver env v).summary = some s ∧
        s.accuracyPct =
          (if v.gameState.roundSize ≤ 0 then 0
           else jsRound (100 * (v.gameState.correctCount : ℚ) /
             (v.gameState.roundSize : ℚ)))) ∧
    ∀ (w : World) (a1 a2 a3 : Event),
      (w.gameState.phase = Phase.idle ∨ w.gameState.phase = Phase.finished) →
      w.gameState.roundSize = 3 →
      listByTopic env.wordsPkg (orNull w.gameState.selectedTopic) ≠ [] →
      advances env a1 = true → advances env a2 = true → advances env a3 = true →
      (run env w [Event.click Action.startOrNext, Event.select true, a1, Event.select true, a2,
        Event.select true, a3]).gameState.phase = Phase.finished ∧
      ∃ s, (run env w [Event.click Action.startOrNext, Event.select true, a1,
          Event.select true, a2, Event.select true, a3]).summary = some s ∧
        s.accuracyPct = 100 ∧ s.bestStreak = 3 ∧ s.correct = 3 ∧ s.total = 3 := by
  constructor
  · intro v
    obtain ⟨h1, s, h2, h3, _⟩ := gameOver_summary env v
    exact ⟨h1, s, h2, h3⟩
  · intro w a1 a2 a3 hphase hsize hpool h1 h2 h3
    have hpkg := listByTopic_isSome _ _ hpool
    obtain ⟨s0, hs0⟩ : ∃ s0 : World, s0 = resetRoundState
        { w with summaryVisible := false
                 reviewMode := { w.reviewMode with active := false } } := ⟨_, rfl⟩
    have hstart : step env w (Event.click Action.startOrNext) =
        startQuestionRound env s0 true := by
      rw [hs0]
      simp only [step, handleUIButton]
      rw [if_pos hphase]
    have hs0g : s0.gameState.roundSize = w.gameState.roundSize ∧
        s0.gameState.selectedTopic = w.gameState.selectedTopic := by
      rw [hs0]
      exact ⟨rfl, rfl⟩
    obtain ⟨p1, r1, t1, q1, s1, b1, c1, u1, v1, m1⟩ := ask_then_correct env s0 0
      (by rw [hs0g.2]; exact hpool) (by rw [hs0g.1, hsize]; decide)
      (by rw [hs0]; rfl) (by rw [hs0]; rfl) (by rw [hs0]; rfl) (by rw [hs0]; rfl)
      (by rw [hs0]; rfl) (by rw [hs0]; rfl)
    obtain ⟨x1, hx1, gx1, qx1, rx1⟩ := advances_step env _ a1 hpkg h1 p1 m1 v1
    obtain ⟨p2, r2, t2, q2, s2, b2, c2, u2, v2, m2⟩ := ask_then_correct env x1 1
      (by rw [gx1, t1, hs0g.2]; exact hpool) (by rw [gx1, r1, hs0g.1, hsize]; decide)
      (by rw [gx1, q1]) (by rw [gx1, s1]) (by rw [gx1, b1]) (by rw [gx1, c1])
      (by rw [qx1, u1]) rx1
    obtain ⟨x2, hx2, gx2, qx2, rx2⟩ := advances_step env _ a2 hpkg h2 p2 m2 v2
    obtain ⟨p3, r3, t3, q3, s3, b3, c3, u3, v3, m3⟩ := ask_then_correct env x2 2
      (by rw [gx2, t2, gx1, t1, hs0g.2]; exact hpool)
      (by rw [gx2, r2, gx1, r1, hs0g.1, hsize]; decide)
      (by rw [gx2, q2]) (by rw [gx2, s2]) (by rw [gx2, b2]) (by rw [gx2, c2])
      (by rw [qx2, u2]) rx2
    obtain ⟨x3, hx3, gx3, _, _⟩ := advances_step env _ a3 hpkg h3 p3 m3 v3
    have hsz : x3.gameState.roundSize = 3 := by
      rw [gx3, r3, gx2, r2, gx1, r1, hs0g.1]
      exact hsize
    have hover : startQuestionRound env x3 true = gameOver env x3 := by
      apply startQuestionRound_over env x3 hpkg
      rw [hsz, gx3, q3]
      decide
    have hrun : run env w [Event.click Action.startOrNext, Event.select true, a1,
        Event.select true, a2, Event.select true, a3] = gameOver env x3 := by
      show step env (step env (step env (step env (step env (step env
        (step env w (Event.click Action.startOrNext)) (Event.select true)) a1)
        (Event.select true)) a2) (Event.select true)) a3 = gameOver env x3
      rw [hstart]
      show step env (step env (step env (step env (step env
        (evaluateAnswer env (startQuestionRound env s0 true) true) a1)
        (Event.select true)) a2) (Event.select true)) a3 = gameOver env x3
      rw [hx1]
      show step env (step env (step env
        (evaluateAnswer env (startQuestionRound env x1 true) true) a2)
        (Event.select true)) a3 = gameOver env x3
      rw [hx2]
      show step env (evaluateAnswer env (startQuestionRound env x2 true) true) a3 =
        gameOver env x3
      rw [hx3, hover]
    rw [hrun]
    obtain ⟨g1, s, g2, g3, g4, g5, g6, _⟩ := gameOver_summary env x3
    refine ⟨g1, s, g2, ?_, ?_, ?_, ?_⟩
    · rw [g3, hsz, gx3, c3]
      decide!
    · rw [g4, gx3, b3]
    · rw [g5, gx3, c3]
    · rw [g6, hsz]

/-- C12 at a concrete input: on the three-term catalog `trioPkg` with round
size 3, three correct answers, each followed by the timer, end the round in
`finished` with `accuracyPct = 100` and `bestStreak = 3`. -/
theorem round_accuracy_witness :
    (trioStart.gameState.phase = Phase.idle ∨ trioStart.gameState.phase = Phase.finished) ∧
    trioStart.gameState.roundSize = 3 ∧
    (listByTopic trioEnv.wordsPkg (orNull trioStart.gameState.selectedTopic)).length = 3 ∧
    (run trioEnv trioStart [Event.click Action.startOrNext, Event.select true, Event.timer,
        Event.select true, Event.timer, Event.select true,
        Event.timer]).gameState.phase = Phase.finished ∧
    ∃ s, (run trioEnv trioStart [Event.click Action.startOrNext, Event.select true,
        Event.timer, Event.select true, Event.timer, Event.select true,
        Event.timer]).summary = some s ∧
      s.accuracyPct = 100 ∧ s.bestStreak = 3 ∧ s.correct = 3 ∧ s.total = 3 :=
  ⟨by decide!, by decide!, by decide!,
   (round_accuracy trioEnv).2 trioStart Event.timer Event.timer Event.timer (by decide!)
     (by decide!) (by decide!) (by decide!) (by decide!) (by decide!)⟩

/-- C13 (amended): for the stored record `old` of the topic (the all-zero
record when none is stored) and a round result, `updateStatsOnGameOver`
returns the record with `plays + 1`, the two totals increased by `total` and
`correct`, and the three best-fields max-merged with `score`, `bestStreak` and
`Math.round((correct / total) * 100)` as binary64 arithmetic computes it (`0`
when `total ≤ 0`); for `correct ≤ 20` and `1 ≤ total ≤ 20` that number is
`round(100 * correct / total)`. The record returned is what the store then
holds for the topic; and over every sequence of such calls, for every topic,
none of the three best-fields decreases. -/
theorem updateStatsOnGameOver_fold (store : TopicStore) (topic : String) (score : Int)
    (correct : Nat) (total : Int) (bestStreak : Nat) :
    (store (statsKey topic) = none → loadStats store topic = zeroTopicStats) ∧
    (∀ old, store (statsKey topic) = some old → loadStats store topic = old) ∧
    (updateStatsOnGameOver store topic score correct total bestStreak).1 =
      { plays := (loadStats store topic).plays + 1
        totalQuestions := (loadStats store topic).totalQuestions + total
        totalCorrect := (loadStats store topic).totalCorrect + correct
        bestScore := max (loadStats store topic).bestScore score
        bestStreak := max (loadStats store topic).bestStreak bestStreak
        bestAccuracyPct := max (loadStats store topic).bestAccuracyPct
          (if total ≤ 0 then 0
           else jsRound (toDouble (toDouble ((correct : ℚ) / (total : ℚ)) * 100))) } ∧
    (∀ c t : Nat, c ≤ 20 → 1 ≤ t → t ≤ 20 →
      jsRound (toDouble (toDouble ((c : ℚ) / (t : ℚ)) * 100)) =
        jsRound (100 * (c : ℚ) / (t : ℚ))) ∧
    (updateStatsOnGameOver store topic score correct total bestStreak).2 (statsKey topic) =
      some (updateStatsOnGameOver store topic score correct total bestStreak).1 ∧
    (∀ key, key ≠ statsKey topic →
      (updateStatsOnGameOver store topic score correct total bestStreak).2 key = store key) ∧
    ∀ (rounds : List RoundResult) (t : String),
      (loadStats store t).bestScore ≤ (loadStats (foldRounds store rounds) t).bestScore ∧
      (loadStats store t).bestStreak ≤ (loadStats (foldRounds store rounds) t).bestStreak ∧
      (loadStats store t).bestAccuracyPct ≤
        (loadStats (foldRounds store rounds) t).bestAccuracyPct := by
  refine ⟨?_, ?_, ?_, ?_, ?_, ?_, fun rounds t => foldRounds_best rounds store t⟩
  · intro h
    simp [loadStats, h]
  · intro old h
    simp [loadStats, h]
  · have hacc : (if total > 0 then
          jsRound (toDouble (toDouble ((correct : ℚ) / (total : ℚ)) * 100)) else 0) =
        (if total ≤ 0 then 0
         else jsRound (toDouble (toDouble ((correct : ℚ) / (total : ℚ)) * 100))) := by
      by_cases ht : total > 0
      · rw [if_pos ht, if_neg (not_le.mpr ht)]
      · rw [if_neg ht, if_pos (not_lt.mp ht)]
    simp only [updateStatsOnGameOver]
    rw [hacc]
  · intro c t hc ht1 ht2
    exact double_accuracy_small c (Nat.lt_succ_of_le hc) t (Nat.lt_succ_of_le ht2) ht1
  · simp [updateStatsOnGameOver, setItem]
  · intro key hkey
    simp [updateStatsOnGameOver, setItem, hkey]

/-- C13 as stated fails: for `correct = 23` and `total = 40` the quotient
`23 / 40` is the binary64 number just below `0.575`, its product with `100` is
`57.49999999999999`, and `updateStatsOnGameOver` stores
`bestAccuracyPct = 57`, while `round(100 * 23 / 40) = round(57.5) = 58`. -/
theorem updateStatsOnGameOver_rounds_down :
    toDouble ((23 : ℚ) / 40) < 23 / 40 ∧
    toDouble (toDouble ((23 : ℚ) / 40) * 100) < 115 / 2 ∧
    (updateStatsOnGameOver emptyTopicStore "Animals" 0 23 40 0).1.bestAccuracyPct = 57 ∧
    jsRound (100 * (23 : ℚ) / 40) = 58 := by
  decide!

/-- C14: `getHardestWords` returns the first `max(0, count)` elements of a
list `sorted` that rearranges the scored entries of the topic, is ordered by
descending difficulty and keeps the entries of each difficulty in catalog
order; its length is the smaller of `max(0, count)` and the size of the
topic-filtered pool, the difficulties along it do not increase, and
`count ≤ 0` gives the empty list. -/
theorem getHardestWords_ranking (host : Host) (store : WordStore) (pkg : Option Pkg)
    (topic : Option String) (count : Int) :
    (∃ sorted : List HardWord,
      getHardestWords host store pkg topic count = sorted.take (max 0 count).toNat ∧
      sorted.Perm ((listByTopic pkg topic).map (scoreEntry host store)) ∧
      sorted.Pairwise (fun a b => b.diff ≤ a.diff) ∧
      ∀ d : ℚ, sorted.filter (fun h => decide (h.diff = d)) =
        ((listByTopic pkg topic).map (scoreEntry host store)).filter
          (fun h => decide (h.diff = d))) ∧
    (getHardestWords host store pkg topic count).length =
      min (max 0 count).toNat (listByTopic pkg topic).length ∧
    (getHardestWords host store pkg topic count).Pairwise (fun a b => b.diff ≤ a.diff) ∧
    (count ≤ 0 → getHardestWords host store pkg topic count = []) := by
  have hdef : getHardestWords host store pkg topic count =
      (((listByTopic pkg topic).map (scoreEntry host store)).insertionSort
        (fun a b : HardWord => b.diff ≤ a.diff)).take (max 0 count).toNat := rfl
  refine ⟨⟨_, hdef, List.perm_insertionSort _ _, insertionSort_diff_sorted _,
    fun d => insertionSort_filter_diff d _⟩, ?_, ?_, ?_⟩
  · rw [hdef, List.length_take, List.length_insertionSort, List.length_map]
  · rw [hdef]
    exact (insertionSort_diff_sorted _).sublist (List.take_sublist _ _)
  · intro hc
    rw [hdef]
    have h0 : (max 0 count).toNat = 0 := by
      rw [max_eq_left hc]
      rfl
    rw [h0, List.take_zero]

/-- C15 (amended): with topic `null` (or the empty string) `getHardestWords`
applies no topic filter: it returns the first `max(0, count)` elements of a
rearrangement of the scored entries of the whole catalog, so `min(3, number of
entries)` terms for count 3. The round-end summary passes `selectedTopic ||
"All"`, and the string `All` is a topic name like any other: only the entries
whose topic is literally `All` are ranked. -/
theorem getHardestWords_unfiltered (host : Host) (store : WordStore) (p : Pkg) (count : Int) :
    listByTopic (some p) none = p.entries.enum ∧
    listByTopic (some p) (some "") = p.entries.enum ∧
    (getHardestWords host store (some p) none 3).length = min 3 p.entries.length ∧
    (getHardestWords host store (some p) (some "") 3).length = min 3 p.entries.length ∧
    (∃ sorted : List HardWord,
      sorted.Perm (p.entries.enum.map (scoreEntry host store)) ∧
      getHardestWords host store (some p) none count = sorted.take (max 0 count).toNat) ∧
    listByTopic (some p) (some "All") =
      p.entries.enum.filter (fun e => decide (e.2.topic = "All")) ∧
    (getHardestWords host store (some p) (some "All") 3).length =
      min 3 (p.entries.filter (fun e => decide (e.topic = "All"))).length ∧
    ∀ (env : Env) (w : World),
      (gameOver env w).lastHardWords =
        getHardestWords env.host w.wordStore env.wordsPkg
          (some (optOr w.gameState.selectedTopic "All")) 3 ∧
      (w.gameState.selectedTopic = none →
        (gameOver env w).lastHardWords =
          getHardestWords env.host w.wordStore env.wordsPkg (some "All") 3) := by
  have hlen : ∀ topic, (getHardestWords host store (some p) topic 3).length =
      min 3 (listByTopic (some p) topic).length := by
    intro topic
    show ((((listByTopic (some p) topic).map (scoreEntry host store)).insertionSort
        (fun a b : HardWord => b.diff ≤ a.diff)).take (max 0 (3 : Int)).toNat).length = _
    rw [List.length_take, List.length_insertionSort, List.length_map]
    rfl
  have hall : listByTopic (some p) (some "All") =
      p.entries.enum.filter (fun e => decide (e.2.topic = "All")) := by
    simp [listByTopic]
  refine ⟨rfl, rfl, ?_, ?_, ⟨_, List.perm_insertionSort _ _, rfl⟩, hall, ?_, ?_⟩
  · rw [hlen]
    simp [listByTopic]
  · rw [hlen]
    simp [listByTopic]
  · rw [hlen, hall]
    congr 1
    have h : p.entries.filter (fun e => decide (e.topic = "All")) =
        (p.entries.enum.filter (fun e => decide (e.2.topic = "All"))).map Prod.snd := by
      conv_lhs => rw [← List.enum_map_snd p.entries, List.filter_map]
      rfl
    rw [h, List.length_map]
  · intro env w
    refine ⟨rfl, ?_⟩
    intro hsel
    show getHardestWords env.host w.wordStore env.wordsPkg
      (some (optOr w.gameState.selectedTopic "All")) 3 = _
    rw [hsel]
    rfl

/-- C15 as stated fails: on the one-entry catalog `catPkg`, with no topic
selected, the round-end summary passes `All` and ranks no term, although the
catalog is not empty; with `null` the one term is ranked. -/
theorem getHardestWords_all_is_a_topic :
    catAll.gameState.selectedTopic = none ∧
    (gameOver catEnv catAll).lastHardWords = [] ∧
    getHardestWords demoHost emptyWordStore (some catPkg) (some "All") 3 = [] ∧
    (getHardestWords demoHost emptyWordStore (some catPkg) none 3).length = 1 ∧
    min 3 catPkg.entries.length = 1 := by
  decide!

/-- C16: with a non-empty forced subset `onlyPool`, `buildQuestion` returns a
question exactly when some entry of the topic-filtered pool has a source text
that equals, after lower-casing both, a member of the subset; the prompt of a
returned question is such an entry, and it carries the requested topic when
one is requested; when there is no such entry the result is `null`. -/
theorem buildQuestion_forced_subset (host : Host) (store : WordStore) (pkg : Option Pkg)
    (opts : Opts) (pos : Nat) (x : String) (xs : List String)
    (hforced : opts.onlyPool = some (x :: xs)) :
    ((buildQuestion host store pkg opts pos).1.isSome = true ↔
      ∃ e ∈ listByTopic pkg (orNull opts.topic), ∃ s ∈ x :: xs,
        host.toLowerCase e.2.en = host.toLowerCase s) ∧
    (∀ q, (buildQuestion host store pkg opts pos).1 = some q →
      ∃ e ∈ listByTopic pkg (orNull opts.topic),
        q.prompt = e.2 ∧
        (∃ s ∈ x :: xs, host.toLowerCase e.2.en = host.toLowerCase s) ∧
        ∀ t, orNull opts.topic = some t → q.prompt.topic = t) ∧
    ((¬ ∃ e ∈ listByTopic pkg (orNull opts.topic), ∃ s ∈ x :: xs,
        host.toLowerCase e.2.en = host.toLowerCase s) →
      (buildQuestion host store pkg opts pos).1 = none) := by
  have hiff : (buildQuestion host store pkg opts pos).1.isSome = true ↔
      ∃ e ∈ listByTopic pkg (orNull opts.topic), ∃ s ∈ x :: xs,
        host.toLowerCase e.2.en = host.toLowerCase s := by
    rw [buildQuestion_isSome_iff]
    constructor
    · intro hne
      obtain ⟨e, he⟩ := List.exists_mem_of_ne_nil _ hne
      obtain ⟨h1, h2⟩ := (mem_promptPool_forced host pkg opts x xs hforced e).mp he
      exact ⟨e, h1, h2⟩
    · rintro ⟨e, h1, h2⟩
      exact List.ne_nil_of_mem ((mem_promptPool_forced host pkg opts x xs hforced e).mpr ⟨h1, h2⟩)
  refine ⟨hiff, ?_, ?_⟩
  · intro q hq
    obtain ⟨prompt, hmem, hqeq⟩ := buildQuestion_some host store pkg opts pos q hq
    obtain ⟨h1, h2⟩ := (mem_promptPool_forced host pkg opts x xs hforced prompt).mp hmem
    have hprompt : q.prompt = prompt.2 := by
      rw [hqeq]
      exact (assembleQuestion_options host pkg _ _ prompt (pos + 1)).1
    refine ⟨prompt, h1, hprompt, h2, ?_⟩
    intro t ht
    rw [hprompt]
    rw [ht] at h1
    exact listByTopic_topic pkg t prompt (orNull_some _ t ht) h1
  · intro hno
    cases hb : (buildQuestion host store pkg opts pos).1 with
    | none => rfl
    | some q =>
      exfalso
      apply hno
      apply hiff.mp
      rw [hb]
      rfl

/-- C16 at a concrete input: on `pairPkg` the forced subset `CAT` (upper
case) yields a question whose prompt is `cat`, and the forced subset `owl`
yields `null`. -/
theorem buildQuestion_forced_subset_witness :
    capsOpts.onlyPool = some ("CAT" :: []) ∧
    ((buildQuestion demoHost emptyWordStore (some pairPkg) capsOpts 0).1.isSome = true ↔
      ∃ e ∈ listByTopic (some pairPkg) (orNull capsOpts.topic),
        ∃ s ∈ "CAT" :: [], demoHost.toLowerCase e.2.en = demoHost.toLowerCase s) ∧
    (buildQuestion demoHost emptyWordStore (some pairPkg) capsOpts 0).1.isSome = true ∧
    ((buildQuestion demoHost emptyWordStore (some pairPkg) capsOpts 0).1.map
      (fun q => q.prompt.en)) = some "cat" ∧
    owlOpts.onlyPool = some ("owl" :: []) ∧
    (buildQuestion demoHost emptyWordStore (some pairPkg) owlOpts 0).1 = none :=
  ⟨rfl,
   (buildQuestion_forced_subset demoHost emptyWordStore (some pairPkg) capsOpts 0 "CAT" []
      rfl).1,
   by decide!, by decide!, rfl,
   (buildQuestion_forced_subset demoHost emptyWordStore (some pairPkg) owlOpts 0 "owl" []
      rfl).2.2 (by decide!)⟩

/-- C17 (amended): `buildQuestion` succeeds exactly when the prompt pool is
non-empty, whatever the number of distractor candidates; a returned question
has `min(M, 1 + c)` options, with `M = max(2, maxOptions || 4)` and `c` the
size of `optsPool`, hence between 1 and `M`. For a catalog of exactly 3 terms
and `maxOptions = 4`, a question has exactly 3 options, the three terms of the
catalog, unless the prompt pool (the terms of the topic, restricted to the
forced subset when one is given) consists of exactly two terms; it then has 2
options. -/
theorem buildQuestion_option_count (host : Host) (store : WordStore) (pkg : Option Pkg)
    (opts : Opts) (pos : Nat) :
    ((buildQuestion host store pkg opts pos).1.isSome = true ↔ promptPool host pkg opts ≠ []) ∧
    ∀ q, (buildQuestion host store pkg opts pos).1 = some q →
      (∃ prompt ∈ promptPool host pkg opts, q.prompt = prompt.2 ∧
        (q.options.length : Int) =
          min (optionLimit opts)
            (1 + ((distractorPool pkg (promptPool host pkg opts) prompt).length : Int))) ∧
      1 ≤ q.options.length ∧ (q.options.length : Int) ≤ optionLimit opts ∧
      ∀ (p : Pkg) (a b c : Entry), pkg = some p → p.entries = [a, b, c] →
        opts.maxOptions = some 4 →
        ((promptPool host pkg opts).length ≠ 2 →
          q.options.length = 3 ∧
            (q.options.map AnswerOption.en).Perm [a.en, b.en, c.en]) ∧
        ((promptPool host pkg opts).length = 2 → q.options.length = 2) := by
  refine ⟨buildQuestion_isSome_iff host store pkg opts pos, ?_⟩
  intro q hq
  obtain ⟨prompt, hmem, hqeq⟩ := buildQuestion_some host store pkg opts pos q hq
  obtain ⟨hprompt, hlen, hperm⟩ :=
    assembleQuestion_options host pkg (promptPool host pkg opts) (optionLimit opts) prompt (pos + 1)
  rw [← hqeq] at hprompt hlen hperm
  have hM := optionLimit_ge opts
  refine ⟨⟨prompt, hmem, hprompt, ?_⟩, ?_, ?_, ?_⟩
  · rw [hlen]
    omega
  · rw [hlen]
    omega
  · rw [hlen]
    omega
  · intro p a b c hpkg hentries hmax
    subst hpkg
    obtain ⟨hin, _, hd3, hd2⟩ := trio_distractors host p opts a b c prompt hentries hmem
    have hM4 := optionLimit_four opts hmax
    have hnd : (listByTopic (some p) none).Nodup := listByTopic_nodup (some p) none
    have hall : (listByTopic (some p) none).length = 3 := by
      simp [listByTopic, hentries]
    constructor
    · intro hne
      have hD := hd3 hne
      have hDlen := filter_ne_length (listByTopic (some p) none) prompt hnd hin
      rw [hD, hM4] at hlen
      rw [hD, hM4] at hperm
      have hn3 : (max 0 ((4 : Int) - 1)).toNat = 3 := by decide
      rw [hn3] at hlen hperm
      refine ⟨by rw [hlen]; omega, ?_⟩
      have htake : (shuffle host (pos + 1)
          ((listByTopic (some p) none).filter (fun e => decide (e ≠ prompt)))).1.take 3 =
          (shuffle host (pos + 1)
            ((listByTopic (some p) none).filter (fun e => decide (e ≠ prompt)))).1 := by
        apply List.take_of_length_le
        rw [shuffle_length]
        omega
      rw [htake] at hperm
      have hp2 : (prompt :: (shuffle host (pos + 1)
          ((listByTopic (some p) none).filter (fun e => decide (e ≠ prompt)))).1).Perm
          (listByTopic (some p) none) :=
        ((shuffle_perm host (pos + 1) _).cons prompt).trans
          (cons_filter_ne_perm _ prompt hnd hin)
      have hmap : (listByTopic (some p) none).map (fun e => e.2.en) = [a.en, b.en, c.en] := by
        simp only [listByTopic, hentries]
        rfl
      rw [← hmap]
      exact hperm.trans (hp2.map _)
    · intro h2
      rw [hlen, hd2 h2, hM4]
      decide

/-- C17 (amended) at a concrete input: on the three-term catalog `trioPkg`, the
question built without a forced subset has the three terms as its options. -/
theorem buildQuestion_option_count_witness :
    plainOpts.maxOptions = some 4 ∧ (promptPool demoHost (some trioPkg) plainOpts).length = 3 ∧
    ∃ q, (buildQuestion demoHost emptyWordStore (some trioPkg) plainOpts 0).1 = some q ∧
      q.options.length = 3 ∧ (q.options.map AnswerOption.en).Perm ["cat", "dog", "owl"] := by
  obtain ⟨q, hq⟩ := Option.isSome_iff_exists.mp
    (show (buildQuestion demoHost emptyWordStore (some trioPkg) plainOpts 0).1.isSome = true by
      decide!)
  exact ⟨rfl, by decide!, q, hq,
    (((buildQuestion_option_count demoHost emptyWordStore (some trioPkg) plainOpts 0).2 q
      hq).2.2.2 trioPkg _ _ _ rfl rfl rfl).1 (by decide!)⟩

/-- C17 as stated fails: on the three-term catalog `trioPkg` with
`maxOptions = 4`, the forced subset `cat`, `dog` yields a question with two
options. -/
theorem buildQuestion_two_options :
    trioPkg.entries.length = 3 ∧ duoOpts.maxOptions = some 4 ∧
    ∃ q, (buildQuestion demoHost emptyWordStore (some trioPkg) duoOpts 0).1 = some q ∧
      q.options.length = 2 ∧ q.options.map AnswerOption.en = ["dog", "cat"] := by
  decide!

/-- C18: in a review round over `pool` (review mode entered, then
per-question steps, with answers and topic, adaptive or round-size buttons in
between), after `k ≤ n` steps the review selection is still active with its
cursor at `k`. If `k < n`, the next step builds its question by
`buildQuestion` with the forced subset holding just the `k`-th term (counted
from 0) and moves the cursor to `k + 1`; if `k = n`, the next step is
`gameOver`: the phase becomes `finished`, and no question is built (the
current question and the count of random draws stay). -/
theorem review_steps_in_order (env : Env) (pool : List String) (k : Nat) (w : World)
    (hpkg : env.wordsPkg.isSome = true) (hrun : ReviewRun env pool k w)
    (hk : k ≤ pool.length) :
    w.reviewMode = { active := true, pool := pool, index := k } ∧
    (∀ p, pool[k]? = some p →
      (startQuestionRound env w true).currentQ =
        (buildQuestion env.host w.wordStore env.wordsPkg (roundOptions env w (some [p]))
          w.randomCalls).1 ∧
      (startQuestionRound env w true).randomCalls =
        (buildQuestion env.host w.wordStore env.wordsPkg (roundOptions env w (some [p]))
          w.randomCalls).2 ∧
      (startQuestionRound env w true).reviewMode =
        { active := true, pool := pool, index := k + 1 }) ∧
    (k = pool.length →
      (startQuestionRound env w true).gameState.phase = Phase.finished ∧
      ∃ v : World, startQuestionRound env w true = gameOver env v ∧
        v.currentQ = w.currentQ ∧ v.randomCalls = w.randomCalls) := by
  obtain ⟨hr, hq, hs⟩ := reviewRun_inv env pool k w hpkg hrun hk
  refine ⟨hr, ?_, ?_⟩
  · intro p hp
    have hkn : k < pool.length := by
      by_contra hge
      rw [List.getElem?_eq_none (not_lt.mp hge)] at hp
      cases hp
    have hlt : (w.gameState.questionsAsked : Int) < w.gameState.roundSize := by
      rw [hq]
      omega
    have hrev : (w.reviewMode.active &&
        decide (w.reviewMode.index ≥ w.reviewMode.pool.length)) = false := by
      rw [hr]
      simp
      omega
    obtain ⟨a1, a2, _⟩ := startQuestionRound_ask env w hpkg hlt hrev
    have hf : forcedPool w (w.gameState.questionsAsked + 1) = some [p] := by
      unfold forcedPool
      rw [hr]
      simp [hp]
    rw [hf] at a1 a2
    exact ⟨a1, a2, (reviewRun_inv env pool (k + 1) _ hpkg (ReviewRun.asked hrun) hkn).1⟩
  · intro hkn
    by_cases hge : (w.gameState.questionsAsked : Int) ≥ w.gameState.roundSize
    · rw [startQuestionRound_over env w hpkg hge]
      exact ⟨rfl, w, rfl, rfl, rfl⟩
    · have hact : w.reviewMode.active = true := by rw [hr]
      have hidx : w.reviewMode.index ≥ w.reviewMode.pool.length := by
        rw [hr]
        show k ≥ pool.length
        omega
      rw [startQuestionRound_exhausted env w hpkg (not_le.mp hge) hact hidx]
      exact ⟨rfl, _, rfl, rfl, rfl⟩

/-- C18 at a concrete input: the review round over `dog`, `cat` entered from
the summary of `pairDone` asks `dog`, then `cat`, and its third step ends the
round. -/
theorem review_steps_in_order_witness :
    pairEnv.wordsPkg.isSome = true ∧
    (pairDone.lastHardWords.map (fun hw => hw.en)).take pairEnv.config.reviewMax =
      ["dog", "cat"] ∧
    promptEn (startQuestionRound pairEnv (enterReview pairDone ["dog", "cat"]) true) = "dog" ∧
    promptEn (startQuestionRound pairEnv
      (step pairEnv (startQuestionRound pairEnv (enterReview pairDone ["dog", "cat"]) true)
        (Event.select true)) true) = "cat" ∧
    (startQuestionRound pairEnv
      (step pairEnv
        (startQuestionRound pairEnv
          (step pairEnv (startQuestionRound pairEnv (enterReview pairDone ["dog", "cat"]) true)
            (Event.select true)) true)
        (Event.select true)) true).gameState.phase = Phase.finished :=
  ⟨rfl, by decide!, by decide!, by decide!,
   ((review_steps_in_order pairEnv ["dog", "cat"] 2 _ rfl
      (ReviewRun.other (Event.select true)
        (ReviewRun.asked
          (ReviewRun.other (Event.select true)
            (ReviewRun.asked (ReviewRun.entered pairDone)) rfl)) rfl)
      (le_refl 2)).2.2 rfl).1⟩

/-- C19 (amended): `handleUIButton("startOrNext")` in phase `idle` or
`finished` starts a new round. `roundSize` and `selectedTopic` are the same
after as before; `score`, `streak`, `bestStreak` and `correctCount` are 0
afterwards. With a loaded catalog and `roundSize > 0`, `questionsAsked = round
= 1` and the phase is `awaitAnswer` when the selected topic has an entry and
`idle` when it has none; with a loaded catalog and `roundSize ≤ 0` the phase is
`finished`, and without a catalog it is `idle`, with `questionsAsked = round =
0` in both cases. -/
theorem startOrNext_starts_round (env : Env) (w : World)
    (hphase : w.gameState.phase = Phase.idle ∨ w.gameState.phase = Phase.finished) :
    (handleUIButton env w Action.startOrNext).gameState.roundSize = w.gameState.roundSize ∧
    (handleUIButton env w Action.startOrNext).gameState.selectedTopic =
      w.gameState.selectedTopic ∧
    (handleUIButton env w Action.startOrNext).gameState.score = 0 ∧
    (handleUIButton env w Action.startOrNext).gameState.streak = 0 ∧
    (handleUIButton env w Action.startOrNext).gameState.bestStreak = 0 ∧
    (handleUIButton env w Action.startOrNext).gameState.correctCount = 0 ∧
    (env.wordsPkg.isSome = true → 0 < w.gameState.roundSize →
      (handleUIButton env w Action.startOrNext).gameState.questionsAsked = 1 ∧
      (handleUIButton env w Action.startOrNext).gameState.round = 1 ∧
      (listByTopic env.wordsPkg (orNull w.gameState.selectedTopic) ≠ [] →
        (handleUIButton env w Action.startOrNext).gameState.phase = Phase.awaitAnswer) ∧
      (listByTopic env.wordsPkg (orNull w.gameState.selectedTopic) = [] →
        (handleUIButton env w Action.startOrNext).gameState.phase = Phase.idle)) ∧
    (env.wordsPkg.isSome = true → w.gameState.roundSize ≤ 0 →
      (handleUIButton env w Action.startOrNext).gameState.phase = Phase.finished ∧
      (handleUIButton env w Action.startOrNext).gameState.questionsAsked = 0 ∧
      (handleUIButton env w Action.startOrNext).gameState.round = 0) ∧
    (env.wordsPkg = none →
      (handleUIButton env w Action.startOrNext).gameState.phase = Phase.idle ∧
      (handleUIButton env w Action.startOrNext).gameState.questionsAsked = 0 ∧
      (handleUIButton env w Action.startOrNext).gameState.round = 0) := by
  rw [startOrNext_fresh env w hphase]
  obtain ⟨s0, hs0⟩ : ∃ s0 : World, s0 = resetRoundState
      { w with summaryVisible := false
               reviewMode := { w.reviewMode with active := false } } := ⟨_, rfl⟩
  rw [← hs0]
  have z : s0.gameState.roundSize = w.gameState.roundSize ∧
      s0.gameState.selectedTopic = w.gameState.selectedTopic ∧
      s0.gameState.score = 0 ∧ s0.gameState.streak = 0 ∧ s0.gameState.bestStreak = 0 ∧
      s0.gameState.correctCount = 0 ∧ s0.gameState.questionsAsked = 0 ∧
      s0.gameState.round = 0 ∧ s0.gameState.phase = Phase.idle ∧
      s0.retryQueue = [] ∧ s0.reviewMode.active = false := by
    rw [hs0]
    exact ⟨rfl, rfl, rfl, rfl, rfl, rfl, rfl, rfl, rfl, rfl, rfl⟩
  obtain ⟨z1, z2, z3, z4, z5, z6, z7, z8, z9, z10, z11⟩ := z
  obtain ⟨f1, f2, f3, f4, f5, f6, _⟩ := startQuestionRound_frame env s0 true
  refine ⟨f5.trans z1, f6.trans z2, f1.trans z3, f2.trans z4, f3.trans z5, f4.trans z6,
    ?_, ?_, ?_⟩
  · intro hpkg hsize
    have hlt : (s0.gameState.questionsAsked : Int) < s0.gameState.roundSize := by
      rw [z7, z1]
      exact hsize
    have hrev : (s0.reviewMode.active &&
        decide (s0.reviewMode.index ≥ s0.reviewMode.pool.length)) = false := by
      rw [z11]
      rfl
    obtain ⟨_, _, a3, a4, _, a6, a7⟩ := startQuestionRound_ask env s0 hpkg hlt hrev
    have hf : forcedPool s0 (s0.gameState.questionsAsked + 1) = none := by
      simp [forcedPool, z11, z10]
    rw [hf] at a6 a7
    have hpp : promptPool env.host env.wordsPkg (roundOptions env s0 none) =
        listByTopic env.wordsPkg (orNull w.gameState.selectedTopic) := by
      show listByTopic env.wordsPkg (orNull s0.gameState.selectedTopic) = _
      rw [z2]
    refine ⟨by rw [a3, z7], by rw [a4, z7], ?_, ?_⟩
    · intro hpool
      apply (a6 _).1
      rw [buildQuestion_isSome_iff, hpp]
      exact hpool
    · intro hpool
      have hnone : (buildQuestion env.host s0.wordStore env.wordsPkg (roundOptions env s0 none)
          s0.randomCalls).1 = none := by
        cases hb : (buildQuestion env.host s0.wordStore env.wordsPkg (roundOptions env s0 none)
            s0.randomCalls).1 with
        | none => rfl
        | some q =>
          have hs : (buildQuestion env.host s0.wordStore env.wordsPkg
              (roundOptions env s0 none) s0.randomCalls).1.isSome = true := by
            rw [hb]
            rfl
          rw [buildQuestion_isSome_iff, hpp] at hs
          exact absurd hpool hs
      rw [(a7 hnone).1, z9]
  · intro hpkg hsize
    have hge : (s0.gameState.questionsAsked : Int) ≥ s0.gameState.roundSize := by
      rw [z7, z1]
      exact hsize
    rw [startQuestionRound_over env s0 hpkg hge]
    exact ⟨rfl, z7, z8⟩
  · intro hpkg
    have hs : startQuestionRound env s0 true = s0 := by
      unfold startQuestionRound
      rw [if_pos (by rw [hpkg]; rfl)]
    rw [hs]
    exact ⟨z9, z7, z8⟩

/-- C19 (amended) at a concrete input: start pressed in the `idle` state `catInit`. -/
theorem startOrNext_starts_round_witness :
    (catInit.gameState.phase = Phase.idle ∨ catInit.gameState.phase = Phase.finished) ∧
    (handleUIButton catEnv catInit Action.startOrNext).gameState.roundSize =
      catInit.gameState.roundSize ∧
    (handleUIButton catEnv catInit Action.startOrNext).gameState.questionsAsked = 1 ∧
    (handleUIButton catEnv catInit Action.startOrNext).gameState.phase = Phase.awaitAnswer :=
  ⟨by decide!,
   (startOrNext_starts_round catEnv catInit (by decide!)).1,
   ((startOrNext_starts_round catEnv catInit (by decide!)).2.2.2.2.2.2.1 rfl (by decide!)).1,
   ((startOrNext_starts_round catEnv catInit (by decide!)).2.2.2.2.2.2.1 rfl
      (by decide!)).2.2.1 (by decide!)⟩

/-- C19 as stated fails: start pressed in the `idle` state `catInit` changes
the phase to `awaitAnswer` and `questionsAsked` and `round` to 1; start
pressed in the `finished` state `pairDone` resets the score from 345 to 0. -/
theorem startOrNext_alters_state :
    catInit.gameState.phase = Phase.idle ∧ catInit.gameState.questionsAsked = 0 ∧
    catInit.gameState.round = 0 ∧
    (handleUIButton catEnv catInit Action.startOrNext).gameState.phase = Phase.awaitAnswer ∧
    (handleUIButton catEnv catInit Action.startOrNext).gameState.questionsAsked = 1 ∧
    (handleUIButton catEnv catInit Action.startOrNext).gameState.round = 1 ∧
    pairDone.gameState.phase = Phase.finished ∧ pairDone.gameState.score = 345 ∧
    pairDone.gameState.correctCount = 3 ∧
    (handleUIButton pairEnv pairDone Action.startOrNext).gameState.score = 0 ∧
    (handleUIButton pairEnv pairDone Action.startOrNext).gameState.correctCount = 0 := by
  decide!

/-- C20 at the failing input: in the review round entered from the summary of
`pairDone`, with the first review question shown (phase `awaitAnswer`),
`handleUIButton("startOrNext")` leaves the session state, the retry queue and
the pool and cursor of the review selection as they are, and switches the
active flag of the review selection off: after the answer, the next question is
no longer forced from the review pool. -/
theorem startOrNext_ends_review :
    uiOffers pairDone Action.reviewOnly = true ∧
    uiOffers pairReview Action.startOrNext = true ∧
    pairReview.gameState.phase = Phase.awaitAnswer ∧
    pairReview.reviewMode = { active := true, pool := ["dog", "cat"], index := 1 } ∧
    (handleUIButton pairEnv pairReview Action.startOrNext).gameState = pairReview.gameState ∧
    (handleUIButton pairEnv pairReview Action.startOrNext).retryQueue = pairReview.retryQueue ∧
    (handleUIButton pairEnv pairReview Action.startOrNext).reviewMode =
      { active := false, pool := ["dog", "cat"], index := 1 } ∧
    forcedPool (evaluateAnswer pairEnv pairReview true) 2 = some ["cat"] ∧
    forcedPool
      (evaluateAnswer pairEnv (handleUIButton pairEnv pairReview Action.startOrNext) true) 2 =
      none := by
  decide!

/-- C21 at the failing input: after the finished round `catDone` the review
button (offered on the summary) starts a review round over the one term `cat`
and sets the round size to 1; from there `handleUIButton("roundPlus")` gives
the round size 2, below the bound 3, while `handleUIButton("roundMinus")`
gives 3. In every state `roundMinus` leaves a size of at least 3 and
`roundPlus` one of at most 20. -/
theorem roundPlus_below_three :
    uiOffers catDone Action.reviewOnly = true ∧
    catDone.lastHardWords.map (fun h => h.en) = ["cat"] ∧
    catReview.gameState.roundSize = 1 ∧
    uiOffers catReview Action.roundPlus = true ∧
    (handleUIButton catEnv catReview Action.roundPlus).gameState.roundSize = 2 ∧
    (handleUIButton catEnv catReview Action.roundMinus).gameState.roundSize = 3 ∧
    ∀ (env : Env) (w : World),
      3 ≤ (handleUIButton env w Action.roundMinus).gameState.roundSize ∧
      (handleUIButton env w Action.roundPlus).gameState.roundSize ≤ 20 := by
  refine ⟨by decide!, by decide!, by decide!, by decide!, by decide!, by decide!, ?_⟩
  intro env w
  exact ⟨le_max_left _ _, min_le_left _ _⟩

/-- C22: for a non-empty pool with positive weights `w_0 .. w_(n-1)` of total
`S` and a draw `r = u * S` with `0 ≤ u < 1` (so `0 ≤ r < S`), `weightedSample`
returns `pool[i]` for the least index `i` whose cumulative weight
`w_0 + ... + w_i` is at least `r`. That index is the only `k` with
`w_0 + ... + w_(k-1) < r ≤ w_0 + ... + w_k` (for `k = 0`: `r ≤ w_0`), so the
draws selecting candidate `k` form an interval of length `w_k`. -/
theorem weightedSample_interval {α : Type} (pool : List α) (ws : List ℚ) (u : Draw)
    (hlen : ws.length = pool.length) (hne : pool ≠ []) (hpos : ∀ w ∈ ws, 0 < w) :
    0 ≤ u.val * ws.sum ∧ u.val * ws.sum < ws.sum ∧
    ∃ i, i < pool.length ∧ weightedSample pool ws u = pool[i]? ∧
      u.val * ws.sum ≤ (ws.take (i + 1)).sum ∧
      (∀ j, j < i → (ws.take (j + 1)).sum < u.val * ws.sum) ∧
      (i = 0 ∨ (ws.take i).sum < u.val * ws.sum) ∧
      (ws.take (i + 1)).sum = (ws.take i).sum + ws.getD i 0 ∧
      ∀ k, k < pool.length → (k = 0 ∨ (ws.take k).sum < u.val * ws.sum) →
        u.val * ws.sum ≤ (ws.take (k + 1)).sum → k = i := by
  have hwne : ws ≠ [] := by
    intro h
    rw [h] at hlen
    exact hne (List.eq_nil_of_length_eq_zero hlen.symm)
  have hS := sum_pos_of_pos ws hwne hpos
  have hr0 : 0 ≤ u.val * ws.sum := mul_nonneg u.nonneg (le_of_lt hS)
  have hr1 : u.val * ws.sum < ws.sum := by
    have := mul_lt_mul_of_pos_right u.lt_one hS
    linarith
  obtain ⟨i, hi, hwalk, hle, hlt⟩ :=
    weightedWalk_least pool ws (u.val * ws.sum) hlen hne (le_of_lt hr1)
  have hsample : weightedSample pool ws u = pool[i]? := by
    unfold weightedSample
    simp only [foldl_add_eq_sum]
    rw [if_neg (not_le.mpr hS), hwalk, List.getElem?_eq_getElem hi]
  have hprev : i = 0 ∨ (ws.take i).sum < u.val * ws.sum := by
    cases i with
    | zero => exact Or.inl rfl
    | succ i2 => exact Or.inr (hlt i2 (Nat.lt_succ_self i2))
  have hstep : (ws.take (i + 1)).sum = (ws.take i).sum + ws.getD i 0 := by
    have hiw : i < ws.length := hlen ▸ hi
    rw [List.sum_take_succ ws i hiw, List.getD_eq_getElem ws 0 hiw]
  refine ⟨hr0, hr1, i, hi, hsample, hle, hlt, hprev, hstep, ?_⟩
  intro k hk hk1 hk2
  rcases Nat.lt_trichotomy k i with h | h | h
  · exact absurd hk2 (not_le.mpr (hlt k h))
  · exact h
  · exfalso
    rcases hk1 with h0 | hk1
    · omega
    · have hmono := sum_take_mono ws hpos (i + 1) k h
      linarith

/-- C22 at a concrete input: with the weights 1 and 3 (total 4) the first
candidate is returned exactly for the draws `r = 4u` in `[0, 1]` and the
second exactly for those in `(1, 4)`. -/
theorem weightedSample_interval_witness :
    ([1, 3] : List ℚ).length = ["a", "b"].length ∧ ["a", "b"] ≠ [] ∧
    (∀ w ∈ ([1, 3] : List ℚ), 0 < w) ∧ ([1, 3] : List ℚ).sum = 4 ∧
    ∀ u : Draw,
      (weightedSample ["a", "b"] [1, 3] u = some "a" ↔ u.val * 4 ≤ 1) ∧
      (weightedSample ["a", "b"] [1, 3] u = some "b" ↔ 1 < u.val * 4) := by
  have hpos : ∀ w ∈ ([1, 3] : List ℚ), 0 < w := by
    intro w hw
    simp only [List.mem_cons, List.mem_singleton, List.mem_nil_iff, or_false] at hw
    rcases hw with h | h <;> rw [h] <;> norm_num
  have hsum : ([1, 3] : List ℚ).sum = 4 := by norm_num
  refine ⟨rfl, by simp, hpos, hsum, ?_⟩
  intro u
  obtain ⟨_, _, i, hi, hs, hle, hlt, _⟩ :=
    weightedSample_interval ["a", "b"] [1, 3] u rfl (by simp) hpos
  rw [hsum] at hle hlt
  have hi2 : i = 0 ∨ i = 1 := by
    simp only [List.length_cons, List.length_nil] at hi
    omega
  rcases hi2 with h0 | h1
  · subst h0
    have hle1 : u.val * 4 ≤ 1 := by simpa using hle
    rw [hs]
    constructor
    · constructor
      · intro _; exact hle1
      · intro _; rfl
    · constructor
      · intro h; simp at h
      · intro h; linarith
  · subst h1
    have hgt : 1 < u.val * 4 := by
      have := hlt 0 (by decide)
      simpa using this
    rw [hs]
    constructor
    · constructor
      · intro h; simp at h
      · intro h; linarith
    · constructor
      · intro _; exact hgt
      · intro _; rfl

/-- C23 (amended): for every `weightFactor > 0` and difficulties `d1 < d2`,
the weight `max(0.2, 1 + weightFactor * (d - 1))` of `d2` is at least that of
`d1`, and it is strictly greater exactly when `1 + weightFactor * (d2 - 1)`
exceeds the floor `0.2`; for `d1 ≥ 0.5` this is the case whenever
`weightFactor ≤ 1.6`, in particular for the configured `1.2`. These are the
weights adaptive sampling passes to `weightedSample`. -/
theorem sampleWeight_monotone (weightFactor d1 d2 : ℚ) (hw : 0 < weightFactor)
    (hd : d1 < d2) :
    sampleWeight weightFactor d1 ≤ sampleWeight weightFactor d2 ∧
    (sampleWeight weightFactor d1 < sampleWeight weightFactor d2 ↔
      1 / 5 < 1 + weightFactor * (d2 - 1)) ∧
    (1 / 2 ≤ d1 → weightFactor ≤ 8 / 5 →
      sampleWeight weightFactor d1 < sampleWeight weightFactor d2) ∧
    ∀ (host : Host) (store : WordStore) (pool : List EntryRef) (u : Draw),
      choosePrompt host store pool true none weightFactor u =
        weightedSample pool
          (pool.map (fun e =>
            sampleWeight weightFactor (difficultyFor host store e.2.topic e.2.en))) u := by
  have hraw : 1 + weightFactor * (d1 - 1) < 1 + weightFactor * (d2 - 1) := by
    have := mul_lt_mul_of_pos_left (sub_lt_sub_right hd 1) hw
    linarith
  have hiff : sampleWeight weightFactor d1 < sampleWeight weightFactor d2 ↔
      1 / 5 < 1 + weightFactor * (d2 - 1) := by
    unfold sampleWeight
    constructor
    · intro h
      by_contra hle
      rw [max_eq_left (not_lt.mp hle)] at h
      exact absurd h (not_lt.mpr (le_max_left _ _))
    · intro h
      rw [max_eq_right (le_of_lt h)]
      exact max_lt h hraw
  refine ⟨?_, hiff, ?_, fun host store pool u => rfl⟩
  · unfold sampleWeight
    exact max_le_max (le_refl _) (le_of_lt hraw)
  · intro h1 h2
    apply hiff.mpr
    have hd2 : 0 < d2 - 1 / 2 := by linarith
    nlinarith [mul_pos hw hd2, mul_nonneg (le_of_lt hd2) (sub_nonneg.mpr h2)]

/-- C23 (amended) at a concrete input: with the configured factor `6/5` the
difficulties `1/2` and `4` get the weights `2/5` and `23/5`. -/
theorem sampleWeight_monotone_witness :
    (0 : ℚ) < 6 / 5 ∧ (1 / 2 : ℚ) < 4 ∧
    sampleWeight (6 / 5) (1 / 2) = 2 / 5 ∧ sampleWeight (6 / 5) 4 = 23 / 5 ∧
    sampleWeight (6 / 5) (1 / 2) < sampleWeight (6 / 5) 4 :=
  ⟨by norm_num, by norm_num, by decide!, by decide!,
   (sampleWeight_monotone (6 / 5) (1 / 2) 4 (by norm_num) (by norm_num)).2.2.1 (le_refl _)
     (by norm_num)⟩

/-- C23 as stated fails: with `weightFactor = 4` the difficulties `1/2` and
`3/5`, both in `[0.5, 4.0]`, get the same weight, the floor `1/5`. -/
theorem sampleWeight_floor_ties :
    (0 : ℚ) < 4 ∧ (1 / 2 : ℚ) < 3 / 5 ∧ (3 / 5 : ℚ) ≤ 4 ∧
    sampleWeight 4 (1 / 2) = 1 / 5 ∧ sampleWeight 4 (3 / 5) = 1 / 5 ∧
    ¬ sampleWeight 4 (1 / 2) < sampleWeight 4 (3 / 5) := by
  decide!

/-- C24 at the failing input: on `mixPkg` (`cat` and `dog` in `Animals`, `red`
in `Colors`) with topic `Animals` and the forced subset `cat`, the question
has the prompt `cat` and the options `red`, `dog`, `cat`: `red` is no term of
`Animals`, although `Animals` holds `dog` besides the prompt. The same happens
in the running program: the first question of the review round `mixReview`
has the prompt `dog` and the options `red`, `cat`, `dog`. -/
theorem forced_question_leaves_topic :
    catOnlyOpts.topic = some "Animals" ∧ catOnlyOpts.onlyPool = some ["cat"] ∧
    (listByTopic (some mixPkg) (some "Animals")).map (fun e => e.2.en) = ["cat", "dog"] ∧
    (buildQuestion demoHost emptyWordStore (some mixPkg) catOnlyOpts 0).1.map
      (fun q => (q.prompt.en, q.options.map AnswerOption.en)) =
      some ("cat", ["red", "dog", "cat"]) ∧
    mixReview.gameState.selectedTopic = some "Animals" ∧
    mixReview.reviewMode = { active := true, pool := ["dog", "cat"], index := 1 } ∧
    mixReview.currentQ.map (fun q => (q.prompt.en, q.options.map AnswerOption.en)) =
      some ("dog", ["red", "cat", "dog"]) := by
  decide!

/-- C25: in the per-question step with words loaded, the round not complete,
adaptive mode on and review mode inactive, the subset passed to
`buildQuestion` is given by the first retry-queue entry, in the order of the
array (entries are appended at its end), with `dueAt ≤ questionsAsked + 1`:
its source text is forced when there is such an entry, and nothing is forced
when there is none. The step leaves the retry queue as it is. -/
theorem retry_due_first (env : Env) (w : World)
    (hpkg : env.wordsPkg.isSome = true)
    (hlt : (w.gameState.questionsAsked : Int) < w.gameState.roundSize)
    (hadaptive : w.adaptiveOn = true) (hreview : w.reviewMode.active = false) :
    (startQuestionRound env w true).gameState.questionsAsked =
      w.gameState.questionsAsked + 1 ∧
    (startQuestionRound env w true).currentQ =
      (buildQuestion env.host w.wordStore env.wordsPkg
        (roundOptions env w (forcedPool w (w.gameState.questionsAsked + 1))) w.randomCalls).1 ∧
    (∀ due, w.retryQueue.find? (fun it => decide (it.dueAt ≤ w.gameState.questionsAsked + 1)) =
        some due →
      forcedPool w (w.gameState.questionsAsked + 1) = some [due.en] ∧
      due.dueAt ≤ w.gameState.questionsAsked + 1 ∧
      ∃ pre post, w.retryQueue = pre ++ due :: post ∧
        ∀ it ∈ pre, ¬ it.dueAt ≤ w.gameState.questionsAsked + 1) ∧
    ((∀ it ∈ w.retryQueue, ¬ it.dueAt ≤ w.gameState.questionsAsked + 1) →
      forcedPool w (w.gameState.questionsAsked + 1) = none) ∧
    (∀ asked, forcedPool w asked = none ∨ ∃ due ∈ w.retryQueue,
      due.dueAt ≤ asked ∧ forcedPool w asked = some [due.en]) ∧
    (startQuestionRound env w true).retryQueue = w.retryQueue := by
  have hrev : (w.reviewMode.active &&
      decide (w.reviewMode.index ≥ w.reviewMode.pool.length)) = false := by
    rw [hreview]
    rfl
  obtain ⟨a1, _, a3, _⟩ := startQuestionRound_ask env w hpkg hlt hrev
  obtain ⟨_, _, _, _, _, _, _, f8, _⟩ := startQuestionRound_frame env w true
  refine ⟨a3, a1, ?_, ?_, ?_, f8⟩
  · intro due hdue
    obtain ⟨pre, post, heq, hpre, hx⟩ := find?_first _ _ _ hdue
    refine ⟨?_, by simpa using hx, pre, post, heq, ?_⟩
    · rw [forcedPool_retry w _ hadaptive hreview, hdue]
      rfl
    · intro it hit
      simpa using hpre it hit
  · intro hnone
    rw [forcedPool_retry w _ hadaptive hreview]
    have : w.retryQueue.find? (fun it => decide (it.dueAt ≤ w.gameState.questionsAsked + 1)) =
        none := by
      apply List.find?_eq_none.mpr
      intro it hit
      simpa using hnone it hit
    rw [this]
    rfl
  · intro asked
    rw [forcedPool_retry w asked hadaptive hreview]
    cases hf : w.retryQueue.find? (fun it => decide (it.dueAt ≤ asked)) with
    | none => exact Or.inl rfl
    | some due =>
      exact Or.inr ⟨due, List.mem_of_find?_eq_some hf, by simpa using List.find?_some hf, rfl⟩

/-- C25 at a concrete input: in `trioQueued` (question 1 answered; queue
`dog` due at 9, `cat` at 2, `owl` at 1) the step to question 2 forces `cat`,
the first due entry, and keeps the queue. -/
theorem retry_due_first_witness :
    trioEnv.wordsPkg.isSome = true ∧
    (trioQueued.gameState.questionsAsked : Int) < trioQueued.gameState.roundSize ∧
    trioQueued.adaptiveOn = true ∧ trioQueued.reviewMode.active = false ∧
    trioQueued.gameState.questionsAsked = 1 ∧
    forcedPool trioQueued 2 = some ["cat"] ∧
    promptEn (startQuestionRound trioEnv trioQueued true) = "cat" ∧
    (startQuestionRound trioEnv trioQueued true).retryQueue = trioQueued.retryQueue :=
  ⟨rfl, by decide!, by decide!, by decide!, by decide!, by decide!, by decide!,
   (retry_due_first trioEnv trioQueued rfl (by decide!) (by decide!) (by decide!)).2.2.2.2.2⟩

/-- C26: for every array and every sequence of random draws, `shuffle` returns
a rearrangement of its argument: the same length and, for every element, the
same number of occurrences. The index drawn at step `i` lies in `0..i`. The
argument array `arr` holds after the call what it held before: the loop writes
to the copy `a`, which is what the function returns. -/
theorem shuffle_permutation {α : Type} [DecidableEq α] (host : Host) (pos : Nat)
    (arr : List α) :
    (shuffle host pos arr).1.Perm arr ∧
    (shuffle host pos arr).1.length = arr.length ∧
    (∀ x, (shuffle host pos arr).1.count x = arr.count x) ∧
    (∀ (k i : Nat), floorIndex (host.random k) (i + 1) ≤ i) ∧
    (shuffleArrays host pos arr).1.arr = arr ∧
    (shuffleArrays host pos arr).1.a = (shuffle host pos arr).1 ∧
    (shuffleArrays host pos arr).2 = (shuffle host pos arr).2 := by
  have hp := shuffle_perm host pos arr
  obtain ⟨h1, h2, h3⟩ := shuffleArraysLoop_eq host (arr.length - 1) pos { arr := arr, a := arr }
  refine ⟨hp, hp.length_eq, fun x => hp.count_eq x, ?_, h1, h2, h3⟩
  intro k i
  exact Nat.lt_succ_iff.mp (floorIndex_lt (host.random k) (i + 1) (Nat.succ_pos i))

/-- C27: for a stored record with `seen ≥ 0` and `streakWord ≥ 0` (a missing
record reads as all zero), the difficulty after `updateWordStats` with a wrong
answer is at least the difficulty before, and the difficulty after
`updateWordStats` with a correct answer is at most the difficulty before. -/
theorem difficultyFor_update_monotone (host : Host) (store : WordStore) (topic en : String)
    (hseen : 0 ≤ (getWordStats host store topic en).seen)
    (hstreak : 0 ≤ (getWordStats host store topic en).streakWord) :
    difficultyFor host store topic en ≤
      difficultyFor host (updateWordStats host store topic en false).2 topic en ∧
    difficultyFor host (updateWordStats host store topic en true).2 topic en ≤
      difficultyFor host store topic en := by
  constructor
  · unfold difficultyFor
    rw [getWordStats_update]
    apply clamp_mono
    simp only [updateWordStats, Bool.false_eq_true, if_false]
    have hpos : (getWordStats host store topic en).seen + 1 > 0 := by linarith
    split_ifs <;> linarith
  · unfold difficultyFor
    rw [getWordStats_update]
    apply clamp_mono
    simp only [updateWordStats, if_true]
    have hne : ¬ ((getWordStats host store topic en).streakWord + 1 = 0 ∧
        (getWordStats host store topic en).seen + 1 > 0) := by
      intro h
      linarith [h.1]
    split_ifs <;> linarith

/-- C27 at a concrete input: the record of `cat` in `seenStore` (difficulty
`3/2`) rises to `3` after a wrong answer and falls to `1` after a correct
one. -/
theorem difficultyFor_update_monotone_witness :
    0 ≤ (getWordStats demoHost seenStore "Animals" "cat").seen ∧
    0 ≤ (getWordStats demoHost seenStore "Animals" "cat").streakWord ∧
    difficultyFor demoHost seenStore "Animals" "cat" = 3 / 2 ∧
    difficultyFor demoHost (updateWordStats demoHost seenStore "Animals" "cat" false).2
      "Animals" "cat" = 3 ∧
    difficultyFor demoHost (updateWordStats demoHost seenStore "Animals" "cat" true).2
      "Animals" "cat" = 1 ∧
    (difficultyFor demoHost seenStore "Animals" "cat" ≤
      difficultyFor demoHost (updateWordStats demoHost seenStore "Animals" "cat" false).2
        "Animals" "cat" ∧
    difficultyFor demoHost (updateWordStats demoHost seenStore "Animals" "cat" true).2
        "Animals" "cat" ≤
      difficultyFor demoHost seenStore "Animals" "cat") :=
  ⟨by decide!, by decide!, by decide!, by decide!, by decide!,
   difficultyFor_update_monotone demoHost seenStore "Animals" "cat" (by decide!) (by decide!)⟩

/-- C28: in every state reached from the state after `init()` by any sequence
of `handleUIButton` actions, answer selections and timer firings (whether or
not the HUD offers the button), `streak ≤ bestStreak ≤ correctCount ≤
questionsAsked`; the counters are natural numbers, so `0 ≤ streak`. While an
answer is still accepted, `correctCount < questionsAsked`. The states of
`Reachable` are among these. -/
theorem counters_ordered (env : Env) (ws : WordStore) (ts : TopicStore) :
    (∀ es : List Event,
      (run env (initWorld env ws ts) es).gameState.streak ≤
        (run env (initWorld env ws ts) es).gameState.bestStreak ∧
      (run env (initWorld env ws ts) es).gameState.bestStreak ≤
        (run env (initWorld env ws ts) es).gameState.correctCount ∧
      (run env (initWorld env ws ts) es).gameState.correctCount ≤
        (run env (initWorld env ws ts) es).gameState.questionsAsked ∧
      ((run env (initWorld env ws ts) es).acceptingAnswers = true →
        (run env (initWorld env ws ts) es).gameState.correctCount <
          (run env (initWorld env ws ts) es).gameState.questionsAsked)) ∧
    ∀ w : World, Reachable env w →
      w.gameState.streak ≤ w.gameState.bestStreak ∧
      w.gameState.bestStreak ≤ w.gameState.correctCount ∧
      w.gameState.correctCount ≤ w.gameState.questionsAsked := by
  constructor
  · intro es
    have h := run_counter env es _ (initWorld_counter env ws ts)
    refine ⟨h.2.1, h.2.2.1, counterInv_le h, ?_⟩
    intro hacc
    have h4 := h.2.2.2
    rw [hacc] at h4
    exact h4
  · intro w hw
    have h : CounterInv env w := by
      induction hw with
      | init ws2 ts2 => exact initWorld_counter env ws2 ts2
      | step e _ _ ih => exact step_counter env _ e ih
    exact ⟨h.2.1, h.2.2.1, counterInv_le h⟩

/-- C29 at the failing input: in the round `catShrunk` four questions are
answered correctly with round size 10, the round size is then lowered to 3
while the fifth question is shown, and after the fifth correct answer the
timer ends the round: `correctCount = 5` exceeds `roundSize = 3`, the summary
shows `accuracyPct = 167`, and the topic record gets `bestAccuracyPct = 167`,
`totalQuestions = 3` and `totalCorrect = 5`. -/
theorem accuracy_above_hundred :
    catShrunk.gameState.phase = Phase.finished ∧
    catShrunk.gameState.questionsAsked = 5 ∧
    catShrunk.gameState.correctCount = 5 ∧
    catShrunk.gameState.roundSize = 3 ∧
    catShrunk.summary.map (fun s => s.accuracyPct) = some 167 ∧
    (loadStats catShrunk.topicStore "Animals").bestAccuracyPct = 167 ∧
    (loadStats catShrunk.topicStore "Animals").totalQuestions = 3 ∧
    (loadStats catShrunk.topicStore "Animals").totalCorrect = 5 := by
  decide!

/-- C30: if the source texts of the catalog entries are pairwise distinct,
then in every question `buildQuestion` returns (any topic, forced subset,
adaptive flag, statistics and random draws) the option labels are pairwise
distinct, so are the options, and the source text of the prompt occurs among
the labels exactly once. -/
theorem buildQuestion_labels_unique (host : Host) (store : WordStore) (p : Pkg)
    (opts : Opts) (pos : Nat) (q : Question)
    (hdistinct : (p.entries.map Entry.en).Pairwise (fun a b => a ≠ b))
    (h : (buildQuestion host store (some p) opts pos).1 = some q) :
    (q.options.map AnswerOption.en).Pairwise (fun a b => a ≠ b) ∧
    q.options.Pairwise (fun a b => a ≠ b) ∧
    (q.options.map AnswerOption.en).count q.prompt.en = 1 := by
  obtain ⟨h1, h2⟩ := labels_nodup_of_distinct host store p opts pos q hdistinct h
  exact ⟨h1, List.Nodup.of_map AnswerOption.en h1, h2⟩

/-- C30 at a concrete input: on the three-term catalog `trioPkg` the question
built with adaptive sampling has the labels `owl`, `dog`, `cat`. -/
theorem buildQuestion_labels_unique_witness :
    (trioPkg.entries.map Entry.en).Pairwise (fun a b => a ≠ b) ∧
    ∃ q, (buildQuestion demoHost emptyWordStore (some trioPkg)
        { plainOpts with adaptive := true } 0).1 = some q ∧
      q.options.map AnswerOption.en = ["owl", "dog", "cat"] ∧
      (q.options.map AnswerOption.en).Pairwise (fun a b => a ≠ b) ∧
      (q.options.map AnswerOption.en).count q.prompt.en = 1 := by
  have hd : (trioPkg.entries.map Entry.en).Pairwise (fun a b => a ≠ b) := by decide!
  obtain ⟨q, hq⟩ := Option.isSome_iff_exists.mp
    (show (buildQuestion demoHost emptyWordStore (some trioPkg)
      { plainOpts with adaptive := true } 0).1.isSome = true by decide!)
  have hl : (buildQuestion demoHost emptyWordStore (some trioPkg)
      { plainOpts with adaptive := true } 0).1.map (fun q => q.options.map AnswerOption.en) =
      some ["owl", "dog", "cat"] := by decide!
  rw [hq] at hl
  have h := buildQuestion_labels_unique demoHost emptyWordStore trioPkg
    { plainOpts with adaptive := true } 0 q hd hq
  exact ⟨hd, q, hq, Option.some.inj hl, h.1, h.2.2⟩

end VocabXR
